import Mathlib

/-!
# esp8266_mdns: packet codec

A shallow embedding of `src/mdns.cpp` / `src/mdns.h` (the mDNS packet encoder and
decoder) together with theorems about it.

Modelling conventions

* A byte array (`byte data_buffer[]`, `char name_buffer[]`) is a map from the index
  to the cell content, `Bytes`.  Storing into a cell keeps the low eight bits of
  the stored value, as the conversion to `byte` / `char` does.  A `char` cell is
  represented by its bit pattern `0..255`.
* The map goes on behind the declared size of the array.  A cell at an index from the
  declared size on stands for the memory behind the array, and the array functions
  are the program as long as no store goes there.  `Reachable` and the bounds in the
  statements about `PopulateAnswerResult` keep the stores inside; `MDns.spill` says
  which members of the `MDns` object the cells behind `data_buffer` are; the stores
  of the decoder behind `rdata_buffer` are stated as such and not followed further.
* `unsigned int` and `unsigned long` are 32 bit wide on the ESP8266; the counters
  wrap modulo `2^32`.  Cursors into arrays are natural numbers.
* `(x & 0xFF00) >> 8` is `x / 256 % 256`, `x & 0xFF` is `x % 256`, `b << 8` is
  `b * 256`, `b & 0x7F` is `b % 128`, `b & 0x80` is non zero iff `b / 128 % 2 = 1`.
* A function that takes a `char*` (`PopulateName`) reads the name array as memory: the
  loop condition of `PopulateName` looks at the cell behind the terminating NUL, so the
  theorems ask for an array that is zero behind the name.
* Loops that the source does not bound (the `do .. while` of `PopulateName`, the
  recursion of `nameFromDnsPointer`) take a fuel argument and return `none` when the
  fuel runs out.
* Where one expression holds several `buffer_pointer++`, C++ does not fix the order
  in which they are carried out.  The model follows g++, the compiler of the ESP8266
  toolchain: the operands of `+` are taken as written, the arguments of a call from
  the last to the first (`argRank`).
* `Serial` output and the UDP transport are not part of the model; a received
  datagram is the list of its bytes.
-/

namespace mdns

/-! ## Constants of `mdns.h` -/

def MDNS_TYPE_A : Nat := 0x0001
def MDNS_TYPE_PTR : Nat := 0x000C
def MDNS_TYPE_HINFO : Nat := 0x000D
def MDNS_TYPE_TXT : Nat := 0x0010
def MDNS_TYPE_AAAA : Nat := 0x001C
def MDNS_TYPE_SRV : Nat := 0x0021

def MAX_PACKET_SIZE : Nat := 4096
def MAX_MDNS_NAME_LEN : Nat := 256

/-! ## Memory -/

/-- Content of a byte array, addressed from its first element. -/
abbrev Bytes := Nat → Nat

/-- Assignment `b[i] = v` to a `byte` or `char` cell. -/
def Bytes.set (b : Bytes) (i v : Nat) : Bytes :=
  fun j => if j = i then v % 256 else b j

/-- Assignment `b[i] = v` where the index is a signed `int`; a negative index
lies in front of the array and leaves the array itself as it was (the caller says
which cell in front of the array is hit). -/
def Bytes.setInt (b : Bytes) (i : Int) (v : Nat) : Bytes :=
  if 0 ≤ i then b.set i.toNat v else b

/-- The array that holds the bytes of `l` followed by zero bytes. -/
def ofList (l : List Nat) : Bytes := fun i => l.getD i 0

/-- Character codes of a string literal. -/
def chars (s : String) : List Nat := s.toList.map Char.toNat

/-- The C string stored in `b`: the cells in front of the first NUL among the
first `cap` cells, starting at index `i`. -/
def cstrFrom (b : Bytes) : Nat → Nat → List Nat
  | 0, _ => []
  | cap + 1, i => if b i = 0 then [] else b i :: cstrFrom b cap (i + 1)

/-- The C string held by an array of `cap` cells. -/
def cstr (b : Bytes) (cap : Nat) : List Nat := cstrFrom b cap 0

/-- Library function `strlen` on an array of `cap` cells. -/
def strlen (b : Bytes) (cap : Nat) : Nat := (cstr b cap).length

/-- Conversion to a 32 bit unsigned integer. -/
def u32 (x : Nat) : Nat := x % 4294967296

/-- Rendering of `%u`: decimal digits. -/
def fmtU (n : Nat) : List Nat := (Nat.toDigits 10 n).map Char.toNat

/-- One upper case hexadecimal digit. -/
def hexDigit (d : Nat) : Nat := if d < 10 then 48 + d else 55 + d

/-- Rendering of `%02X` for a byte. -/
def fmt02X (b : Nat) : List Nat := [hexDigit (b / 16 % 16), hexDigit (b % 16)]

/-- Consecutive assignments `b[off] = l[0]; b[off + 1] = l[1]; ..`. -/
def Bytes.write (b : Bytes) (off : Nat) : List Nat → Bytes
  | [] => b
  | c :: l => Bytes.write (b.set off c) (off + 1) l

/-- Library function `sprintf(b + off, ..)` once the format is rendered to `s`:
the characters of `s` followed by a NUL. -/
def sprintf (b : Bytes) (off : Nat) (s : List Nat) : Bytes := b.write off (s ++ [0])

/-! ## Data model -/

/-- A single mDNS query (`struct Query`). -/
structure Query where
  buffer_pointer : Nat
  qname_buffer : Bytes
  qtype : Nat
  qclass : Nat
  unicast_response : Bool
  valid : Bool

/-- A single mDNS answer (`struct Answer`). -/
structure Answer where
  buffer_pointer : Nat
  name_buffer : Bytes
  rdata_buffer : Bytes
  rrtype : Nat
  rrclass : Nat
  rrttl : Nat
  rrset : Bool
  valid : Bool

/-- Data members of `class MDns` that the codec uses. -/
structure MDns where
  data_size : Nat
  buffer_pointer : Nat
  data_buffer : Bytes
  type : Bool
  truncated : Bool
  query_count : Nat
  answer_count : Nat
  ns_count : Nat
  ar_count : Nat

/-- The statement `data_buffer[buffer_pointer++] = v`. -/
def MDns.put (m : MDns) (v : Nat) : MDns :=
  { m with data_buffer := m.data_buffer.set m.buffer_pointer v,
           buffer_pointer := m.buffer_pointer + 1 }

/-! ## Name decoding -/

/-- Source: `writeToBuffer`.  Returns the array and the new `*p_name_buffer_pos`;
no caller looks at the boolean result. -/
def writeToBuffer (value : Nat) (p_name_buffer : Bytes) (name_buffer_pos name_buffer_len : Nat) :
    Bytes × Nat :=
  if name_buffer_pos < name_buffer_len - 1 then
    (((p_name_buffer.set name_buffer_pos value).set (name_buffer_pos + 1) 0), name_buffer_pos + 1)
  else
    (p_name_buffer, name_buffer_pos + 1)

/-- The loop `for (l = 0; l < word_len; l++) writeToBuffer(packet[pos++], ..)`, shared
by `nameFromDnsPointer` and `parseText`; `n` is the number of rounds left.  Returns the
output array, the output position and the packet position. -/
def copyToBuffer (p_packet_buffer : Bytes) (name_buffer_len : Nat) :
    Nat → Bytes → Nat → Nat → Bytes × Nat × Nat
  | 0, nb, nbpos, pos => (nb, nbpos, pos)
  | n + 1, nb, nbpos, pos =>
    let w := writeToBuffer (p_packet_buffer pos) nb nbpos name_buffer_len
    copyToBuffer p_packet_buffer name_buffer_len n w.1 w.2 (pos + 1)

/-- Source: `parseText`. -/
def parseText (data_buffer : Bytes) (data_buffer_len data_len : Nat)
    (p_packet_buffer : Bytes) (packet_buffer_pos : Nat) : Bytes × Nat :=
  let r := copyToBuffer p_packet_buffer data_buffer_len data_len data_buffer 0 packet_buffer_pos
  (r.1.set r.2.1 0, r.2.2)

/-- Source: `nameFromDnsPointer`.  The first argument bounds the depth of the
recursion.  Returns the output array and the returned packet position. -/
def nameFromDnsPointer : Nat → Bytes → Nat → Nat → Bytes → Nat → Option (Bytes × Nat)
  | 0, _, _, _, _, _ => none
  | fuel + 1, p_name_buffer, name_buffer_pos, name_buffer_len, p_packet_buffer, packet_buffer_pos =>
    let w0 := if name_buffer_pos > 0 then
        writeToBuffer 46 p_name_buffer (name_buffer_pos - 1) name_buffer_len
      else (p_name_buffer, name_buffer_pos)
    if p_packet_buffer packet_buffer_pos < 0xC0 then
      let word_len := p_packet_buffer packet_buffer_pos
      let c := copyToBuffer p_packet_buffer name_buffer_len word_len w0.1 w0.2
        (packet_buffer_pos + 1)
      let w1 := writeToBuffer 0 c.1 c.2.1 name_buffer_len
      if p_packet_buffer c.2.2 > 0 then
        nameFromDnsPointer fuel w1.1 w1.2 name_buffer_len p_packet_buffer c.2.2
      else
        some (w1.1, c.2.2 + 1)
    else
      let pointer := (p_packet_buffer packet_buffer_pos - 0xC0) * 256
        + p_packet_buffer (packet_buffer_pos + 1)
      match nameFromDnsPointer fuel w0.1 w0.2 name_buffer_len p_packet_buffer pointer with
      | none => none
      | some r => some (r.1, packet_buffer_pos + 2)

/-! ## Building a packet -/

/-- Source: `MDns::Clear`. -/
def MDns.Clear (m : MDns) : MDns :=
  { m with
    data_buffer := (((((((((((m.data_buffer.set 0 0).set 1 0).set 2 0).set 3 0).set 4 0).set 5 0).set
      6 0).set 7 0).set 8 0).set 9 0).set 10 0).set 11 0,
    data_size := 12,
    buffer_pointer := 12,
    type := false,
    query_count := 0,
    answer_count := 0,
    ns_count := 0,
    ar_count := 0 }

/-- The loop `for (i = word_start; i < word_end; ++i) data_buffer[buffer_pointer++] =
name_buffer[i]` of `PopulateName`; `n` is the number of rounds left. -/
def copyWord (name_buffer : Bytes) : Nat → Nat → Bytes → Nat → Bytes × Nat
  | 0, _, buf, bp => (buf, bp)
  | n + 1, i, buf, bp => copyWord name_buffer n (i + 1) (buf.set bp (name_buffer i)) (bp + 1)

/-- The `do .. while` loop of `PopulateName` over the state `data_buffer`,
`buffer_pointer`, `word_start`, `word_end`; one unit of fuel per round.
`word_start <= word_end` holds in every round, so `word_end - word_start` is the
difference of the source. -/
def populateLoop (name_buffer : Bytes) : Nat → Bytes → Nat → Nat → Nat → Option (Bytes × Nat)
  | 0, _, _, _, _ => none
  | fuel + 1, buf, bp, word_start, word_end =>
    if name_buffer word_end = 46 ∨ name_buffer word_end = 0 then
      let word_length := word_end - word_start
      let r := copyWord name_buffer word_length word_start (buf.set bp word_length) (bp + 1)
      if name_buffer (word_end + 1) ≠ 0 then
        populateLoop name_buffer fuel r.1 r.2 (word_end + 1) (word_end + 1 + 1)
      else some r
    else
      if name_buffer word_start ≠ 0 then
        populateLoop name_buffer fuel buf bp word_start (word_end + 1)
      else some (buf, bp)

/-- Source: `MDns::PopulateName`.  Returns the new state and the number of bytes
written. -/
def MDns.PopulateName (fuel : Nat) (m : MDns) (name_buffer : Bytes) : Option (MDns × Nat) :=
  match populateLoop name_buffer fuel m.data_buffer m.buffer_pointer 0 0 with
  | none => none
  | some r =>
    some ({ m with data_buffer := r.1.set r.2 0, buffer_pointer := r.2 + 1 },
      r.2 + 1 - m.buffer_pointer)

/-- Source: `MDns::AddQuery`. -/
def MDns.AddQuery (fuel : Nat) (m : MDns) (query : Query) : Option MDns :=
  if m.answer_count ≠ 0 ∨ m.ns_count ≠ 0 ∨ m.ar_count ≠ 0 then
    some m
  else
    let query_count := u32 (m.query_count + 1)
    let m1 := { m with
      data_buffer := ((m.data_buffer.set 2 0).set 4 (query_count / 256 % 256)).set 5
        (query_count % 256),
      type := true,
      query_count := query_count }
    match m1.PopulateName fuel query.qname_buffer with
    | none => none
    | some (m2, _) =>
      let m3 := (m2.put (query.qtype / 256 % 256)).put (query.qtype % 256)
      let qclass := u32 ((if query.unicast_response then 0x8000 else 0) + query.qclass)
      let m4 := (m3.put (qclass / 256 % 256)).put (qclass % 256)
      some { m4 with data_size := m4.buffer_pointer }

/-- Source: `MDns::AddAnswer`.  The local `rdata_len` has no initialiser; `rdata_len0`
is the value it holds when the `switch` is entered. -/
def MDns.AddAnswer (fuel : Nat) (m : MDns) (answer : Answer) (rdata_len0 : Nat) : Option MDns :=
  if m.ns_count ≠ 0 ∨ m.ar_count ≠ 0 then
    some m
  else
    let answer_count := u32 (m.answer_count + 1)
    let m1 := { m with
      data_buffer := (m.data_buffer.set 6 (answer_count / 256 % 256)).set 7 (answer_count % 256),
      answer_count := answer_count }
    match m1.PopulateName fuel answer.name_buffer with
    | none => none
    | some (m2, _) =>
      let m3 := (m2.put (answer.rrtype / 256 % 256)).put (answer.rrtype % 256)
      let rrclass := u32 ((if answer.rrset then 0x8000 else 0) + answer.rrclass)
      let m4 := (m3.put (rrclass / 256 % 256)).put (rrclass % 256)
      let m5 := (((m4.put (answer.rrttl / 16777216 % 256)).put (answer.rrttl / 65536 % 256)).put
        (answer.rrttl / 256 % 256)).put (answer.rrttl % 256)
      let rdata_len_p0 := m5.buffer_pointer
      let rdata_len_p1 := m5.buffer_pointer + 1
      let m6 := { m5 with buffer_pointer := m5.buffer_pointer + 2 }
      let body : Option (MDns × Nat) :=
        if answer.rrtype = MDNS_TYPE_A then
          some ((((m6.put (answer.rdata_buffer 0)).put (answer.rdata_buffer 1)).put
            (answer.rdata_buffer 2)).put (answer.rdata_buffer 3), 4)
        else if answer.rrtype = MDNS_TYPE_PTR then
          m6.PopulateName fuel answer.rdata_buffer
        else
          some (m6, rdata_len0)
      match body with
      | none => none
      | some (m7, rdata_len) =>
        some { m7 with
          data_buffer := (m7.data_buffer.set rdata_len_p0 (rdata_len / 256 % 256)).set rdata_len_p1
            (rdata_len % 256),
          data_size := m7.buffer_pointer }

/-! ## Parsing a packet -/

/-- Source: `MDns::Parse_Query`.  `junk` is the content of the local
`return_value.qname_buffer`, which has no initialiser. -/
def MDns.Parse_Query (fuel : Nat) (m : MDns) (junk : Bytes) : Option (Query × MDns) :=
  match nameFromDnsPointer fuel junk 0 MAX_MDNS_NAME_LEN m.data_buffer m.buffer_pointer with
  | none => none
  | some (qname, p) =>
    let qtype_0 := m.data_buffer p
    let qtype_1 := m.data_buffer (p + 1)
    let qclass_0 := m.data_buffer (p + 2)
    let qclass_1 := m.data_buffer (p + 3)
    let buffer_pointer := p + 4
    let qclass := (qclass_0 % 128) * 256 + qclass_1
    let valid0 := !(qclass ≠ 0xFF ∧ qclass ≠ 0x01)
    let valid := if buffer_pointer > m.data_size then false else valid0
    some ({ buffer_pointer := m.buffer_pointer,
            qname_buffer := qname,
            qtype := qtype_0 * 256 + qtype_1,
            qclass := qclass,
            unicast_response := decide (qclass_0 / 128 % 2 = 1),
            valid := valid },
          { m with buffer_pointer := buffer_pointer })

/-- The loops of the `AAAA` and of the default case of `PopulateAnswerResult`:
`sprintf(rdata + buffer_pos, "%02X<sep>", data_buffer[buffer_pointer++])` while there is
room, `buffer_pos += 3` in every round; `n` is the number of rounds left.  Returns the
output array, `buffer_pos` and `buffer_pointer`. -/
def hexLoop (sep : Nat) (data_buffer : Bytes) : Nat → Bytes → Nat → Nat → Bytes × Nat × Nat
  | 0, rdata, buffer_pos, bp => (rdata, buffer_pos, bp)
  | n + 1, rdata, buffer_pos, bp =>
    if buffer_pos < MAX_MDNS_NAME_LEN - 3 then
      hexLoop sep data_buffer n (sprintf rdata buffer_pos (fmt02X (data_buffer bp) ++ [sep]))
        (buffer_pos + 3) (bp + 1)
    else
      hexLoop sep data_buffer n rdata (buffer_pos + 3) (bp + 1)

/-- The order in which the arguments of one call are evaluated.  C++ leaves it open;
g++, the compiler of the ESP8266 toolchain, takes them from the last to the first: of
four arguments, the one written at place `k` (from 0) is evaluated after `3 - k`
others. -/
def argRank (k : Nat) : Nat := 3 - k

/-- The text of `sprintf(.., "%u.%u.%u.%u", d[bp++], d[bp++], d[bp++], d[bp++])` when the
argument written at place `k` is evaluated after `rank k` others, and so reads the cell
`bp + rank k`; `bp` is the cursor in front of the call. -/
def renderA (rank : Nat → Nat) (d : Bytes) (bp : Nat) : List Nat :=
  fmtU (d (bp + rank 0)) ++ [46] ++ fmtU (d (bp + rank 1)) ++ [46] ++ fmtU (d (bp + rank 2))
    ++ [46] ++ fmtU (d (bp + rank 3))

/-- Source: `MDns::PopulateAnswerResult`.  Takes the answer with `rrtype` set and
returns it with `rdata_buffer` filled, and the state with the cursor moved.  The four
`data_buffer[buffer_pointer++]` of the `A` case are arguments of one call and are taken
in the order `argRank`; the cursor moves by four in any order.  The closing store
`rdata_buffer[--buffer_pos] = 0` of the `AAAA` case has the index -1 when `rdlength` is
0: the cell in front of `rdata_buffer`, which is the last cell of `name_buffer`, the
member declared in front of it in `struct Answer`. -/
def MDns.PopulateAnswerResult (fuel : Nat) (m : MDns) (answer : Answer) : Option (Answer × MDns) :=
  let d := m.data_buffer
  let rdlength := d m.buffer_pointer * 256 + d (m.buffer_pointer + 1)
  let bp := m.buffer_pointer + 2
  if answer.rrtype = MDNS_TYPE_A then
    if MAX_MDNS_NAME_LEN ≥ 16 then
      let text := renderA argRank d bp
      some ({ answer with rdata_buffer := sprintf answer.rdata_buffer 0 text },
            { m with buffer_pointer := bp + 4 })
    else
      some ({ answer with rdata_buffer := sprintf answer.rdata_buffer 0 (chars "ipv4") },
            { m with buffer_pointer := bp + 4 })
  else if answer.rrtype = MDNS_TYPE_PTR then
    match nameFromDnsPointer fuel answer.rdata_buffer 0 MAX_MDNS_NAME_LEN d bp with
    | none => none
    | some r => some ({ answer with rdata_buffer := r.1 }, { m with buffer_pointer := r.2 })
  else if answer.rrtype = MDNS_TYPE_HINFO ∨ answer.rrtype = MDNS_TYPE_TXT then
    let r := parseText answer.rdata_buffer MAX_MDNS_NAME_LEN rdlength d bp
    some ({ answer with rdata_buffer := r.1 }, { m with buffer_pointer := r.2 })
  else if answer.rrtype = MDNS_TYPE_AAAA then
    let r := hexLoop 58 d rdlength answer.rdata_buffer 0 bp
    some ({ answer with
            rdata_buffer := r.1.setInt ((r.2.1 : Int) - 1) 0,
            name_buffer :=
              if r.2.1 = 0 then answer.name_buffer.set (MAX_MDNS_NAME_LEN - 1) 0
              else answer.name_buffer },
          { m with buffer_pointer := r.2.2 })
  else if answer.rrtype = MDNS_TYPE_SRV then
    let priority := d bp * 256 + d (bp + 1)
    let weight := d (bp + 2) * 256 + d (bp + 3)
    let port := d (bp + 4) * 256 + d (bp + 5)
    let rdata := sprintf answer.rdata_buffer 0
      (chars "p=" ++ fmtU priority ++ chars ";w=" ++ fmtU weight ++ chars ";port=" ++ fmtU port
        ++ chars ";target=")
    let len := strlen rdata MAX_MDNS_NAME_LEN
    match nameFromDnsPointer fuel rdata (len + 1) (MAX_MDNS_NAME_LEN - len - 1) d (bp + 6) with
    | none => none
    | some r => some ({ answer with rdata_buffer := r.1 }, { m with buffer_pointer := r.2 })
  else
    let r := hexLoop 32 d rdlength answer.rdata_buffer 0 bp
    some ({ answer with rdata_buffer := r.1 }, { m with buffer_pointer := r.2.2 })

/-- Source: `MDns::Parse_Answer`.  `junkName` and `junkRdata` are the contents of the
two arrays of the local `return_value`, which has no initialiser. -/
def MDns.Parse_Answer (fuel : Nat) (m : MDns) (junkName junkRdata : Bytes) :
    Option (Answer × MDns) :=
  match nameFromDnsPointer fuel junkName 0 MAX_MDNS_NAME_LEN m.data_buffer m.buffer_pointer with
  | none => none
  | some (name, p) =>
    let d := m.data_buffer
    let rrtype := d p * 256 + d (p + 1)
    let rrclass_0 := d (p + 2)
    let rrclass_1 := d (p + 3)
    let rrttl := u32 (d (p + 4) * 16777216 + d (p + 5) * 65536 + d (p + 6) * 256 + d (p + 7))
    let a0 : Answer :=
      { buffer_pointer := m.buffer_pointer,
        name_buffer := name,
        rdata_buffer := junkRdata,
        rrtype := rrtype,
        rrclass := (rrclass_0 % 128) * 256 + rrclass_1,
        rrttl := rrttl,
        rrset := decide (rrclass_0 / 128 % 2 = 1),
        valid := false }
    match MDns.PopulateAnswerResult fuel { m with buffer_pointer := p + 8 } a0 with
    | none => none
    | some (a1, m1) =>
      some ({ a1 with valid := if m1.buffer_pointer > m1.data_size then false else true }, m1)

/-- The query loop of `Check`: `n` items left, `i` the loop counter, `acc` the
queries handed to the query callback so far, oldest first. -/
def parseQueries (fuel : Nat) (hasQueryFn : Bool) (junk : Nat → Bytes) :
    Nat → Nat → MDns → List Query → Option (MDns × List Query)
  | 0, _, m, acc => some (m, acc)
  | n + 1, i, m, acc =>
    match m.Parse_Query fuel (junk i) with
    | none => none
    | some (query, m1) =>
      parseQueries fuel hasQueryFn junk n (i + 1) m1
        (if query.valid then (if hasQueryFn then acc ++ [query] else acc) else acc)

/-- The resource record loop of `Check`: `n` items left, `i` the loop counter, `acc`
the answers handed to the answer callback so far, oldest first. -/
def parseAnswers (fuel : Nat) (hasAnswerFn : Bool) (junkName junkRdata : Nat → Bytes) :
    Nat → Nat → MDns → List Answer → Option (MDns × List Answer)
  | 0, _, m, acc => some (m, acc)
  | n + 1, i, m, acc =>
    match m.Parse_Answer fuel (junkName i) (junkRdata i) with
    | none => none
    | some (answer, m1) =>
      parseAnswers fuel hasAnswerFn junkName junkRdata n (i + 1) m1
        (if answer.valid then (if hasAnswerFn then acc ++ [answer] else acc) else acc)

/-- What one call of `Check` does: the returned boolean, the state afterwards, and
the arguments of the calls of the query callback and of the answer callback, in the
order of the calls (all query calls come before all answer calls). -/
structure CheckResult where
  ret : Bool
  state : MDns
  queries : List Query
  answers : List Answer

/-- The assignment `data_size = Udp.parsePacket()` and the call
`Udp.read(data_buffer, data_size)` of `Check`: the datagram is copied to the front of
`data_buffer`. -/
def MDns.receive (m : MDns) (packet : List Nat) : MDns :=
  { m with
    data_size := packet.length,
    data_buffer := fun i => if i < packet.length then packet.getD i 0 % 256 else m.data_buffer i }

/-- The flag part of `Check` (`type` and `truncated`, from byte 2). -/
def MDns.readFlags (m : MDns) : MDns :=
  { m with
    type := !(decide (m.data_buffer 2 / 128 % 2 = 1)),
    truncated := decide (m.data_buffer 2 / 2 % 2 = 1) }

/-- The header part of `Check` (the four counts, and the cursor set to the start of
the data section). -/
def MDns.readHeader (m : MDns) : MDns :=
  { m with
    query_count := m.data_buffer 4 * 256 + m.data_buffer 5,
    answer_count := m.data_buffer 6 * 256 + m.data_buffer 7,
    ns_count := m.data_buffer 8 * 256 + m.data_buffer 9,
    ar_count := m.data_buffer 10 * 256 + m.data_buffer 11,
    buffer_pointer := 12 }

/-- Source: `MDns::Check`, from `Udp.parsePacket()` on.  `packet` is the datagram that
the transport holds (`data_size` is its length); `hasQueryFn` and `hasAnswerFn` tell
whether `p_query_function_` and `p_answer_function_` are set; the `junk` arguments give
the initial content of the arrays of the local `query` / `answer` of each loop round. -/
def MDns.Check (fuel : Nat) (m : MDns) (packet : List Nat) (hasQueryFn hasAnswerFn : Bool)
    (junkQ junkName junkRdata : Nat → Bytes) : Option CheckResult :=
  if packet.length > 12 then
    let m1 := (m.receive packet).readFlags
    if m1.data_buffer 3 % 16 ≠ 0 then
      some { ret := false, state := m1, queries := [], answers := [] }
    else
      let m2 := m1.readHeader
      match parseQueries fuel hasQueryFn junkQ m2.query_count 0 m2 [] with
      | none => none
      | some (m3, qs) =>
        match parseAnswers fuel hasAnswerFn junkName junkRdata
            (m3.answer_count + m3.ns_count + m3.ar_count) 0 m3 [] with
        | none => none
        | some (m4, rs) => some { ret := true, state := m4, queries := qs, answers := rs }
  else
    some { ret := false, state := { m with data_size := packet.length }, queries := [],
           answers := [] }

/-! ## Names on the wire and in memory -/

/-- The array `b` holds the bytes of `l` from index `s` on. -/
def holds (b : Bytes) : Nat → List Nat → Prop
  | _, [] => True
  | s, c :: l => b s = c ∧ holds b (s + 1) l

/-- The labels joined by `'.'`. -/
def dotted : List (List Nat) → List Nat
  | [] => []
  | [l] => l
  | l :: l' :: ls => l ++ 46 :: dotted (l' :: ls)

/-- The labels on the wire, each behind its length byte, without the closing zero. -/
def wireBody : List (List Nat) → List Nat
  | [] => []
  | l :: ls => l.length :: l ++ wireBody ls

/-- The wire form of a name: length byte and bytes of each label, then a zero. -/
def wire (ls : List (List Nat)) : List Nat := wireBody ls ++ [0]

/-- Offset of the length byte of label number `k` in the wire form. -/
def labelOffset (ls : List (List Nat)) (k : Nat) : Nat :=
  ((ls.take k).map (fun l => l.length + 1)).sum

/-- A label of a dotted name: not empty, at most `maxLen` characters, each a `char`
other than NUL and `'.'`. -/
def Label (maxLen : Nat) (l : List Nat) : Prop :=
  l ≠ [] ∧ l.length ≤ maxLen ∧ ∀ c ∈ l, c ≠ 0 ∧ c ≠ 46 ∧ c < 256

/-- The array `nb` holds, from index `s` on, the labels `ls` separated by `'.'`, and
two NUL behind the last label. -/
def NameAt (nb : Bytes) : Nat → List (List Nat) → Prop
  | _, [] => True
  | s, [l] => holds nb s l ∧ nb (s + l.length) = 0 ∧ nb (s + l.length + 1) = 0
  | s, l :: l' :: ls =>
    holds nb s l ∧ nb (s + l.length) = 46 ∧ NameAt nb (s + l.length + 1) (l' :: ls)

/-! ## Example inputs -/

/-- A codec state whose buffer holds left-over bytes. -/
def exampleState : MDns :=
  { data_size := 0, buffer_pointer := 0, data_buffer := fun _ => 0xAA, type := false,
    truncated := false, query_count := 0, answer_count := 0, ns_count := 0, ar_count := 0 }

/-- The labels of `x.local`. -/
def xLocal : List (List Nat) := [[120], [108, 111, 99, 97, 108]]

/-- The labels of `foo.bar`. -/
def fooBar : List (List Nat) := [[102, 111, 111], [98, 97, 114]]

/-- A query for `x.local`, type `PTR`, class `IN`, unicast response wanted. -/
def exampleQuery : Query :=
  { buffer_pointer := 0, qname_buffer := ofList (chars "x.local"), qtype := 12, qclass := 1,
    unicast_response := true, valid := true }

/-- An `A` answer for `x.local`, ttl 120, address 192.168.1.5. -/
def exampleA : Answer :=
  { buffer_pointer := 0, name_buffer := ofList (chars "x.local"),
    rdata_buffer := ofList [192, 168, 1, 5], rrtype := 1, rrclass := 1, rrttl := 120,
    rrset := false, valid := true }

/-- A `PTR` answer for `x.local` that points to `foo.bar`, cache flush set. -/
def examplePTR : Answer :=
  { buffer_pointer := 0, name_buffer := ofList (chars "x.local"),
    rdata_buffer := ofList (chars "foo.bar"), rrtype := 12, rrclass := 1, rrttl := 4500,
    rrset := true, valid := true }

/-- An `SRV` answer for `x.local`; `AddAnswer` has no writer for this type. -/
def exampleSRV : Answer :=
  { buffer_pointer := 0, name_buffer := ofList (chars "x.local"),
    rdata_buffer := ofList [], rrtype := 33, rrclass := 1, rrttl := 120,
    rrset := false, valid := true }

/-- A packet with the labels `3 foo 3 bar 0` at offset 20 and the pointer `0xC0 0x14`
at offset 40. -/
def pointerPacket : Bytes :=
  ofList (List.replicate 20 0 ++ [3, 102, 111, 111, 3, 98, 97, 114, 0] ++ List.replicate 11 0
    ++ [0xC0, 0x14])

/-- A datagram with two queries, for `a` with class `0x0002` and for `b` with class
`0x0001`, and no resource record. -/
def twoQueryPacket : List Nat :=
  [0, 0, 0, 0, 0, 2, 0, 0, 0, 0, 0, 0,
   1, 97, 0, 0, 1, 0, 2,
   1, 98, 0, 0, 1, 0, 1]

/-- A datagram with one `A` record for `a` whose class is `0x0002`. -/
def badClassPacket : List Nat :=
  [0, 0, 0x84, 0, 0, 0, 0, 1, 0, 0, 0, 0,
   1, 97, 0, 0, 1, 0, 2, 0, 0, 0, 120, 0, 4, 10, 0, 0, 7]

/-- A state in which one answer has been added. -/
def stateWithAnswer : MDns := { exampleState.Clear with answer_count := 1 }

/-- Initial content of the local arrays in the examples. -/
def zeros : Bytes := fun _ => 0

/-! ## Notions used in the statements about decoding and building -/

/-- The packet cursor of `nameFromDnsPointer` on its own: the branches of the source
look at the packet only, never at the output array, so the returned position can be
followed without the output.  `nameFromDnsPointer_cursor` shows that this is the second
component of `nameFromDnsPointer`. -/
def nameCursor : Nat → Bytes → Nat → Option Nat
  | 0, _, _ => none
  | fuel + 1, pkt, p =>
    if pkt p < 0xC0 then
      if pkt (p + 1 + pkt p) > 0 then nameCursor fuel pkt (p + 1 + pkt p)
      else some (p + 1 + pkt p + 1)
    else
      (nameCursor fuel pkt ((pkt p - 0xC0) * 256 + pkt (p + 1))).map (fun _ => p + 2)

/-- Number of packet bytes that the name at `p` occupies, after the wire format: a
compression pointer occupies 2 bytes, a zero length byte 1 byte, and a label its length
byte, its bytes and what follows it. -/
def nameSpan : Nat → Bytes → Nat → Option Nat
  | 0, _, _ => none
  | fuel + 1, pkt, p =>
    if pkt p ≥ 0xC0 then some 2
    else if pkt p = 0 then some 1
    else (nameSpan fuel pkt (p + 1 + pkt p)).map (fun n => 1 + pkt p + n)

/-- The chain of labels and compression pointers that starts at `p` is finite: it
reaches a label that is followed by a zero byte. -/
inductive FiniteChain (pkt : Bytes) : Nat → Prop
  | last (p : Nat) : pkt p < 0xC0 → pkt (p + 1 + pkt p) = 0 → FiniteChain pkt p
  | label (p : Nat) : pkt p < 0xC0 → pkt (p + 1 + pkt p) > 0 →
      FiniteChain pkt (p + 1 + pkt p) → FiniteChain pkt p
  | pointer (p : Nat) : ¬ pkt p < 0xC0 →
      FiniteChain pkt ((pkt p - 0xC0) * 256 + pkt (p + 1)) → FiniteChain pkt p

/-- An array of `cap` cells holds a NUL. -/
def Terminated (cap : Nat) (b : Bytes) : Prop := ∃ k, k < cap ∧ b k = 0

/-- The builder states that `Clear`, `AddQuery` and `AddAnswer` produce while every
store stays inside `data_buffer`.  A call stores into the header and into the cells
from its cursor up to the cursor it leaves, so it stays inside the array when the
cursor it leaves is at most `MAX_PACKET_SIZE`.  (What a call does that stores behind
the array is the subject of `MDns.spill`.) -/
inductive Reachable : MDns → Prop
  | clear (m : MDns) : Reachable m.Clear
  | addQuery (m m' : MDns) (fuel : Nat) (query : Query) :
      Reachable m → m.AddQuery fuel query = some m' →
      m'.buffer_pointer ≤ MAX_PACKET_SIZE → Reachable m'
  | addAnswer (m m' : MDns) (fuel : Nat) (answer : Answer) (rdata_len0 : Nat) :
      Reachable m → m.AddAnswer fuel answer rdata_len0 = some m' →
      m'.buffer_pointer ≤ MAX_PACKET_SIZE → Reachable m'

/-- `n` calls of `AddQuery` with the same query. -/
def addQueries (fuel : Nat) (query : Query) : Nat → MDns → Option MDns
  | 0, m => some m
  | n + 1, m =>
    match m.AddQuery fuel query with
    | none => none
    | some m' => addQueries fuel query n m'

/-- A packet whose bytes 12 and 13 are the compression pointer `0xC0 0x0C`, which
points to itself. -/
def selfPointerPacket : Bytes := ofList (List.replicate 12 0 ++ [0xC0, 0x0C])

/-- A packet that starts with a zero length byte; the bytes behind it are `00 01 00 01`. -/
def rootNamePacket : Bytes := ofList [0, 0, 1, 0, 1]

/-- A packet that starts with a zero length byte, with the label `foo` behind it. -/
def rootThenLabelPacket : Bytes := ofList [0, 3, 102, 111, 111, 0, 0, 1]

/-- Header of a response with one answer. -/
def oneAnswerHeader : List Nat := [0, 0, 0x84, 0, 0, 0, 0, 1, 0, 0, 0, 0]

/-- A datagram with one `TXT` record for `a` that declares `rdlength = 4` and ends
behind the `rdlength` field: 25 bytes. -/
def shortTxtPacket : List Nat :=
  oneAnswerHeader ++ [1, 97, 0, 0, 16, 0, 1, 0, 0, 0, 120, 0, 4]

/-- A datagram with one `TXT` record for `a` that declares `rdlength = 300`. -/
def longTxtPacket : List Nat :=
  oneAnswerHeader ++ [1, 97, 0, 0, 16, 0, 1, 0, 0, 0, 120, 1, 44]

/-- A datagram with one `AAAA` record for `a` that declares `rdlength = 86`. -/
def longAaaaPacket : List Nat :=
  oneAnswerHeader ++ [1, 97, 0, 0, 28, 0, 1, 0, 0, 0, 120, 0, 86]

/-- A datagram with one `SRV` record for `a`: priority 1, weight 2, port 80, target
`b.local`. -/
def srvPacket : List Nat :=
  oneAnswerHeader ++ [1, 97, 0, 0, 33, 0, 1, 0, 0, 0, 120, 0, 15, 0, 1, 0, 2, 0, 80,
    1, 98, 5, 108, 111, 99, 97, 108, 0]

/-- A datagram with one `A` record for `a` that declares `rdlength = 0`, with four
more bytes behind the `rdlength` field. -/
def zeroLengthAPacket : List Nat :=
  oneAnswerHeader ++ [1, 97, 0, 0, 1, 0, 1, 0, 0, 0, 120, 0, 0, 9, 9, 9, 9]

/-- Initial content `0xAA` of a local array. -/
def stale : Bytes := fun _ => 0xAA

/-- The header of a packet under construction agrees with the counts: the 12 header
bytes are `0 0 0 0 QD QD AN AN 0 0 0 0` with the two counts in big-endian order, no
NS or AR record is counted, and the cursor is at least 12 and equal to `data_size`. -/
def HeaderInv (m : MDns) : Prop :=
  12 ≤ m.buffer_pointer ∧ m.data_size = m.buffer_pointer
    ∧ m.ns_count = 0 ∧ m.ar_count = 0
    ∧ holds m.data_buffer 0
        [0, 0, 0, 0, m.query_count / 256 % 256, m.query_count % 256,
         m.answer_count / 256 % 256, m.answer_count % 256, 0, 0, 0, 0]

/-- The name `a` in an array that is zero behind the terminating NUL. -/
def nameA : Bytes := ofList [97, 0]

/-- The name `a` in an array that holds `b` behind the terminating NUL. -/
def nameAThenB : Bytes := ofList [97, 0, 98, 0]

/-- The state after `Clear()` and one `AddAnswer` of the `A` answer for `x.local`: a
packet that contains only an answer. -/
def answerOnlyState : MDns := (exampleState.Clear.AddAnswer 8 exampleA 0).getD exampleState

/-! ## The object behind `data_buffer` -/

/-- End of the `MDns` object, counted in bytes from the start of `data_buffer`.  In the
declaration of `class MDns` the array is followed by `type` and `truncated` (one byte
each), which two padding bytes align, and by `query_count`, `answer_count`, `ns_count`
and `ar_count` (four bytes each, least significant byte first, on the 32 bit target). -/
def OBJECT_END : Nat := MAX_PACKET_SIZE + 20

/-- The byte at the place of `data_buffer[i]` after a call that stored into the cells
`lo ≤ i < hi` of `data_buffer` and left them as in `b`; `v` is the byte otherwise. -/
def spillByte (b : Bytes) (lo hi i v : Nat) : Nat := if lo ≤ i ∧ i < hi then b i else v

/-- A `bool` member at the place of `data_buffer[off]` after such a call. -/
def spillBool (b : Bytes) (lo hi off : Nat) (v : Bool) : Bool :=
  if lo ≤ off ∧ off < hi then decide (b off ≠ 0) else v

/-- An `unsigned int` member at the place of `data_buffer[off .. off + 3]` after such a
call. -/
def spillU32 (b : Bytes) (lo hi off v : Nat) : Nat :=
  spillByte b lo hi off (v % 256) + spillByte b lo hi (off + 1) (v / 256 % 256) * 256
    + spillByte b lo hi (off + 2) (v / 65536 % 256) * 65536
    + spillByte b lo hi (off + 3) (v / 16777216 % 256) * 16777216

/-- The members behind `data_buffer` after a call that started with the cursor at `lo`
and whose array semantics gives the state `m`: what the call stored into the cells from
`MAX_PACKET_SIZE` on is what these members hold. -/
def MDns.spill (lo : Nat) (m : MDns) : MDns :=
  { m with
    type := spillBool m.data_buffer lo m.buffer_pointer MAX_PACKET_SIZE m.type,
    truncated := spillBool m.data_buffer lo m.buffer_pointer (MAX_PACKET_SIZE + 1) m.truncated,
    query_count := spillU32 m.data_buffer lo m.buffer_pointer (MAX_PACKET_SIZE + 4) m.query_count,
    answer_count :=
      spillU32 m.data_buffer lo m.buffer_pointer (MAX_PACKET_SIZE + 8) m.answer_count,
    ns_count := spillU32 m.data_buffer lo m.buffer_pointer (MAX_PACKET_SIZE + 12) m.ns_count,
    ar_count := spillU32 m.data_buffer lo m.buffer_pointer (MAX_PACKET_SIZE + 16) m.ar_count }

/-- `AddQuery` on the object.  `MDns.AddQuery` is the call as long as its stores stay
inside `data_buffer`.  The call reads and writes the members behind the array only in
front of its first store at the cursor, and stores into every cell from the old cursor
to the new one, so a store to `data_buffer[i]` with `MAX_PACKET_SIZE ≤ i` shows in the
member at that place (`MDns.spill`).  A store behind the last member leaves the object:
`none`. -/
def MDns.AddQueryObject (fuel : Nat) (m : MDns) (query : Query) : Option MDns :=
  match m.AddQuery fuel query with
  | none => none
  | some m' => if m'.buffer_pointer ≤ OBJECT_END then some (m'.spill m.buffer_pointer) else none

/-- The state after `Clear()` and 314 calls of `AddQuery` for `x.local`: the cursor is
at 4094, two cells in front of the end of `data_buffer`. -/
def nearlyFullState : MDns := (addQueries 8 exampleQuery 314 exampleState.Clear).getD exampleState

/-- The `rdlength` field at the cursor, as `PopulateAnswerResult` reads it. -/
def MDns.rdlength (m : MDns) : Nat :=
  m.data_buffer m.buffer_pointer * 256 + m.data_buffer (m.buffer_pointer + 1)

/-! ## Arrays -/

theorem Bytes.set_same (b : Bytes) (i v : Nat) : (b.set i v) i = v % 256 := by
  simp [Bytes.set]

theorem Bytes.set_other (b : Bytes) (i v j : Nat) (h : j ≠ i) : (b.set i v) j = b j := by
  simp [Bytes.set, h]

theorem Bytes.write_append (b : Bytes) (off : Nat) (l1 l2 : List Nat) :
    b.write off (l1 ++ l2) = (b.write off l1).write (off + l1.length) l2 := by
  induction l1 generalizing b off with
  | nil => rfl
  | cons c l ih =>
    show (b.set off c).write (off + 1) (l ++ l2)
      = ((b.set off c).write (off + 1) l).write (off + (l.length + 1)) l2
    rw [ih, show off + 1 + l.length = off + (l.length + 1) by omega]

theorem Bytes.write_outside (b : Bytes) (off : Nat) (l : List Nat) (j : Nat)
    (h : j < off ∨ off + l.length ≤ j) : (b.write off l) j = b j := by
  induction l generalizing b off with
  | nil => rfl
  | cons c l ih =>
    simp only [Bytes.write, List.length_cons] at h ⊢
    rw [ih (b.set off c) (off + 1) (by omega), Bytes.set_other]
    omega

theorem holds_append (b : Bytes) (s : Nat) (l1 l2 : List Nat) :
    holds b s (l1 ++ l2) ↔ holds b s l1 ∧ holds b (s + l1.length) l2 := by
  induction l1 generalizing s with
  | nil => simp [holds]
  | cons c l ih =>
    show (b s = c ∧ holds b (s + 1) (l ++ l2))
      ↔ (b s = c ∧ holds b (s + 1) l) ∧ holds b (s + (l.length + 1)) l2
    rw [ih (s + 1), show s + 1 + l.length = s + (l.length + 1) by omega, and_assoc]

theorem holds_congr (b b' : Bytes) (s : Nat) (l : List Nat)
    (h : ∀ j, s ≤ j → j < s + l.length → b' j = b j) (hb : holds b s l) : holds b' s l := by
  induction l generalizing s with
  | nil => trivial
  | cons c l ih =>
    simp only [holds, List.length_cons] at hb h ⊢
    refine ⟨by rw [h s (by omega) (by omega)]; exact hb.1, ih (s + 1) ?_ hb.2⟩
    intro j h1 h2
    exact h j (by omega) (by omega)

theorem holds_get (b : Bytes) (s : Nat) (l : List Nat) (hb : holds b s l) (i : Nat)
    (hi : i < l.length) : b (s + i) = l.getD i 0 := by
  induction l generalizing s i with
  | nil => simp at hi
  | cons c l ih =>
    cases i with
    | zero => simpa using hb.1
    | succ i =>
      have := ih (s + 1) hb.2 i (by simpa using hi)
      rw [show s + (i + 1) = s + 1 + i by omega, this]
      simp

theorem holds_of_get (b : Bytes) (s : Nat) (l : List Nat)
    (h : ∀ i, i < l.length → b (s + i) = l.getD i 0) : holds b s l := by
  induction l generalizing s with
  | nil => trivial
  | cons c l ih =>
    refine ⟨by simpa using h 0 (by simp), ih (s + 1) ?_⟩
    intro i hi
    have := h (i + 1) (by simpa using hi)
    rw [show s + 1 + i = s + (i + 1) by omega, this]
    simp

theorem holds_write (b : Bytes) (off : Nat) (l : List Nat) (hl : ∀ c ∈ l, c < 256) :
    holds (b.write off l) off l := by
  induction l generalizing b off with
  | nil => trivial
  | cons c l ih =>
    simp only [Bytes.write, holds]
    refine ⟨?_, ih _ _ (fun x hx => hl x (List.mem_cons_of_mem _ hx))⟩
    rw [Bytes.write_outside _ _ _ _ (by omega), Bytes.set_same]
    exact Nat.mod_eq_of_lt (hl c (List.mem_cons_self _ _))

theorem Bytes.write_get (b : Bytes) (off : Nat) (l : List Nat) (hl : ∀ c ∈ l, c < 256)
    (j i : Nat) (hj : j = off + i) (hi : i < l.length) : (b.write off l) j = l.getD i 0 := by
  subst hj
  exact holds_get _ _ _ (holds_write b off l hl) i hi

theorem cstrFrom_of_holds (b : Bytes) (S : List Nat) :
    ∀ (cap i : Nat), holds b i (S ++ [0]) → (∀ c ∈ S, c ≠ 0) → S.length < cap →
      cstrFrom b cap i = S := by
  induction S with
  | nil =>
    intro cap i h _ hcap
    obtain ⟨c, rfl⟩ : ∃ c, cap = c + 1 := ⟨cap - 1, by simp at hcap; omega⟩
    simp [cstrFrom, h.1]
  | cons x S ih =>
    intro cap i h hne hcap
    obtain ⟨c, rfl⟩ : ∃ c, cap = c + 1 := ⟨cap - 1, by simp at hcap; omega⟩
    have hx : b i = x := h.1
    have hx0 : x ≠ 0 := hne x (List.mem_cons_self _ _)
    rw [cstrFrom, hx, if_neg hx0, ih c (i + 1) h.2 (fun y hy => hne y (List.mem_cons_of_mem _ hy))
      (by simp at hcap; omega)]

theorem cstr_of_holds (b : Bytes) (S : List Nat) (cap : Nat) (h : holds b 0 (S ++ [0]))
    (hne : ∀ c ∈ S, c ≠ 0) (hcap : S.length < cap) : cstr b cap = S :=
  cstrFrom_of_holds b S cap 0 h hne hcap

theorem ofList_cstr (S : List Nat) (cap : Nat) (nb : Bytes) (hnb : ∀ i, nb i = S.getD i 0)
    (hne : ∀ c ∈ S, c ≠ 0) (hcap : S.length < cap) : cstr nb cap = S := by
  apply cstr_of_holds nb S cap _ hne hcap
  apply holds_of_get
  intro i hi
  rw [Nat.zero_add, hnb i]
  simp only [List.length_append, List.length_singleton] at hi
  by_cases h : i < S.length
  · rw [List.getD_append _ _ _ _ h]
  · rw [List.getD_eq_default _ _ (by omega), List.getD_append_right _ _ _ _ (by omega)]
    have : i - S.length = 0 := by omega
    rw [this]; rfl

/-! ## Names made of labels -/

theorem wire_cons (l : List Nat) (ls : List (List Nat)) :
    wire (l :: ls) = l.length :: (l ++ wire ls) := by
  simp [wire, wireBody]

theorem wire_length (ls : List (List Nat)) (h : ls ≠ []) :
    (wire ls).length = (dotted ls).length + 2 := by
  induction ls with
  | nil => exact absurd rfl h
  | cons l rest ih =>
    cases rest with
    | nil => simp [wire, wireBody, dotted]
    | cons l' rest' =>
      have := ih (List.cons_ne_nil _ _)
      rw [wire_cons]
      simp only [List.length_cons, List.length_append, dotted, this]
      omega

theorem wire_lt (maxLen : Nat) (hmax : maxLen < 256) (ls : List (List Nat))
    (hlab : ∀ l ∈ ls, Label maxLen l) : ∀ c ∈ wire ls, c < 256 := by
  induction ls with
  | nil => intro c hc; simp [wire, wireBody] at hc; omega
  | cons l rest ih =>
    have hl := hlab l (List.mem_cons_self _ _)
    have ih := ih (fun x hx => hlab x (List.mem_cons_of_mem _ hx))
    intro c hc
    rw [wire_cons] at hc
    simp only [List.mem_cons, List.mem_append] at hc
    rcases hc with hc | hc | hc
    · have := hl.2.1; omega
    · exact (hl.2.2 c hc).2.2
    · exact ih c hc

theorem dotted_ne_zero (maxLen : Nat) (ls : List (List Nat)) (hlab : ∀ l ∈ ls, Label maxLen l) :
    ∀ c ∈ dotted ls, c ≠ 0 := by
  induction ls with
  | nil => intro c hc; simp [dotted] at hc
  | cons l rest ih =>
    have hl := hlab l (List.mem_cons_self _ _)
    have ih := ih (fun x hx => hlab x (List.mem_cons_of_mem _ hx))
    cases rest with
    | nil => intro c hc; exact (hl.2.2 c (by simpa [dotted] using hc)).1
    | cons l' rest' =>
      intro c hc
      simp only [dotted, List.mem_append, List.mem_cons] at hc
      rcases hc with hc | hc | hc
      · exact (hl.2.2 c hc).1
      · omega
      · exact ih c hc

theorem length_le_dotted (maxLen : Nat) (ls : List (List Nat)) (hlab : ∀ l ∈ ls, Label maxLen l) :
    ls.length ≤ (dotted ls).length + 1 := by
  induction ls with
  | nil => simp
  | cons l rest ih =>
    have ih := ih (fun x hx => hlab x (List.mem_cons_of_mem _ hx))
    cases rest with
    | nil => simp
    | cons l' rest' =>
      simp only [dotted, List.length_cons, List.length_append] at ih ⊢
      omega

theorem labelOffset_succ (l : List Nat) (rest : List (List Nat)) (k : Nat) :
    labelOffset (l :: rest) (k + 1) = l.length + 1 + labelOffset rest k := by
  simp [labelOffset]

theorem wire_labelOffset (ls : List (List Nat)) :
    ∀ k, k < ls.length → labelOffset ls k < (wire ls).length
      ∧ (wire ls).getD (labelOffset ls k) 0 = (ls.getD k []).length := by
  induction ls with
  | nil => intro k hk; simp at hk
  | cons l rest ih =>
    intro k hk
    cases k with
    | zero => simp [labelOffset, wire_cons]
    | succ k =>
      obtain ⟨h1, h2⟩ := ih k (by simpa using hk)
      rw [labelOffset_succ, wire_cons]
      refine ⟨by simp only [List.length_cons, List.length_append]; omega, ?_⟩
      rw [show l.length + 1 + labelOffset rest k = (l.length + labelOffset rest k) + 1 by omega,
        List.getD_cons_succ, List.getD_append_right _ _ _ _ (by omega),
        show l.length + labelOffset rest k - l.length = labelOffset rest k by omega, h2]
      simp

theorem holds_ne (nb : Bytes) (s : Nat) (l : List Nat) (hl : holds nb s l)
    (hc : ∀ c ∈ l, c ≠ 0 ∧ c ≠ 46 ∧ c < 256) (i : Nat) (hi : i < l.length) :
    nb (s + i) ≠ 46 ∧ nb (s + i) ≠ 0 := by
  rw [holds_get nb s l hl i hi]
  have hm : l.getD i 0 ∈ l := by
    rw [List.getD_eq_getElem _ _ hi]
    exact List.getElem_mem _
  exact ⟨(hc _ hm).2.1, (hc _ hm).1⟩

theorem nameAt_of_get (nb : Bytes) (ls : List (List Nat)) :
    ∀ s, (∀ i, nb (s + i) = (dotted ls).getD i 0) → NameAt nb s ls := by
  induction ls with
  | nil => intro s _; trivial
  | cons l rest ih =>
    intro s h
    cases rest with
    | nil =>
      refine ⟨holds_of_get nb s l (fun i _ => h i), ?_, ?_⟩
      · rw [h l.length]; simp [dotted]
      · rw [Nat.add_assoc, h (l.length + 1)]
        simp only [dotted]
        exact List.getD_eq_default _ _ (by omega)
    | cons l' rest' =>
      refine ⟨holds_of_get nb s l (fun i hi => ?_), ?_, ih _ (fun i => ?_)⟩
      · rw [h i]
        simp only [dotted]
        rw [List.getD_append _ _ _ _ hi]
      · rw [h l.length]
        simp only [dotted]
        rw [List.getD_append_right _ _ _ _ (Nat.le_refl _)]
        simp
      · rw [show s + l.length + 1 + i = s + (l.length + 1 + i) by omega, h (l.length + 1 + i)]
        simp only [dotted]
        rw [List.getD_append_right _ _ _ _ (by omega),
          show l.length + 1 + i - l.length = i + 1 by omega]
        simp

theorem xLocal_labels : ∀ l ∈ xLocal, Label 63 l := by
  intro l hl
  simp only [xLocal, List.mem_cons, List.mem_singleton, List.not_mem_nil, or_false] at hl
  rcases hl with rfl | rfl <;> (unfold Label; decide)

theorem fooBar_labels : ∀ l ∈ fooBar, Label 63 l := by
  intro l hl
  simp only [fooBar, List.mem_cons, List.mem_singleton, List.not_mem_nil, or_false] at hl
  rcases hl with rfl | rfl <;> (unfold Label; decide)

/-! ## Rendering of numbers -/

theorem digitChar_toNat (d : Nat) (hd : d < 10) :
    (Nat.digitChar d).toNat ≠ 0 ∧ (Nat.digitChar d).toNat < 256 := by
  interval_cases d <;> decide

theorem toDigitsCore_mem (b : Nat) (hb : 0 < b) : ∀ (fuel n : Nat) (acc : List Char) (c : Char),
    c ∈ Nat.toDigitsCore b fuel n acc → c ∈ acc ∨ ∃ d, d < b ∧ c = Nat.digitChar d := by
  intro fuel
  induction fuel with
  | zero => intro n acc c h; exact Or.inl h
  | succ f ih =>
    intro n acc c h
    simp only [Nat.toDigitsCore] at h
    split_ifs at h
    · rcases List.mem_cons.mp h with h | h
      · exact Or.inr ⟨_, Nat.mod_lt _ hb, h⟩
      · exact Or.inl h
    · rcases ih _ _ _ h with h | h
      · rcases List.mem_cons.mp h with h | h
        · exact Or.inr ⟨_, Nat.mod_lt _ hb, h⟩
        · exact Or.inl h
      · exact Or.inr h

theorem fmtU_mem (n c : Nat) (h : c ∈ fmtU n) : c ≠ 0 ∧ c < 256 := by
  simp only [fmtU, List.mem_map] at h
  obtain ⟨ch, hch, rfl⟩ := h
  rcases toDigitsCore_mem 10 (by decide) _ _ _ _ hch with h | ⟨d, hd, rfl⟩
  · simp at h
  · exact digitChar_toNat d hd

theorem fmtU_length (n : Nat) (h : n < 256) : (fmtU n).length ≤ 3 := by
  simp only [fmtU, List.length_map, Nat.toDigits]
  exact Nat.toDigitsCore_length 10 (by decide) (n + 1) n 3 (by omega) (by decide)

theorem holds_sprintf (b : Bytes) (s : List Nat) (hs : ∀ c ∈ s, c < 256) :
    holds (sprintf b 0 s) 0 (s ++ [0]) := by
  apply holds_write
  intro c hc
  rcases List.mem_append.mp hc with h | h
  · exact hs c h
  · simp at h; omega

/-! ## Encoding a name -/

theorem copyWord_eq (nb : Bytes) (l : List Nat) (s : Nat) (buf : Bytes) (bp : Nat)
    (h : holds nb s l) : copyWord nb l.length s buf bp = (buf.write bp l, bp + l.length) := by
  induction l generalizing s buf bp with
  | nil => rfl
  | cons c l ih =>
    show copyWord nb l.length (s + 1) (buf.set bp (nb s)) (bp + 1) = _
    rw [ih (s + 1) _ _ h.2, h.1]
    show ((buf.set bp c).write (bp + 1) l, bp + 1 + l.length) = _
    rw [show bp + 1 + l.length = bp + (l.length + 1) by omega]
    rfl

/-- Rounds of the loop that only move `word_end` forward over the characters of a
label. -/
theorem populateLoop_scan (nb : Bytes) (s n : Nat) (hs : nb s ≠ 0)
    (hn : ∀ i, i < n → nb (s + i) ≠ 46 ∧ nb (s + i) ≠ 0) (buf : Bytes) (bp fuel : Nat) :
    ∀ k j, j + k = n →
      populateLoop nb (fuel + k) buf bp s (s + j) = populateLoop nb fuel buf bp s (s + n) := by
  intro k
  induction k with
  | zero => intro j hj; simp at hj; subst hj; rfl
  | succ k ih =>
    intro j hj
    have hc := hn j (by omega)
    show populateLoop nb (fuel + k + 1) buf bp s (s + j) = _
    rw [populateLoop]
    simp only [hc.1, hc.2, or_self, if_false, ne_eq, hs, not_false_eq_true, if_true]
    exact ih (j + 1) (by omega)

/-- The round of the loop that meets the end of a label. -/
theorem populateLoop_emit (nb : Bytes) (s : Nat) (l : List Nat) (hl : holds nb s l)
    (he : nb (s + l.length) = 46 ∨ nb (s + l.length) = 0) (buf : Bytes) (bp fuel : Nat) :
    populateLoop nb (fuel + 1) buf bp s (s + l.length) =
      if nb (s + l.length + 1) ≠ 0 then
        populateLoop nb fuel (buf.write bp (l.length :: l)) (bp + (l.length + 1))
          (s + l.length + 1) (s + l.length + 1 + 1)
      else some (buf.write bp (l.length :: l), bp + (l.length + 1)) := by
  rw [populateLoop]
  simp only [he, if_true, Nat.add_sub_cancel_left, copyWord_eq nb l s _ _ hl]
  rw [show bp + 1 + l.length = bp + (l.length + 1) by omega]
  rfl

/-- The loop from the second character of a label on: it emits this label and all
labels behind it. -/
theorem populateLoop_labels (nb : Bytes) (maxLen : Nat) (ls : List (List Nat)) :
    ls ≠ [] → (∀ l ∈ ls, Label maxLen l) →
    ∀ (s : Nat) (buf : Bytes) (bp fuel : Nat), NameAt nb s ls → (dotted ls).length ≤ fuel →
      populateLoop nb fuel buf bp s (s + 1)
        = some (buf.write bp (wireBody ls), bp + (wireBody ls).length) := by
  induction ls with
  | nil => intro h; exact absurd rfl h
  | cons l rest ih =>
    intro _ hlab s buf bp fuel hname hfuel
    have hl := hlab l (List.mem_cons_self _ _)
    have hpos : 0 < l.length := List.length_pos.mpr hl.1
    cases rest with
    | nil =>
      obtain ⟨h1, h2, h3⟩ := hname
      simp only [dotted] at hfuel
      obtain ⟨f, rfl⟩ : ∃ f, fuel = f + 1 + (l.length - 1) := ⟨fuel - l.length, by omega⟩
      have h0 := (holds_ne nb s l h1 hl.2.2 0 hpos).2
      rw [populateLoop_scan nb s l.length h0 (holds_ne nb s l h1 hl.2.2) buf bp (f + 1)
        (l.length - 1) 1 (by omega)]
      rw [populateLoop_emit nb s l h1 (Or.inr h2)]
      simp [h3, wireBody]
    | cons l' rest' =>
      obtain ⟨h1, h2, h3⟩ := hname
      have hl' := hlab l' (List.mem_cons_of_mem _ (List.mem_cons_self _ _))
      have hpos' : 0 < l'.length := List.length_pos.mpr hl'.1
      simp only [dotted, List.length_append, List.length_cons] at hfuel
      obtain ⟨f, rfl⟩ : ∃ f, fuel = f + 1 + (l.length - 1) := ⟨fuel - l.length, by omega⟩
      have h0 := (holds_ne nb s l h1 hl.2.2 0 hpos).2
      rw [populateLoop_scan nb s l.length h0 (holds_ne nb s l h1 hl.2.2) buf bp (f + 1)
        (l.length - 1) 1 (by omega)]
      rw [populateLoop_emit nb s l h1 (Or.inl h2)]
      have hnext : nb (s + l.length + 1) ≠ 0 := by
        have h4 : holds nb (s + l.length + 1) l' := by
          cases rest' with
          | nil => exact h3.1
          | cons _ _ => exact h3.1
        exact (holds_ne nb _ l' h4 hl'.2.2 0 hpos').2
      rw [if_pos hnext]
      rw [ih (List.cons_ne_nil _ _) (fun x hx => hlab x (List.mem_cons_of_mem _ hx))
        (s + l.length + 1) _ _ f h3 (by omega)]
      show _ = some (buf.write bp ((l.length :: l) ++ wireBody (l' :: rest')), _)
      rw [Bytes.write_append]
      simp only [List.length_cons, wireBody, List.length_append]
      congr 2
      omega

/-- What `PopulateName` does for a name made of labels. -/
theorem PopulateName_labels (m : MDns) (nb : Bytes) (maxLen : Nat) (ls : List (List Nat))
    (hne : ls ≠ []) (hlab : ∀ l ∈ ls, Label maxLen l)
    (hnb : ∀ i, nb i = (dotted ls).getD i 0) (fuel : Nat) (hf : (dotted ls).length + 1 ≤ fuel) :
    m.PopulateName fuel nb =
      some ({ m with data_buffer := m.data_buffer.write m.buffer_pointer (wire ls),
                     buffer_pointer := m.buffer_pointer + (wire ls).length },
            (wire ls).length) := by
  have hname : NameAt nb 0 ls := nameAt_of_get nb ls 0 (fun i => by rw [Nat.zero_add]; exact hnb i)
  obtain ⟨l, rest, rfl⟩ := List.exists_cons_of_ne_nil hne
  have hl := hlab l (List.mem_cons_self _ _)
  have hpos : 0 < l.length := List.length_pos.mpr hl.1
  have h1 : holds nb 0 l := by
    cases rest with
    | nil => exact hname.1
    | cons _ _ => exact hname.1
  have hc := holds_ne nb 0 l h1 hl.2.2
  obtain ⟨f, rfl⟩ : ∃ f, fuel = f + 1 := ⟨fuel - 1, by omega⟩
  have hscan := populateLoop_scan nb 0 1 (hc 0 hpos).2 (fun i hi => by
    have : i = 0 := by omega
    subst this; exact hc 0 hpos) m.data_buffer m.buffer_pointer f 1 0 rfl
  simp only [Nat.add_zero, Nat.zero_add] at hscan
  have hloop := populateLoop_labels nb maxLen (l :: rest) hne hlab 0 m.data_buffer m.buffer_pointer
    f hname (by omega)
  simp only [Nat.zero_add] at hloop
  simp only [MDns.PopulateName, hscan, hloop]
  have hw : (m.data_buffer.write m.buffer_pointer (wireBody (l :: rest))).set
      (m.buffer_pointer + (wireBody (l :: rest)).length) 0
      = m.data_buffer.write m.buffer_pointer (wire (l :: rest)) := by
    rw [wire, Bytes.write_append]; rfl
  rw [hw]
  have hlen : (wire (l :: rest)).length = (wireBody (l :: rest)).length + 1 := by simp [wire]
  rw [hlen]
  congr 2
  omega

/-! ## Decoding a name -/

theorem copyToBuffer_labels (pkt : Bytes) (len : Nat) (l : List Nat) :
    ∀ (pos : Nat) (nb : Bytes) (Q : List Nat), holds pkt pos l → holds nb 0 Q →
      Q.length + l.length + 1 ≤ len → (∀ c ∈ l, c < 256) →
      ∃ nb', copyToBuffer pkt len l.length nb Q.length pos = (nb', Q.length + l.length, pos + l.length)
        ∧ holds nb' 0 (Q ++ l) ∧ (nb Q.length = 0 ∨ l ≠ [] → nb' (Q.length + l.length) = 0) := by
  induction l with
  | nil =>
    intro pos nb Q _ hQ _ _
    exact ⟨nb, rfl, by simpa using hQ, by simp⟩
  | cons c l ih =>
    intro pos nb Q hp hQ hlen hc
    simp only [List.length_cons] at hlen
    have hw : writeToBuffer (pkt pos) nb Q.length len
        = ((nb.set Q.length c).set (Q.length + 1) 0, Q.length + 1) := by
      rw [writeToBuffer, if_pos (by omega), hp.1]
    have hQ' : holds ((nb.set Q.length c).set (Q.length + 1) 0) 0 (Q ++ [c]) := by
      rw [holds_append]
      refine ⟨holds_congr nb _ 0 Q (fun j _ hj => ?_) hQ, ?_, trivial⟩
      · rw [Bytes.set_other _ _ _ _ (by omega), Bytes.set_other _ _ _ _ (by omega)]
      · rw [Nat.zero_add, Bytes.set_other _ _ _ _ (by omega), Bytes.set_same]
        exact Nat.mod_eq_of_lt (hc c (List.mem_cons_self _ _))
    obtain ⟨nb', h1, h2, h3⟩ := ih (pos + 1) _ (Q ++ [c]) hp.2 hQ'
      (by simp only [List.length_append, List.length_singleton]; omega)
      (fun x hx => hc x (List.mem_cons_of_mem _ hx))
    simp only [List.length_append, List.length_singleton] at h1 h3
    refine ⟨nb', ?_, ?_, ?_⟩
    · show copyToBuffer pkt len l.length (writeToBuffer (pkt pos) nb Q.length len).1
        (writeToBuffer (pkt pos) nb Q.length len).2 (pos + 1) = _
      rw [hw, h1]
      simp only [List.length_cons, Prod.mk.injEq, true_and]
      omega
    · simpa using h2
    · intro _
      rw [List.length_cons, show Q.length + (l.length + 1) = Q.length + 1 + l.length by omega]
      exact h3 (Or.inl (by rw [Bytes.set_same]))

theorem writeToBuffer_zero (nb : Bytes) (C : List Nat) (len : Nat) (hC : holds nb 0 C)
    (h0 : nb C.length = 0) :
    holds (writeToBuffer 0 nb C.length len).1 0 (C ++ [0])
      ∧ (writeToBuffer 0 nb C.length len).2 = C.length + 1 := by
  unfold writeToBuffer
  split
  · refine ⟨?_, rfl⟩
    show holds ((nb.set C.length 0).set (C.length + 1) 0) 0 (C ++ [0])
    rw [holds_append]
    refine ⟨holds_congr nb _ 0 C (fun j _ hj => ?_) hC, ?_, trivial⟩
    · rw [Bytes.set_other _ _ _ _ (by omega), Bytes.set_other _ _ _ _ (by omega)]
    · rw [Nat.zero_add, Bytes.set_other _ _ _ _ (by omega), Bytes.set_same]
  · refine ⟨?_, rfl⟩
    rw [holds_append]
    exact ⟨hC, by rw [Nat.zero_add]; exact h0, trivial⟩

/-- Decoding the wire form of a name made of labels: the labels are appended to what
the output array holds, a `'.'` in front of each label but the very first. -/
theorem nameFromDnsPointer_labels (pkt : Bytes) (len maxLen : Nat) (hmax : maxLen < 192)
    (ls : List (List Nat)) :
    ls ≠ [] → (∀ l ∈ ls, Label maxLen l) →
    ∀ (pos : Nat) (nb : Bytes) (nbpos : Nat) (Q : List Nat) (fuel : Nat),
      holds pkt pos (wire ls) →
      (nbpos = 0 ∧ Q = [] ∨ ∃ S, Q = S ++ [46] ∧ nbpos = S.length + 1 ∧ holds nb 0 S) →
      Q.length + (dotted ls).length + 1 ≤ len →
      ls.length ≤ fuel →
      ∃ out, nameFromDnsPointer fuel nb nbpos len pkt pos = some (out, pos + (wire ls).length)
        ∧ holds out 0 (Q ++ dotted ls ++ [0]) := by
  induction ls with
  | nil => intro h; exact absurd rfl h
  | cons l rest ih =>
    intro _ hlab pos nb nbpos Q fuel hp hpre hlen hfuel
    have hl := hlab l (List.mem_cons_self _ _)
    have hpos : 0 < l.length := List.length_pos.mpr hl.1
    obtain ⟨f, rfl⟩ : ∃ f, fuel = f + 1 := ⟨fuel - 1, by simp at hfuel; omega⟩
    rw [wire_cons] at hp
    obtain ⟨hp0, hp1⟩ := hp
    rw [holds_append] at hp1
    obtain ⟨hp1, hp2⟩ := hp1
    have hdl : l.length ≤ (dotted (l :: rest)).length := by
      cases rest with
      | nil => simp [dotted]
      | cons _ _ => simp [dotted]
    -- the optional separator
    obtain ⟨nb0, hw0, hQ⟩ : ∃ nb0, (if nbpos > 0 then writeToBuffer 46 nb (nbpos - 1) len
        else (nb, nbpos)) = (nb0, Q.length) ∧ holds nb0 0 Q := by
      rcases hpre with ⟨h1, h2⟩ | ⟨S, h1, h2, h3⟩
      · subst h1 h2
        exact ⟨nb, by simp, trivial⟩
      · subst h1 h2
        simp only [List.length_append, List.length_singleton] at hlen ⊢
        refine ⟨(nb.set S.length 46).set (S.length + 1) 0, ?_, ?_⟩
        · rw [if_pos (by omega), Nat.add_sub_cancel, writeToBuffer, if_pos (by omega)]
        · rw [holds_append]
          refine ⟨holds_congr nb _ 0 S (fun j _ hj => ?_) h3, ?_, trivial⟩
          · rw [Bytes.set_other _ _ _ _ (by omega), Bytes.set_other _ _ _ _ (by omega)]
          · rw [Nat.zero_add, Bytes.set_other _ _ _ _ (by omega), Bytes.set_same]
    -- the characters of the label
    obtain ⟨nb1, hc1, hc2, hc3⟩ := copyToBuffer_labels pkt len l (pos + 1) nb0 Q hp1 hQ
      (by omega) (fun c hc => (hl.2.2 c hc).2.2)
    have hc3 := hc3 (Or.inr hl.1)
    rw [← List.length_append] at hc3
    obtain ⟨hw1, hw2⟩ := writeToBuffer_zero nb1 (Q ++ l) len hc2 hc3
    rw [List.length_append] at hw1 hw2
    rw [nameFromDnsPointer]
    simp only [hw0, hp0, if_pos (show l.length < 0xC0 by have := hl.2.1; omega), hc1]
    cases rest with
    | nil =>
      have hnext : pkt (pos + 1 + l.length) = 0 := by
        simpa [wire, wireBody, holds] using hp2
      refine ⟨(writeToBuffer 0 nb1 (Q.length + l.length) len).1, ?_, ?_⟩
      · rw [if_neg (by rw [hnext]; exact Nat.lt_irrefl 0)]
        simp only [wire_cons, List.length_cons, List.length_append, wire, wireBody, List.length_nil,
          Nat.zero_add]
        congr 2
        omega
      · simpa [dotted] using hw1
    | cons l' rest' =>
      have hl' := hlab l' (List.mem_cons_of_mem _ (List.mem_cons_self _ _))
      have hpos' : 0 < l'.length := List.length_pos.mpr hl'.1
      have hnext : pkt (pos + 1 + l.length) = l'.length := by
        rw [wire_cons] at hp2
        exact hp2.1
      rw [if_pos (by rw [hnext]; exact hpos'), hw2]
      simp only [dotted, List.length_append, List.length_cons] at hlen
      rw [holds_append] at hw1
      obtain ⟨out, ho1, ho2⟩ := ih (List.cons_ne_nil _ _)
        (fun x hx => hlab x (List.mem_cons_of_mem _ hx)) (pos + 1 + l.length)
        (writeToBuffer 0 nb1 (Q.length + l.length) len).1 (Q.length + l.length + 1)
        (Q ++ l ++ [46]) f hp2
        (Or.inr ⟨Q ++ l, rfl, by simp, hw1.1⟩)
        (by simp only [List.length_append, List.length_singleton]; omega)
        (by simp at hfuel ⊢; omega)
      refine ⟨out, ?_, ?_⟩
      · rw [ho1]
        simp only [wire_cons, List.length_cons, List.length_append]
        congr 2
        omega
      · simpa [dotted, List.append_assoc] using ho2

/-! ## Parsing a query or a resource record -/

theorem Parse_Query_eq (fuel : Nat) (m : MDns) (junk out : Bytes) (p : Nat)
    (h : nameFromDnsPointer fuel junk 0 MAX_MDNS_NAME_LEN m.data_buffer m.buffer_pointer
      = some (out, p)) :
    m.Parse_Query fuel junk = some
      ({ buffer_pointer := m.buffer_pointer,
         qname_buffer := out,
         qtype := m.data_buffer p * 256 + m.data_buffer (p + 1),
         qclass := (m.data_buffer (p + 2) % 128) * 256 + m.data_buffer (p + 3),
         unicast_response := decide (m.data_buffer (p + 2) / 128 % 2 = 1),
         valid := if p + 4 > m.data_size then false
           else !(((m.data_buffer (p + 2) % 128) * 256 + m.data_buffer (p + 3) ≠ 0xFF
             ∧ (m.data_buffer (p + 2) % 128) * 256 + m.data_buffer (p + 3) ≠ 0x01)) },
       { m with buffer_pointer := p + 4 }) := by
  simp only [MDns.Parse_Query, h]

/-- What `Parse_Query` returns, field by field, once the name is decoded. -/
theorem Parse_Query_spec (fuel : Nat) (m : MDns) (junk out : Bytes) (p : Nat)
    (h : nameFromDnsPointer fuel junk 0 MAX_MDNS_NAME_LEN m.data_buffer m.buffer_pointer
      = some (out, p)) :
    ∃ q s, m.Parse_Query fuel junk = some (q, s)
      ∧ (q.buffer_pointer = m.buffer_pointer
        ∧ q.qclass = (m.data_buffer (p + 2) % 128) * 256 + m.data_buffer (p + 3))
      ∧ q.valid = (if p + 4 > m.data_size then false
          else !decide (q.qclass ≠ 0xFF ∧ q.qclass ≠ 0x01))
      ∧ (s.buffer_pointer = p + 4 ∧ s.data_buffer = m.data_buffer ∧ s.data_size = m.data_size
        ∧ s.query_count = m.query_count ∧ s.answer_count = m.answer_count
        ∧ s.ns_count = m.ns_count ∧ s.ar_count = m.ar_count) :=
  ⟨_, _, Parse_Query_eq fuel m junk out p h, ⟨rfl, rfl⟩, rfl, rfl, rfl, rfl, rfl, rfl, rfl, rfl⟩

theorem PopulateAnswerResult_A (fuel : Nat) (m : MDns) (a : Answer) (h : a.rrtype = MDNS_TYPE_A) :
    m.PopulateAnswerResult fuel a = some
      ({ a with
          rdata_buffer := sprintf a.rdata_buffer 0 (fmtU (m.data_buffer (m.buffer_pointer + 2 + 3))
            ++ [46] ++ fmtU (m.data_buffer (m.buffer_pointer + 2 + 2))
            ++ [46] ++ fmtU (m.data_buffer (m.buffer_pointer + 2 + 1))
            ++ [46] ++ fmtU (m.data_buffer (m.buffer_pointer + 2))) },
       { m with buffer_pointer := m.buffer_pointer + 2 + 4 }) := by
  simp [MDns.PopulateAnswerResult, h, MAX_MDNS_NAME_LEN, renderA, argRank]

theorem PopulateAnswerResult_PTR (fuel : Nat) (m : MDns) (a : Answer) (out : Bytes) (p : Nat)
    (h : a.rrtype = MDNS_TYPE_PTR)
    (hn : nameFromDnsPointer fuel a.rdata_buffer 0 MAX_MDNS_NAME_LEN m.data_buffer
      (m.buffer_pointer + 2) = some (out, p)) :
    m.PopulateAnswerResult fuel a = some
      ({ a with rdata_buffer := out }, { m with buffer_pointer := p }) := by
  simp [MDns.PopulateAnswerResult, h, hn, MDNS_TYPE_PTR, MDNS_TYPE_A]

theorem Parse_Answer_eq (fuel : Nat) (m : MDns) (junkName junkRdata name : Bytes) (p : Nat)
    (a1 : Answer) (m1 : MDns)
    (hn : nameFromDnsPointer fuel junkName 0 MAX_MDNS_NAME_LEN m.data_buffer m.buffer_pointer
      = some (name, p))
    (hr : MDns.PopulateAnswerResult fuel { m with buffer_pointer := p + 8 }
      { buffer_pointer := m.buffer_pointer,
        name_buffer := name,
        rdata_buffer := junkRdata,
        rrtype := m.data_buffer p * 256 + m.data_buffer (p + 1),
        rrclass := (m.data_buffer (p + 2) % 128) * 256 + m.data_buffer (p + 3),
        rrttl := u32 (m.data_buffer (p + 4) * 16777216 + m.data_buffer (p + 5) * 65536
          + m.data_buffer (p + 6) * 256 + m.data_buffer (p + 7)),
        rrset := decide (m.data_buffer (p + 2) / 128 % 2 = 1),
        valid := false } = some (a1, m1)) :
    m.Parse_Answer fuel junkName junkRdata = some
      ({ a1 with valid := if m1.buffer_pointer > m1.data_size then false else true }, m1) := by
  simp only [MDns.Parse_Answer, hn, hr]

/-! ## The packet after `Clear` and one item -/

/-- The state after `Clear()` and `AddQuery(q)` for a name made of labels. -/
theorem AddQuery_Clear (m : MDns) (q : Query) (maxLen : Nat) (hmax : maxLen < 256)
    (ls : List (List Nat)) (fuel : Nat)
    (hne : ls ≠ []) (hlab : ∀ l ∈ ls, Label maxLen l)
    (hname : ∀ i, q.qname_buffer i = (dotted ls).getD i 0)
    (hfuel : (dotted ls).length + 1 ≤ fuel) :
    ∃ m1, m.Clear.AddQuery fuel q = some m1
      ∧ m1.data_size = 12 + (wire ls).length + 4
      ∧ m1.buffer_pointer = 12 + (wire ls).length + 4
      ∧ m1.query_count = 1 ∧ m1.answer_count = 0 ∧ m1.ns_count = 0 ∧ m1.ar_count = 0
      ∧ m1.data_buffer 4 = 0 ∧ m1.data_buffer 5 = 1
      ∧ holds m1.data_buffer 12 (wire ls)
      ∧ m1.data_buffer (12 + (wire ls).length) = q.qtype / 256 % 256
      ∧ m1.data_buffer (12 + (wire ls).length + 1) = q.qtype % 256
      ∧ m1.data_buffer (12 + (wire ls).length + 2)
          = u32 ((if q.unicast_response then 0x8000 else 0) + q.qclass) / 256 % 256
      ∧ m1.data_buffer (12 + (wire ls).length + 3)
          = u32 ((if q.unicast_response then 0x8000 else 0) + q.qclass) % 256 := by
  simp only [MDns.AddQuery, MDns.Clear, ne_eq, not_true_eq_false, or_self, if_false,
    PopulateName_labels _ q.qname_buffer maxLen ls hne hlab hname fuel hfuel, MDns.put]
  refine ⟨_, rfl, ?_⟩
  have hw := wire_length ls hne
  refine ⟨rfl, rfl, rfl, rfl, rfl, rfl, ?_, ?_, ?_, ?_, ?_, ?_, ?_⟩
  · dsimp only
    rw [Bytes.set_other _ _ _ _ (by omega), Bytes.set_other _ _ _ _ (by omega),
      Bytes.set_other _ _ _ _ (by omega), Bytes.set_other _ _ _ _ (by omega),
      Bytes.write_outside _ _ _ _ (Or.inl (by omega))]
    simp [Bytes.set, u32]
  · dsimp only
    rw [Bytes.set_other _ _ _ _ (by omega), Bytes.set_other _ _ _ _ (by omega),
      Bytes.set_other _ _ _ _ (by omega), Bytes.set_other _ _ _ _ (by omega),
      Bytes.write_outside _ _ _ _ (Or.inl (by omega))]
    simp [Bytes.set, u32]
  · dsimp only
    apply holds_of_get
    intro i hi
    rw [Bytes.set_other _ _ _ _ (by omega), Bytes.set_other _ _ _ _ (by omega),
      Bytes.set_other _ _ _ _ (by omega), Bytes.set_other _ _ _ _ (by omega)]
    exact holds_get _ 12 (wire ls) (holds_write _ 12 (wire ls) (wire_lt maxLen hmax ls hlab)) i hi
  · simp only [Bytes.set]; split_ifs <;> omega
  · simp only [Bytes.set]; split_ifs <;> omega
  · simp only [Bytes.set, u32]; split_ifs <;> omega
  · simp only [Bytes.set, u32]; split_ifs <;> omega

/-- The state after `Clear()` and `AddAnswer(a)` for an `A` record whose name is made
of labels. -/
theorem AddAnswer_Clear_A (m : MDns) (a : Answer) (rdata_len0 : Nat) (maxLen : Nat)
    (hmax : maxLen < 256) (ls : List (List Nat)) (fuel : Nat)
    (hne : ls ≠ []) (hlab : ∀ l ∈ ls, Label maxLen l)
    (hname : ∀ i, a.name_buffer i = (dotted ls).getD i 0)
    (htype : a.rrtype = MDNS_TYPE_A)
    (hfuel : (dotted ls).length + 1 ≤ fuel) :
    ∃ m1, m.Clear.AddAnswer fuel a rdata_len0 = some m1
      ∧ m1.data_size = 12 + (wire ls).length + 14
      ∧ m1.buffer_pointer = 12 + (wire ls).length + 14
      ∧ m1.query_count = 0 ∧ m1.answer_count = 1 ∧ m1.ns_count = 0 ∧ m1.ar_count = 0
      ∧ m1.data_buffer 4 = 0 ∧ m1.data_buffer 5 = 0
      ∧ m1.data_buffer 6 = 0 ∧ m1.data_buffer 7 = 1
      ∧ holds m1.data_buffer 12 (wire ls)
      ∧ holds m1.data_buffer (12 + (wire ls).length)
          [0, 1,
           u32 ((if a.rrset then 0x8000 else 0) + a.rrclass) / 256 % 256,
           u32 ((if a.rrset then 0x8000 else 0) + a.rrclass) % 256,
           a.rrttl / 16777216 % 256, a.rrttl / 65536 % 256, a.rrttl / 256 % 256, a.rrttl % 256,
           0, 4,
           a.rdata_buffer 0 % 256, a.rdata_buffer 1 % 256, a.rdata_buffer 2 % 256,
           a.rdata_buffer 3 % 256] := by
  simp only [MDns.AddAnswer, MDns.Clear, ne_eq, not_true_eq_false, or_self, if_false,
    PopulateName_labels _ a.name_buffer maxLen ls hne hlab hname fuel hfuel, MDns.put, htype,
    if_true]
  refine ⟨_, rfl, ?_⟩
  have hw := wire_length ls hne
  refine ⟨rfl, rfl, rfl, rfl, rfl, rfl, ?_, ?_, ?_, ?_, ?_, ?_⟩
  · dsimp only
    simp (disch := omega) only [Bytes.set_other, Bytes.write_outside, Bytes.set_same]
  · dsimp only
    simp (disch := omega) only [Bytes.set_other, Bytes.write_outside, Bytes.set_same]
  · dsimp only
    simp (disch := omega) only [Bytes.set_other, Bytes.write_outside, Bytes.set_same, u32]
  · dsimp only
    simp (disch := omega) only [Bytes.set_other, Bytes.write_outside, Bytes.set_same, u32]
  · dsimp only
    apply holds_of_get
    intro i hi
    simp (disch := omega) only [Bytes.set_other]
    exact holds_get _ 12 (wire ls) (holds_write _ 12 (wire ls) (wire_lt maxLen hmax ls hlab)) i hi
  · dsimp only
    simp only [holds, and_true]
    refine ⟨?_, ?_, ?_, ?_, ?_, ?_, ?_, ?_, ?_, ?_, ?_, ?_, ?_, ?_⟩ <;>
      simp (disch := omega) only [Bytes.set_other, Bytes.set_same, MDNS_TYPE_A] <;> omega

/-- The state after `Clear()` and `AddAnswer(a)` for a `PTR` record whose name and
rdata are made of labels. -/
theorem AddAnswer_Clear_PTR (m : MDns) (a : Answer) (rdata_len0 : Nat) (maxLen : Nat)
    (hmax : maxLen < 256) (ls rs : List (List Nat)) (fuel : Nat)
    (hne : ls ≠ []) (hlab : ∀ l ∈ ls, Label maxLen l)
    (hname : ∀ i, a.name_buffer i = (dotted ls).getD i 0)
    (hrne : rs ≠ []) (hrlab : ∀ l ∈ rs, Label maxLen l)
    (hrdata : ∀ i, a.rdata_buffer i = (dotted rs).getD i 0)
    (htype : a.rrtype = MDNS_TYPE_PTR)
    (hfuel : (dotted ls).length + 1 ≤ fuel) (hrfuel : (dotted rs).length + 1 ≤ fuel) :
    ∃ m1, m.Clear.AddAnswer fuel a rdata_len0 = some m1
      ∧ m1.data_size = 12 + (wire ls).length + 10 + (wire rs).length
      ∧ m1.buffer_pointer = 12 + (wire ls).length + 10 + (wire rs).length
      ∧ m1.query_count = 0 ∧ m1.answer_count = 1 ∧ m1.ns_count = 0 ∧ m1.ar_count = 0
      ∧ m1.data_buffer 6 = 0 ∧ m1.data_buffer 7 = 1
      ∧ holds m1.data_buffer 12 (wire ls)
      ∧ holds m1.data_buffer (12 + (wire ls).length)
          [0, 12,
           u32 ((if a.rrset then 0x8000 else 0) + a.rrclass) / 256 % 256,
           u32 ((if a.rrset then 0x8000 else 0) + a.rrclass) % 256,
           a.rrttl / 16777216 % 256, a.rrttl / 65536 % 256, a.rrttl / 256 % 256, a.rrttl % 256,
           (wire rs).length / 256 % 256, (wire rs).length % 256]
      ∧ holds m1.data_buffer (12 + (wire ls).length + 10) (wire rs) := by
  have hPA : ¬ (MDNS_TYPE_PTR = MDNS_TYPE_A) := by decide
  simp only [MDns.AddAnswer, MDns.Clear, ne_eq, not_true_eq_false, or_self, if_false,
    PopulateName_labels _ a.name_buffer maxLen ls hne hlab hname fuel hfuel,
    PopulateName_labels _ a.rdata_buffer maxLen rs hrne hrlab hrdata fuel hrfuel,
    MDns.put, htype, hPA, if_true]
  refine ⟨_, rfl, ?_⟩
  have hw := wire_length ls hne
  have hrw := wire_length rs hrne
  refine ⟨rfl, rfl, rfl, rfl, rfl, rfl, ?_, ?_, ?_, ?_, ?_⟩
  · dsimp only
    simp (disch := omega) only [Bytes.set_other, Bytes.write_outside, Bytes.set_same, u32]
  · dsimp only
    simp (disch := omega) only [Bytes.set_other, Bytes.write_outside, Bytes.set_same, u32]
  · dsimp only
    apply holds_of_get
    intro i hi
    simp (disch := omega) only [Bytes.set_other, Bytes.write_outside]
    exact holds_get _ 12 (wire ls) (holds_write _ 12 (wire ls) (wire_lt maxLen hmax ls hlab)) i hi
  · dsimp only
    simp only [holds, and_true]
    refine ⟨?_, ?_, ?_, ?_, ?_, ?_, ?_, ?_, ?_, ?_⟩ <;>
      simp (disch := omega) only [Bytes.set_other, Bytes.set_same, Bytes.write_outside,
        MDNS_TYPE_PTR] <;> omega
  · dsimp only
    apply holds_of_get
    intro i hi
    simp (disch := omega) only [Bytes.set_other]
    exact Bytes.write_get _ _ _ (wire_lt maxLen hmax rs hrlab) _ i (by omega) hi

/-! ## C1: query round trip -/

/-- C1 (query round trip).  For a query whose name is made of non-empty labels of at
most 63 characters (no NUL, no dot inside a label, at most 255 characters in all, the
array zero behind the name), with `qtype < 2^16` and `qclass < 2^15`: `Clear()` and
`AddQuery(q)` produce a packet whose header, once read, gives `query_count = 1`, and
`Parse_Query` at offset 12 returns a query with the same name, `qtype`, `qclass` and
`unicast_response`, with the cursor at `data_size`. -/
theorem query_round_trip (m : MDns) (q : Query) (ls : List (List Nat)) (junk : Bytes)
    (fuel : Nat) (hne : ls ≠ []) (hlab : ∀ l ∈ ls, Label 63 l)
    (hlen : (dotted ls).length ≤ 255)
    (hname : ∀ i, q.qname_buffer i = (dotted ls).getD i 0)
    (htype : q.qtype < 2 ^ 16) (hclass : q.qclass < 2 ^ 15)
    (hfuel : (dotted ls).length + 1 ≤ fuel) :
    ∃ m1 q' m2, m.Clear.AddQuery fuel q = some m1
      ∧ m1.readHeader.query_count = 1
      ∧ m1.readHeader.Parse_Query fuel junk = some (q', m2)
      ∧ cstr q.qname_buffer MAX_MDNS_NAME_LEN = dotted ls
      ∧ cstr q'.qname_buffer MAX_MDNS_NAME_LEN = dotted ls
      ∧ q'.qtype = q.qtype ∧ q'.qclass = q.qclass
      ∧ q'.unicast_response = q.unicast_response
      ∧ m2.buffer_pointer = m1.data_size := by
  obtain ⟨m1, h1, hsize, -, -, -, -, -, h4, h5, hw, ht0, ht1, hc0, hc1⟩ :=
    AddQuery_Clear m q 63 (by omega) ls fuel hne hlab hname hfuel
  obtain ⟨out, ho1, ho2⟩ := nameFromDnsPointer_labels m1.data_buffer MAX_MDNS_NAME_LEN 63
    (by omega) ls hne hlab 12 junk 0 [] fuel hw (Or.inl ⟨rfl, rfl⟩)
    (by simp only [List.length_nil, MAX_MDNS_NAME_LEN]; omega)
    (by have := length_le_dotted 63 ls hlab; omega)
  have hnz := dotted_ne_zero 63 ls hlab
  have hpq := Parse_Query_eq fuel m1.readHeader junk out _ ho1
  refine ⟨m1, _, _, h1, ?_, hpq, ?_⟩
  · simp [MDns.readHeader, h4, h5]
  · dsimp only [MDns.readHeader]
    refine ⟨ofList_cstr _ _ _ hname hnz (by simp only [MAX_MDNS_NAME_LEN]; omega),
      cstr_of_holds _ _ _ (by simpa using ho2) hnz (by simp only [MAX_MDNS_NAME_LEN]; omega),
      ?_, ?_, ?_, ?_⟩
    · simp only [ht0, ht1]; omega
    · rw [hc0, hc1, u32]
      cases q.unicast_response
      · simp only [Bool.false_eq_true, if_false]; omega
      · simp only [if_true]; omega
    · rw [hc0, u32]
      cases q.unicast_response
      · simp only [Bool.false_eq_true, if_false, decide_eq_false_iff_not]; omega
      · simp only [if_true, decide_eq_true_eq]; omega
    · simp only [hsize]

/-- C1 at a concrete input: the query for `x.local` of type `PTR`. -/
theorem query_round_trip_witness :
    ∃ m1 q' m2, exampleState.Clear.AddQuery 8 exampleQuery = some m1
      ∧ m1.readHeader.query_count = 1
      ∧ m1.readHeader.Parse_Query 8 zeros = some (q', m2)
      ∧ cstr exampleQuery.qname_buffer MAX_MDNS_NAME_LEN = dotted xLocal
      ∧ cstr q'.qname_buffer MAX_MDNS_NAME_LEN = dotted xLocal
      ∧ q'.qtype = exampleQuery.qtype ∧ q'.qclass = exampleQuery.qclass
      ∧ q'.unicast_response = exampleQuery.unicast_response
      ∧ m2.buffer_pointer = m1.data_size :=
  query_round_trip exampleState exampleQuery xLocal zeros 8 (by decide) xLocal_labels (by decide)
    (fun _ => rfl) (by decide) (by decide) (by decide)

/-! ## C2: PTR answer round trip -/

/-- C2 (PTR answer round trip).  For an answer of type `PTR` with `rrclass < 2^15`, a
32 bit ttl, and a name and an rdata name that are both made of non-empty labels of at
most 63 characters (at most 255 characters in all, arrays zero behind the name):
`Clear()` and `AddAnswer(a)` produce a packet whose header, once read, gives
`answer_count = 1`, and `Parse_Answer` at offset 12 returns a valid answer with the
same name, `rrtype`, `rrclass`, `rrset`, ttl and rdata name, with the cursor at
`data_size`. -/
theorem ptr_round_trip (m : MDns) (a : Answer) (ls rs : List (List Nat))
    (junkName junkRdata : Bytes) (fuel rdata_len0 : Nat)
    (hne : ls ≠ []) (hlab : ∀ l ∈ ls, Label 63 l) (hlen : (dotted ls).length ≤ 255)
    (hname : ∀ i, a.name_buffer i = (dotted ls).getD i 0)
    (hrne : rs ≠ []) (hrlab : ∀ l ∈ rs, Label 63 l) (hrlen : (dotted rs).length ≤ 255)
    (hrdata : ∀ i, a.rdata_buffer i = (dotted rs).getD i 0)
    (htype : a.rrtype = MDNS_TYPE_PTR) (hclass : a.rrclass < 2 ^ 15) (httl : a.rrttl < 2 ^ 32)
    (hfuel : (dotted ls).length + 1 ≤ fuel) (hrfuel : (dotted rs).length + 1 ≤ fuel) :
    ∃ m1 a' m2, m.Clear.AddAnswer fuel a rdata_len0 = some m1
      ∧ m1.readHeader.answer_count = 1
      ∧ m1.readHeader.Parse_Answer fuel junkName junkRdata = some (a', m2)
      ∧ a'.valid = true
      ∧ cstr a.name_buffer MAX_MDNS_NAME_LEN = dotted ls
      ∧ cstr a'.name_buffer MAX_MDNS_NAME_LEN = dotted ls
      ∧ a'.rrtype = a.rrtype ∧ a'.rrclass = a.rrclass ∧ a'.rrset = a.rrset
      ∧ a'.rrttl = a.rrttl
      ∧ cstr a.rdata_buffer MAX_MDNS_NAME_LEN = dotted rs
      ∧ cstr a'.rdata_buffer MAX_MDNS_NAME_LEN = dotted rs
      ∧ m2.buffer_pointer = m1.data_size := by
  obtain ⟨m1, h1, hsize, -, -, -, -, -, h6, h7, hw, hh, hrw⟩ :=
    AddAnswer_Clear_PTR m a rdata_len0 63 (by omega) ls rs fuel hne hlab hname hrne hrlab hrdata
      htype hfuel hrfuel
  obtain ⟨out, ho1, ho2⟩ := nameFromDnsPointer_labels m1.data_buffer MAX_MDNS_NAME_LEN 63
    (by omega) ls hne hlab 12 junkName 0 [] fuel hw (Or.inl ⟨rfl, rfl⟩)
    (by simp only [List.length_nil, MAX_MDNS_NAME_LEN]; omega)
    (by have := length_le_dotted 63 ls hlab; omega)
  obtain ⟨rout, hr1, hr2⟩ := nameFromDnsPointer_labels m1.data_buffer MAX_MDNS_NAME_LEN 63
    (by omega) rs hrne hrlab (12 + (wire ls).length + 8 + 2) junkRdata 0 [] fuel
    (by rw [show 12 + (wire ls).length + 8 + 2 = 12 + (wire ls).length + 10 by omega]; exact hrw)
    (Or.inl ⟨rfl, rfl⟩)
    (by simp only [List.length_nil, MAX_MDNS_NAME_LEN]; omega)
    (by have := length_le_dotted 63 rs hrlab; omega)
  have hg := fun k hk => holds_get _ _ _ hh k hk
  have e0 := hg 0 (by simp)
  have e1 := hg 1 (by simp)
  have e2 := hg 2 (by simp)
  have e3 := hg 3 (by simp)
  have e4 := hg 4 (by simp)
  have e5 := hg 5 (by simp)
  have e6 := hg 6 (by simp)
  have e7 := hg 7 (by simp)
  simp only [List.getD_cons_succ, List.getD_cons_zero, Nat.add_zero] at e0 e1 e2 e3 e4 e5 e6 e7
  have hpa := Parse_Answer_eq fuel m1.readHeader junkName junkRdata out _ _ _ ho1
    (PopulateAnswerResult_PTR fuel _ _ rout _ (by
      show m1.data_buffer (12 + (wire ls).length) * 256 + m1.data_buffer (12 + (wire ls).length + 1)
        = MDNS_TYPE_PTR
      rw [e0, e1]; rfl) hr1)
  have hnz := dotted_ne_zero 63 ls hlab
  have hrnz := dotted_ne_zero 63 rs hrlab
  refine ⟨m1, _, _, h1, ?_, hpa, ?_, ?_, ?_, ?_, ?_, ?_, ?_, ?_, ?_, ?_⟩
  · simp [MDns.readHeader, h6, h7]
  · dsimp only [MDns.readHeader]
    rw [hsize, if_neg (by omega)]
  · exact ofList_cstr _ _ _ hname hnz (by simp only [MAX_MDNS_NAME_LEN]; omega)
  · exact cstr_of_holds _ _ _ (by simpa using ho2) hnz (by simp only [MAX_MDNS_NAME_LEN]; omega)
  · dsimp only [MDns.readHeader]
    rw [e0, e1, htype]; rfl
  · dsimp only [MDns.readHeader]
    rw [e2, e3, u32]
    cases a.rrset
    · simp only [Bool.false_eq_true, if_false]; omega
    · simp only [if_true]; omega
  · dsimp only [MDns.readHeader]
    rw [e2, u32]
    cases a.rrset
    · simp only [Bool.false_eq_true, if_false, decide_eq_false_iff_not]; omega
    · simp only [if_true, decide_eq_true_eq]; omega
  · dsimp only [MDns.readHeader]
    rw [e4, e5, e6, e7, u32]
    omega
  · exact ofList_cstr _ _ _ hrdata hrnz (by simp only [MAX_MDNS_NAME_LEN]; omega)
  · exact cstr_of_holds _ _ _ (by simpa using hr2) hrnz (by simp only [MAX_MDNS_NAME_LEN]; omega)
  · dsimp only [MDns.readHeader]
    rw [hsize]

/-- C2 at a concrete input: the `PTR` answer from `x.local` to `foo.bar`. -/
theorem ptr_round_trip_witness :
    ∃ m1 a' m2, exampleState.Clear.AddAnswer 8 examplePTR 0 = some m1
      ∧ m1.readHeader.answer_count = 1
      ∧ m1.readHeader.Parse_Answer 8 zeros zeros = some (a', m2)
      ∧ a'.valid = true
      ∧ cstr examplePTR.name_buffer MAX_MDNS_NAME_LEN = dotted xLocal
      ∧ cstr a'.name_buffer MAX_MDNS_NAME_LEN = dotted xLocal
      ∧ a'.rrtype = examplePTR.rrtype ∧ a'.rrclass = examplePTR.rrclass
      ∧ a'.rrset = examplePTR.rrset
      ∧ a'.rrttl = examplePTR.rrttl
      ∧ cstr examplePTR.rdata_buffer MAX_MDNS_NAME_LEN = dotted fooBar
      ∧ cstr a'.rdata_buffer MAX_MDNS_NAME_LEN = dotted fooBar
      ∧ m2.buffer_pointer = m1.data_size :=
  ptr_round_trip exampleState examplePTR xLocal fooBar zeros zeros 8 0 (by decide) xLocal_labels
    (by decide) (fun _ => rfl) (by decide) fooBar_labels (by decide) (fun _ => rfl) rfl
    (by decide) (by decide) (by decide) (by decide)

/-! ## C3: A record end to end -/

/-- For address bytes `b0 .. b3`, a 32 bit ttl and a name made of labels: `Clear()`,
`AddAnswer` of a type `A` answer with these rdata bytes, then `Parse_Answer` on the
produced buffer give the same ttl and the rdata string `b3.b2.b1.b0`, the address bytes
in decimal from the last to the first (the record is of type 1, valid, and the cursor
ends at `data_size`). -/
theorem a_record_end_to_end (m : MDns) (a : Answer) (ls : List (List Nat))
    (junkName junkRdata : Bytes) (fuel rdata_len0 b0 b1 b2 b3 : Nat)
    (hne : ls ≠ []) (hlab : ∀ l ∈ ls, Label 63 l) (hlen : (dotted ls).length ≤ 255)
    (hname : ∀ i, a.name_buffer i = (dotted ls).getD i 0)
    (htype : a.rrtype = MDNS_TYPE_A) (httl : a.rrttl < 2 ^ 32)
    (hb : b0 < 256 ∧ b1 < 256 ∧ b2 < 256 ∧ b3 < 256)
    (hr : a.rdata_buffer 0 = b0 ∧ a.rdata_buffer 1 = b1 ∧ a.rdata_buffer 2 = b2
      ∧ a.rdata_buffer 3 = b3)
    (hfuel : (dotted ls).length + 1 ≤ fuel) :
    ∃ m1 a' m2, m.Clear.AddAnswer fuel a rdata_len0 = some m1
      ∧ m1.readHeader.Parse_Answer fuel junkName junkRdata = some (a', m2)
      ∧ cstr a'.rdata_buffer MAX_MDNS_NAME_LEN
          = fmtU b3 ++ [46] ++ fmtU b2 ++ [46] ++ fmtU b1 ++ [46] ++ fmtU b0
      ∧ a'.rrttl = a.rrttl
      ∧ a'.rrtype = MDNS_TYPE_A ∧ a'.valid = true ∧ m2.buffer_pointer = m1.data_size := by
  obtain ⟨m1, h1, hsize, -, -, -, -, -, -, -, -, -, hw, hh⟩ :=
    AddAnswer_Clear_A m a rdata_len0 63 (by omega) ls fuel hne hlab hname htype hfuel
  obtain ⟨out, ho1, -⟩ := nameFromDnsPointer_labels m1.data_buffer MAX_MDNS_NAME_LEN 63
    (by omega) ls hne hlab 12 junkName 0 [] fuel hw (Or.inl ⟨rfl, rfl⟩)
    (by simp only [List.length_nil, MAX_MDNS_NAME_LEN]; omega)
    (by have := length_le_dotted 63 ls hlab; omega)
  have hg := fun k hk => holds_get _ _ _ hh k hk
  have e0 := hg 0 (by simp)
  have e1 := hg 1 (by simp)
  have e4 := hg 4 (by simp)
  have e5 := hg 5 (by simp)
  have e6 := hg 6 (by simp)
  have e7 := hg 7 (by simp)
  have e10 := hg 10 (by simp)
  have e11 := hg 11 (by simp)
  have e12 := hg 12 (by simp)
  have e13 := hg 13 (by simp)
  simp only [List.getD_cons_succ, List.getD_cons_zero, Nat.add_zero] at e0 e1 e4 e5 e6 e7
  simp only [List.getD_cons_succ, List.getD_cons_zero] at e10 e11 e12 e13
  obtain ⟨hr0, hr1, hr2, hr3⟩ := hr
  rw [hr0, Nat.mod_eq_of_lt hb.1] at e10
  rw [hr1, Nat.mod_eq_of_lt hb.2.1] at e11
  rw [hr2, Nat.mod_eq_of_lt hb.2.2.1] at e12
  rw [hr3, Nat.mod_eq_of_lt hb.2.2.2] at e13
  have hpa := Parse_Answer_eq fuel m1.readHeader junkName junkRdata out _ _ _ ho1
    (PopulateAnswerResult_A fuel _ _ (by
      show m1.data_buffer (12 + (wire ls).length) * 256 + m1.data_buffer (12 + (wire ls).length + 1)
        = MDNS_TYPE_A
      rw [e0, e1]; rfl))
  refine ⟨m1, _, _, h1, hpa, ?_, ?_, ?_, ?_, ?_⟩
  · dsimp only [MDns.readHeader]
    rw [show 12 + (wire ls).length + 8 + 2 + 3 = 12 + (wire ls).length + 13 by omega,
      show 12 + (wire ls).length + 8 + 2 + 2 = 12 + (wire ls).length + 12 by omega,
      show 12 + (wire ls).length + 8 + 2 + 1 = 12 + (wire ls).length + 11 by omega,
      show 12 + (wire ls).length + 8 + 2 = 12 + (wire ls).length + 10 by omega,
      e10, e11, e12, e13]
    have hl0 := fmtU_length b0 hb.1
    have hl1 := fmtU_length b1 hb.2.1
    have hl2 := fmtU_length b2 hb.2.2.1
    have hl3 := fmtU_length b3 hb.2.2.2
    have hmem : ∀ c ∈ fmtU b3 ++ [46] ++ fmtU b2 ++ [46] ++ fmtU b1 ++ [46] ++ fmtU b0,
        c ≠ 0 ∧ c < 256 := by
      intro c hc
      simp only [List.mem_append, List.mem_singleton] at hc
      rcases hc with (((((hc | hc) | hc) | hc) | hc) | hc) | hc
      · exact fmtU_mem _ _ hc
      · omega
      · exact fmtU_mem _ _ hc
      · omega
      · exact fmtU_mem _ _ hc
      · omega
      · exact fmtU_mem _ _ hc
    exact cstr_of_holds _ _ _ (holds_sprintf _ _ (fun c hc => (hmem c hc).2))
      (fun c hc => (hmem c hc).1)
      (by simp only [List.length_append, List.length_singleton, MAX_MDNS_NAME_LEN]; omega)
  · dsimp only [MDns.readHeader]
    rw [e4, e5, e6, e7, u32]
    omega
  · dsimp only [MDns.readHeader]
    rw [e0, e1]; rfl
  · dsimp only [MDns.readHeader]
    rw [hsize, if_neg (by omega)]
  · dsimp only [MDns.readHeader]
    rw [hsize]

/-- C3 fails in the code.  For the name `x.local`, ttl 120 and the address bytes
192, 168, 1, 5, `Clear()`, `AddAnswer` and `Parse_Answer` on the produced buffer give
the ttl 120 and the rdata string `5.1.168.192`, not `192.168.1.5`: the four
`data_buffer[buffer_pointer++]` are arguments of one `sprintf` call and are carried out
from the last to the first.  Taken as written they would give `192.168.1.5`. -/
theorem a_record_rendered_reversed :
    (answerOnlyState.readHeader.Parse_Answer 8 zeros zeros).map
        (fun r => (cstr r.1.rdata_buffer MAX_MDNS_NAME_LEN, r.1.rrttl, r.1.valid))
      = some (chars "5.1.168.192", 120, true)
    ∧ chars "5.1.168.192" ≠ chars "192.168.1.5"
    ∧ [answerOnlyState.data_buffer 31, answerOnlyState.data_buffer 32,
        answerOnlyState.data_buffer 33, answerOnlyState.data_buffer 34] = [192, 168, 1, 5]
    ∧ renderA (fun k => k) answerOnlyState.data_buffer 31 = chars "192.168.1.5" := by
  decide

/-! ## C4: name decompression -/

/-- C4 (name decompression).  When byte `p` is `0xC0 + q / 256` and byte `p + 1` is
`q mod 256` with `q < 2^14`, and decoding at `q` ends, then decoding at `p` into an
empty output array (one more level of recursion) gives the output array that decoding
at `q` gives, and returns `p + 2`: the cursor of the recursive call is dropped. -/
theorem name_decompression (pkt nb : Bytes) (p q fuel len : Nat) (hq : q < 2 ^ 14)
    (hp0 : pkt p = 0xC0 + q / 256) (hp1 : pkt (p + 1) = q % 256)
    (hterm : (nameFromDnsPointer fuel nb 0 len pkt q).isSome = true) :
    ∃ r, nameFromDnsPointer fuel nb 0 len pkt q = some r
      ∧ nameFromDnsPointer (fuel + 1) nb 0 len pkt p = some (r.1, p + 2) := by
  have hptr : (pkt p - 0xC0) * 256 + pkt (p + 1) = q := by rw [hp0, hp1]; omega
  obtain ⟨r, hr⟩ := Option.isSome_iff_exists.mp hterm
  refine ⟨r, hr, ?_⟩
  rw [nameFromDnsPointer]
  simp only [gt_iff_lt, Nat.lt_irrefl, if_false, if_neg (show ¬ pkt p < 0xC0 by omega), hptr, hr]

/-- C4 at the input of the specification: labels `3 foo 3 bar 0` at offset 20 and the
pointer `0xC0 0x14` at offset 40; decoding at 40 gives `foo.bar` and returns 42. -/
theorem name_decompression_witness :
    (nameFromDnsPointer 2 zeros 0 256 pointerPacket 20).isSome = true
      ∧ (∃ r, nameFromDnsPointer 2 zeros 0 256 pointerPacket 20 = some r
          ∧ nameFromDnsPointer (2 + 1) zeros 0 256 pointerPacket 40 = some (r.1, 40 + 2))
      ∧ (nameFromDnsPointer 2 zeros 0 256 pointerPacket 20).map (fun r => cstr r.1 256)
          = some (chars "foo.bar")
      ∧ (nameFromDnsPointer 3 zeros 0 256 pointerPacket 40).map (fun r => (cstr r.1 256, r.2))
          = some (chars "foo.bar", 42) :=
  ⟨by decide,
   name_decompression pointerPacket zeros 40 20 2 256 (by decide) (by decide) (by decide)
     (by decide),
   by decide, by decide⟩

/-! ## C5: name encoding format -/

/-- C5 (name encoding format).  For a name made of `k >= 1` non-empty labels, each
shorter than 256 bytes and free of NUL (and of the separator), in an array that is
zero behind the name, `PopulateName` at cursor `c` writes the bytes
`len(l1) l1 .. len(lk) lk 0` from `c` on, every length position holds the length of
its label (below `0xC0` when no label is longer than 63), every other byte of the
buffer is unchanged, the cursor advances by `strlen(name) + 2`, and that count is
returned. -/
theorem populateName_format (m : MDns) (nb : Bytes) (ls : List (List Nat)) (fuel : Nat)
    (hne : ls ≠ []) (hlab : ∀ l ∈ ls, Label 255 l)
    (hnb : ∀ i, nb i = (dotted ls).getD i 0) (hfuel : (dotted ls).length + 1 ≤ fuel) :
    ∃ m' n, m.PopulateName fuel nb = some (m', n)
      ∧ holds m'.data_buffer m.buffer_pointer (wire ls)
      ∧ (∀ k, k < ls.length →
          m'.data_buffer (m.buffer_pointer + labelOffset ls k) = (ls.getD k []).length)
      ∧ ((∀ l ∈ ls, l.length ≤ 63) → ∀ k, k < ls.length →
          m'.data_buffer (m.buffer_pointer + labelOffset ls k) < 0xC0)
      ∧ (∀ j, j < m.buffer_pointer ∨ m.buffer_pointer + (wire ls).length ≤ j →
          m'.data_buffer j = m.data_buffer j)
      ∧ (wire ls).length = (dotted ls).length + 2
      ∧ m'.buffer_pointer = m.buffer_pointer + ((dotted ls).length + 2)
      ∧ n = (dotted ls).length + 2
      ∧ m' = { m with data_buffer := m'.data_buffer, buffer_pointer := m'.buffer_pointer } := by
  have hwl := wire_length ls hne
  have hh : holds (m.data_buffer.write m.buffer_pointer (wire ls)) m.buffer_pointer (wire ls) :=
    holds_write _ _ _ (wire_lt 255 (by omega) ls hlab)
  have hk : ∀ k, k < ls.length →
      (m.data_buffer.write m.buffer_pointer (wire ls)) (m.buffer_pointer + labelOffset ls k)
        = (ls.getD k []).length := by
    intro k hk
    obtain ⟨h1, h2⟩ := wire_labelOffset ls k hk
    rw [holds_get _ _ _ hh _ h1, h2]
  refine ⟨_, _, PopulateName_labels m nb 255 ls hne hlab hnb fuel hfuel, hh, hk, ?_, ?_, ?_, ?_, ?_,
    rfl⟩
  · intro h63 k hlt
    dsimp only
    rw [hk k hlt]
    have hmem : ls.getD k [] ∈ ls := by
      rw [List.getD_eq_getElem _ _ hlt]
      exact List.getElem_mem _
    have := h63 _ hmem
    omega
  · intro j hj
    exact Bytes.write_outside _ _ _ _ hj
  · omega
  · dsimp only; omega
  · omega

/-- C5 at a concrete input: `x.local` written at cursor 12. -/
theorem populateName_format_witness :
    ∃ m' n, exampleState.Clear.PopulateName 8 (ofList (chars "x.local")) = some (m', n)
      ∧ holds m'.data_buffer exampleState.Clear.buffer_pointer (wire xLocal)
      ∧ (∀ k, k < xLocal.length →
          m'.data_buffer (exampleState.Clear.buffer_pointer + labelOffset xLocal k)
            = (xLocal.getD k []).length)
      ∧ ((∀ l ∈ xLocal, l.length ≤ 63) → ∀ k, k < xLocal.length →
          m'.data_buffer (exampleState.Clear.buffer_pointer + labelOffset xLocal k) < 0xC0)
      ∧ (∀ j, j < exampleState.Clear.buffer_pointer
            ∨ exampleState.Clear.buffer_pointer + (wire xLocal).length ≤ j →
          m'.data_buffer j = exampleState.Clear.data_buffer j)
      ∧ (wire xLocal).length = (dotted xLocal).length + 2
      ∧ m'.buffer_pointer = exampleState.Clear.buffer_pointer + ((dotted xLocal).length + 2)
      ∧ n = (dotted xLocal).length + 2
      ∧ m' = { exampleState.Clear with
          data_buffer := m'.data_buffer, buffer_pointer := m'.buffer_pointer } :=
  populateName_format exampleState.Clear (ofList (chars "x.local")) xLocal 8 (by decide)
    (fun l hl => ⟨(xLocal_labels l hl).1, by have := (xLocal_labels l hl).2.1; omega,
      (xLocal_labels l hl).2.2⟩)
    (fun _ => rfl) (by decide)

/-! ## C6: header level rejection -/

/-- C6 (header level rejection).  Whenever `Check` ends on a received datagram, it
returns `true` if and only if the datagram is longer than 12 bytes and the low nibble
of its byte 3 is zero; and when it returns `false`, neither callback has been called. -/
theorem check_header_rejection (fuel : Nat) (m : MDns) (packet : List Nat)
    (hasQueryFn hasAnswerFn : Bool) (junkQ junkName junkRdata : Nat → Bytes)
    (hterm : (m.Check fuel packet hasQueryFn hasAnswerFn junkQ junkName junkRdata).isSome = true) :
    ∃ r, m.Check fuel packet hasQueryFn hasAnswerFn junkQ junkName junkRdata = some r
      ∧ (r.ret = true ↔ packet.length > 12 ∧ packet.getD 3 0 % 16 = 0)
      ∧ (r.ret = false → r.queries = [] ∧ r.answers = []) := by
  obtain ⟨r, hr⟩ := Option.isSome_iff_exists.mp hterm
  refine ⟨r, hr, ?_⟩
  unfold MDns.Check at hr
  by_cases hlen : packet.length > 12
  · rw [if_pos hlen] at hr
    have h3 : ((m.receive packet).readFlags).data_buffer 3 = packet.getD 3 0 % 256 := by
      simp only [MDns.readFlags, MDns.receive]
      rw [if_pos (by omega)]
    by_cases hrc : packet.getD 3 0 % 16 = 0
    · have hrc' : ¬ (((m.receive packet).readFlags).data_buffer 3 % 16 ≠ 0) := by
        rw [h3]; omega
      simp only [hrc', if_false] at hr
      split at hr
      · exact absurd hr (by simp)
      · split at hr
        · exact absurd hr (by simp)
        · injection hr with hr
          subst hr
          exact ⟨⟨fun _ => ⟨hlen, hrc⟩, fun _ => rfl⟩, fun h => absurd h (by simp)⟩
    · have hrc' : ((m.receive packet).readFlags).data_buffer 3 % 16 ≠ 0 := by
        rw [h3]; omega
      rw [if_pos hrc'] at hr
      injection hr with hr
      subst hr
      exact ⟨⟨fun h => absurd h (by simp), fun h => absurd h.2 hrc⟩, fun _ => ⟨rfl, rfl⟩⟩
  · rw [if_neg hlen] at hr
    injection hr with hr
    subst hr
    exact ⟨⟨fun h => absurd h (by simp), fun h => absurd h.1 hlen⟩, fun _ => ⟨rfl, rfl⟩⟩

/-- C6 at a concrete input: the datagram with two queries is accepted. -/
theorem check_header_rejection_witness :
    ∃ r, exampleState.Check 2 twoQueryPacket true true (fun _ => zeros) (fun _ => zeros)
        (fun _ => zeros) = some r
      ∧ (r.ret = true ↔ twoQueryPacket.length > 12 ∧ twoQueryPacket.getD 3 0 % 16 = 0)
      ∧ (r.ret = false → r.queries = [] ∧ r.answers = []) :=
  check_header_rejection 2 exampleState twoQueryPacket true true (fun _ => zeros)
    (fun _ => zeros) (fun _ => zeros) (by decide)

/-! ## C7: ordering violation on `AddQuery` -/

/-- C7 (ordering violation on `AddQuery`).  When `answer_count`, `ns_count` or
`ar_count` is not zero, `AddQuery` returns with the state it was called with: buffer,
`data_size`, cursor and the four counts are unchanged. -/
theorem addQuery_ordering (fuel : Nat) (m : MDns) (query : Query)
    (h : m.answer_count ≠ 0 ∨ m.ns_count ≠ 0 ∨ m.ar_count ≠ 0) :
    m.AddQuery fuel query = some m := by
  unfold MDns.AddQuery
  rw [if_pos h]

/-- C7 at a concrete input: a state with one answer. -/
theorem addQuery_ordering_witness :
    stateWithAnswer.AddQuery 8 exampleQuery = some stateWithAnswer :=
  addQuery_ordering 8 stateWithAnswer exampleQuery (Or.inl (by decide))

/-! ## C8: partial validity -/

/-- C8 as stated fails: on the datagram with a query of class `0x0002` followed by a
query of class `0x0001`, the query callback is called once (with a valid query), not
twice with `valid = false` and then `valid = true`. -/
theorem partial_validity_counterexample :
    (exampleState.Check 2 twoQueryPacket true true (fun _ => zeros) (fun _ => zeros)
        (fun _ => zeros)).map (fun r => r.queries.map (fun q => (q.buffer_pointer, q.valid)))
      = some [(19, true)]
    ∧ (exampleState.Check 2 twoQueryPacket true true (fun _ => zeros) (fun _ => zeros)
        (fun _ => zeros)).map (fun r => r.queries.map (fun q => q.valid))
      ≠ some [false, true] := by
  decide

/-- C8, amended.  For a datagram whose header declares two queries and no resource
record, whose first query has the masked class `0x0002` and whose second query has the
class `0x0001` and ends inside the datagram: `Parse_Query` marks the first query
`valid = false`, and `Check` with a query callback calls that callback exactly once,
with the second query, marked `valid = true`; the answer callback is not called. -/
theorem partial_validity_amended (fuel : Nat) (m : MDns) (packet : List Nat)
    (hasAnswerFn : Bool) (junkQ junkName junkRdata : Nat → Bytes) (n1 n2 : Bytes) (p1 p2 : Nat)
    (hlen : packet.length > 12) (hrc : packet.getD 3 0 % 16 = 0)
    (hqd : packet.getD 4 0 % 256 = 0 ∧ packet.getD 5 0 % 256 = 2)
    (hrr : ∀ i, 6 ≤ i → i < 12 → packet.getD i 0 % 256 = 0)
    (hd1 : nameFromDnsPointer fuel (junkQ 0) 0 MAX_MDNS_NAME_LEN (m.receive packet).data_buffer 12
      = some (n1, p1))
    (hc1 : ((m.receive packet).data_buffer (p1 + 2) % 128) * 256
      + (m.receive packet).data_buffer (p1 + 3) = 2)
    (hd2 : nameFromDnsPointer fuel (junkQ 1) 0 MAX_MDNS_NAME_LEN (m.receive packet).data_buffer
      (p1 + 4) = some (n2, p2))
    (hc2 : ((m.receive packet).data_buffer (p2 + 2) % 128) * 256
      + (m.receive packet).data_buffer (p2 + 3) = 1)
    (hin : p2 + 4 ≤ packet.length) :
    (∃ q1 s1, (m.receive packet).readFlags.readHeader.Parse_Query fuel (junkQ 0) = some (q1, s1)
        ∧ q1.qclass = 2 ∧ q1.valid = false ∧ s1.buffer_pointer = p1 + 4)
    ∧ ∃ r q, m.Check fuel packet true hasAnswerFn junkQ junkName junkRdata = some r
        ∧ r.ret = true ∧ r.queries = [q] ∧ q.valid = true ∧ q.buffer_pointer = p1 + 4
        ∧ q.qclass = 1 ∧ r.answers = [] := by
  have hb : ∀ i, i < 12 → (m.receive packet).data_buffer i = packet.getD i 0 % 256 := by
    intro i hi
    simp only [MDns.receive]
    rw [if_pos (by omega)]
  obtain ⟨q1, s1, hq1, hk1, hv1, hs1⟩ := Parse_Query_spec fuel
    (m.receive packet).readFlags.readHeader (junkQ 0) n1 p1 hd1
  obtain ⟨hs1b, hs1d, hs1s, hs1q, hs1a, hs1n, hs1r⟩ := hs1
  obtain ⟨q2, s2, hq2, hk2, hv2, hs2⟩ := Parse_Query_spec fuel s1 (junkQ 1) n2 p2
    (by rw [hs1d, hs1b]; exact hd2)
  obtain ⟨hs2b, hs2d, hs2s, hs2q, hs2a, hs2n, hs2r⟩ := hs2
  have hdb : (m.receive packet).readFlags.readHeader.data_buffer = (m.receive packet).data_buffer :=
    rfl
  have hds : (m.receive packet).readFlags.readHeader.data_size = packet.length := rfl
  rw [hdb] at hk1 hs1d
  rw [hs1d] at hk2
  have hq1c : q1.qclass = 2 := by rw [hk1.2]; exact hc1
  have hq2c : q2.qclass = 1 := by rw [hk2.2]; exact hc2
  have hq1v : q1.valid = false := by
    rw [hv1, hq1c]
    split <;> rfl
  have hq2v : q2.valid = true := by
    rw [hv2, hq2c, hs1s, hds, if_neg (by omega)]
    rfl
  refine ⟨⟨q1, s1, hq1, hq1c, hq1v, hs1b⟩, ?_⟩
  have hcnt : (m.receive packet).readFlags.readHeader.query_count = 2 := by
    show (m.receive packet).data_buffer 4 * 256 + (m.receive packet).data_buffer 5 = 2
    rw [hb 4 (by omega), hb 5 (by omega), hqd.1, hqd.2]
  have hrrc : s2.answer_count + s2.ns_count + s2.ar_count = 0 := by
    rw [hs2a, hs2n, hs2r, hs1a, hs1n, hs1r]
    show (m.receive packet).data_buffer 6 * 256 + (m.receive packet).data_buffer 7
      + ((m.receive packet).data_buffer 8 * 256 + (m.receive packet).data_buffer 9)
      + ((m.receive packet).data_buffer 10 * 256 + (m.receive packet).data_buffer 11) = 0
    rw [hb 6 (by omega), hb 7 (by omega), hb 8 (by omega), hb 9 (by omega), hb 10 (by omega),
      hb 11 (by omega), hrr 6 (by omega) (by omega), hrr 7 (by omega) (by omega),
      hrr 8 (by omega) (by omega), hrr 9 (by omega) (by omega), hrr 10 (by omega) (by omega),
      hrr 11 (by omega) (by omega)]
  have h3 : ¬ ((m.receive packet).readFlags.data_buffer 3 % 16 ≠ 0) := by
    show ¬ ((m.receive packet).data_buffer 3 % 16 ≠ 0)
    rw [hb 3 (by omega)]; omega
  refine ⟨{ ret := true, state := s2, queries := [q2], answers := [] }, q2, ?_, ?_⟩
  · unfold MDns.Check
    rw [if_pos hlen]
    simp only [h3, if_false, hcnt, parseQueries, hq1, hq1v, hq2, hq2v, hrrc, parseAnswers,
      Bool.false_eq_true, if_true, List.nil_append]
  · exact ⟨rfl, rfl, hq2v, by rw [hk2.1, hs1b], hq2c, rfl⟩

/-- C8, amended, at a concrete input: the datagram with the queries for `a` (class 2)
and `b` (class 1). -/
theorem partial_validity_amended_witness :
    (∃ q1 s1, (exampleState.receive twoQueryPacket).readFlags.readHeader.Parse_Query 2 zeros
          = some (q1, s1)
        ∧ q1.qclass = 2 ∧ q1.valid = false ∧ s1.buffer_pointer = 15 + 4)
    ∧ ∃ r q, exampleState.Check 2 twoQueryPacket true true (fun _ => zeros) (fun _ => zeros)
          (fun _ => zeros) = some r
        ∧ r.ret = true ∧ r.queries = [q] ∧ q.valid = true ∧ q.buffer_pointer = 15 + 4
        ∧ q.qclass = 1 ∧ r.answers = [] :=
  partial_validity_amended 2 exampleState twoQueryPacket true (fun _ => zeros) (fun _ => zeros)
    (fun _ => zeros) ((((zeros.set 0 97).set 1 0).set 1 0).set 2 0)
    ((((zeros.set 0 98).set 1 0).set 1 0).set 2 0) 15 22
    (by decide) (by decide) (by decide) (by decide) rfl (by decide) rfl (by decide) (by decide)

/-! ## C9: class of a resource record -/

/-- C9 at a failing input: the resource record of `badClassPacket` has the class
`0x0002`, inside the datagram; `Parse_Answer` returns it with `valid = true` and the
cursor behind the record (29), whereas `Parse_Query` returns the first query of
`twoQueryPacket`, which has the same class, with `valid = false` and the cursor behind
the query (19). -/
theorem parse_answer_accepts_bad_class :
    ((exampleState.receive badClassPacket).readFlags.readHeader.Parse_Answer 2 zeros zeros).map
        (fun r => (r.1.rrclass, r.1.valid, r.2.buffer_pointer, r.2.data_size))
      = some (2, true, 29, 29)
    ∧ ((exampleState.receive twoQueryPacket).readFlags.readHeader.Parse_Query 2 zeros).map
        (fun r => (r.1.qclass, r.1.valid, r.2.buffer_pointer))
      = some (2, false, 19) := by
  decide

/-! ## C10: unsupported type on encode -/

/-- C10 at a failing input: after `Clear()`, `AddAnswer` of an `SRV` answer does not
leave the state alone: `answer_count` and header byte 7 become 1, cursor and
`data_size` move from 12 to 31, and the `rdlength` bytes (29 and 30) receive whatever
the local `rdata_len` held. -/
theorem addAnswer_unsupported_type_mutates :
    (exampleState.Clear.answer_count, exampleState.Clear.data_buffer 7,
        exampleState.Clear.data_size, exampleState.Clear.buffer_pointer) = (0, 0, 12, 12)
    ∧ (exampleState.Clear.AddAnswer 8 exampleSRV 0xBEEF).map
        (fun m => (m.answer_count, m.data_buffer 7, m.data_size, m.buffer_pointer))
      = some (1, 1, 31, 31)
    ∧ (exampleState.Clear.AddAnswer 8 exampleSRV 0xBEEF).map
        (fun m => (m.data_buffer 21, m.data_buffer 22, m.data_buffer 29, m.data_buffer 30))
      = some (0, 33, 0xBE, 0xEF) :=
  ⟨by decide, by decide, by decide⟩

/-! ## Cursor and output bounds of name decoding -/

theorem writeToBuffer_pos (v : Nat) (nb : Bytes) (pos len : Nat) :
    (writeToBuffer v nb pos len).2 = pos + 1 := by
  unfold writeToBuffer
  split <;> rfl

theorem writeToBuffer_frame (v : Nat) (nb : Bytes) (pos len i : Nat) (hi : len ≤ i) :
    (writeToBuffer v nb pos len).1 i = nb i := by
  unfold writeToBuffer
  split
  · show ((nb.set pos v).set (pos + 1) 0) i = nb i
    rw [Bytes.set_other _ _ _ _ (by omega), Bytes.set_other _ _ _ _ (by omega)]
  · rfl

theorem writeToBuffer_terminated (v : Nat) (nb : Bytes) (pos N : Nat)
    (h : Terminated N nb ∨ pos < N - 1) : Terminated N (writeToBuffer v nb pos N).1 := by
  unfold writeToBuffer
  split
  · exact ⟨pos + 1, by omega, by
      show ((nb.set pos v).set (pos + 1) 0) (pos + 1) = 0
      rw [Bytes.set_same]⟩
  · rcases h with h | h
    · exact h
    · omega

theorem copyToBuffer_pos (pkt : Bytes) (len : Nat) :
    ∀ (n : Nat) (nb : Bytes) (nbpos pos : Nat),
      (copyToBuffer pkt len n nb nbpos pos).2.1 = nbpos + n
        ∧ (copyToBuffer pkt len n nb nbpos pos).2.2 = pos + n := by
  intro n
  induction n with
  | zero => intro nb nbpos pos; exact ⟨rfl, rfl⟩
  | succ n ih =>
    intro nb nbpos pos
    show (copyToBuffer pkt len n (writeToBuffer (pkt pos) nb nbpos len).1
        (writeToBuffer (pkt pos) nb nbpos len).2 (pos + 1)).2.1 = _
      ∧ (copyToBuffer pkt len n (writeToBuffer (pkt pos) nb nbpos len).1
        (writeToBuffer (pkt pos) nb nbpos len).2 (pos + 1)).2.2 = _
    rw [(ih _ _ _).1, (ih _ _ _).2, writeToBuffer_pos]
    omega

theorem copyToBuffer_frame (pkt : Bytes) (len : Nat) :
    ∀ (n : Nat) (nb : Bytes) (nbpos pos i : Nat), len ≤ i →
      (copyToBuffer pkt len n nb nbpos pos).1 i = nb i := by
  intro n
  induction n with
  | zero => intro nb nbpos pos i _; rfl
  | succ n ih =>
    intro nb nbpos pos i hi
    show (copyToBuffer pkt len n (writeToBuffer (pkt pos) nb nbpos len).1
        (writeToBuffer (pkt pos) nb nbpos len).2 (pos + 1)).1 i = _
    rw [ih _ _ _ i hi, writeToBuffer_frame _ _ _ _ _ hi]

theorem copyToBuffer_terminated (pkt : Bytes) (N : Nat) :
    ∀ (n : Nat) (nb : Bytes) (nbpos pos : Nat),
      (Terminated N nb ∨ (nbpos < N - 1 ∧ 0 < n)) →
      Terminated N (copyToBuffer pkt N n nb nbpos pos).1 := by
  intro n
  induction n with
  | zero =>
    intro nb nbpos pos h
    rcases h with h | h
    · exact h
    · omega
  | succ n ih =>
    intro nb nbpos pos h
    show Terminated N (copyToBuffer pkt N n (writeToBuffer (pkt pos) nb nbpos N).1
        (writeToBuffer (pkt pos) nb nbpos N).2 (pos + 1)).1
    apply ih
    left
    apply writeToBuffer_terminated
    rcases h with h | h
    · exact Or.inl h
    · exact Or.inr h.1

/-- The output of `nameFromDnsPointer` holds a NUL inside the capacity and is
unchanged behind the capacity, when the call starts at output position 0 or with a NUL
inside the capacity. -/
theorem nameFromDnsPointer_bounded (pkt : Bytes) (N : Nat) (hN : 2 ≤ N) :
    ∀ (fuel : Nat) (nb : Bytes) (nbpos p : Nat) (r : Bytes × Nat),
      (nbpos = 0 ∨ Terminated N nb) →
      nameFromDnsPointer fuel nb nbpos N pkt p = some r →
      Terminated N r.1 ∧ ∀ i, N ≤ i → r.1 i = nb i := by
  intro fuel
  induction fuel with
  | zero => intro nb nbpos p r _ h; simp [nameFromDnsPointer] at h
  | succ f ih =>
    intro nb nbpos p r hpre h
    rw [nameFromDnsPointer] at h
    -- the optional separator
    obtain ⟨w0, hw0, hpre0, hfr0⟩ : ∃ w0 : Bytes × Nat,
        (if nbpos > 0 then writeToBuffer 46 nb (nbpos - 1) N else (nb, nbpos)) = w0
        ∧ (w0.2 = 0 ∨ Terminated N w0.1) ∧ ∀ i, N ≤ i → w0.1 i = nb i := by
      refine ⟨_, rfl, ?_, ?_⟩
      · split
        · right
          apply writeToBuffer_terminated
          rcases hpre with hpre | hpre
          · omega
          · exact Or.inl hpre
        · left; show nbpos = 0; omega
      · intro i hi
        split
        · exact writeToBuffer_frame _ _ _ _ _ hi
        · rfl
    simp only [hw0] at h
    split at h
    · -- a label
      have hc : Terminated N (writeToBuffer 0
          (copyToBuffer pkt N (pkt p) w0.1 w0.2 (p + 1)).1
          (copyToBuffer pkt N (pkt p) w0.1 w0.2 (p + 1)).2.1 N).1 := by
        apply writeToBuffer_terminated
        rw [(copyToBuffer_pos pkt N _ _ _ _).1]
        by_cases hz : pkt p = 0
        · rcases hpre0 with h0 | h0
          · right; omega
          · left; rw [hz]; exact h0
        · left
          apply copyToBuffer_terminated
          rcases hpre0 with h0 | h0
          · right; omega
          · exact Or.inl h0
      have hf : ∀ i, N ≤ i → (writeToBuffer 0
          (copyToBuffer pkt N (pkt p) w0.1 w0.2 (p + 1)).1
          (copyToBuffer pkt N (pkt p) w0.1 w0.2 (p + 1)).2.1 N).1 i = nb i := by
        intro i hi
        rw [writeToBuffer_frame _ _ _ _ _ hi, copyToBuffer_frame _ _ _ _ _ _ _ hi, hfr0 i hi]
      split at h
      · obtain ⟨h1, h2⟩ := ih _ _ _ r (Or.inr hc) h
        exact ⟨h1, fun i hi => by rw [h2 i hi, hf i hi]⟩
      · injection h with h
        subst h
        exact ⟨hc, hf⟩
    · -- a compression pointer
      split at h
      · exact absurd h (by simp)
      · rename_i r' hr'
        injection h with h
        subst h
        obtain ⟨h1, h2⟩ := ih _ _ _ r' hpre0 hr'
        exact ⟨h1, fun i hi => by rw [h2 i hi, hfr0 i hi]⟩

theorem cstrFrom_terminated (b : Bytes) :
    ∀ (cap i : Nat), (∃ k, k < cap ∧ b (i + k) = 0) →
      (cstrFrom b cap i).length < cap ∧ b (i + (cstrFrom b cap i).length) = 0 := by
  intro cap
  induction cap with
  | zero => intro i ⟨k, hk, _⟩; omega
  | succ c ih =>
    intro i ⟨k, hk, hz⟩
    rw [cstrFrom]
    split
    · rename_i h0
      exact ⟨by simp, by simpa using h0⟩
    · rename_i h0
      have hk0 : k ≠ 0 := by
        intro h; subst h; exact h0 (by simpa using hz)
      obtain ⟨h1, h2⟩ := ih (i + 1) ⟨k - 1, by omega, by
        rw [show i + 1 + (k - 1) = i + k by omega]; exact hz⟩
      refine ⟨by simp only [List.length_cons]; omega, ?_⟩
      rw [List.length_cons, show i + ((cstrFrom b c (i + 1)).length + 1)
        = i + 1 + (cstrFrom b c (i + 1)).length by omega]
      exact h2

theorem strlen_terminated (b : Bytes) (cap : Nat) (h : Terminated cap b) :
    strlen b cap < cap ∧ b (strlen b cap) = 0 := by
  obtain ⟨k, hk, hz⟩ := h
  have := cstrFrom_terminated b cap 0 ⟨k, hk, by rw [Nat.zero_add]; exact hz⟩
  rw [Nat.zero_add] at this
  exact this

/-! ## C11: truncation safety of name decoding -/

/-- C11 (truncation safety of name decoding).  For every packet, every start position
at which decoding ends and every capacity `N >= 2`: decoding into an output array from
position 0 with `name_buffer_len = N` leaves every cell at an index `>= N` as it was,
and the array holds a NUL terminated string shorter than `N`. -/
theorem truncation_safety (fuel : Nat) (pkt nb : Bytes) (p N : Nat) (hN : 2 ≤ N)
    (hterm : (nameFromDnsPointer fuel nb 0 N pkt p).isSome = true) :
    ∃ r, nameFromDnsPointer fuel nb 0 N pkt p = some r
      ∧ (∀ i, N ≤ i → r.1 i = nb i)
      ∧ strlen r.1 N < N ∧ r.1 (strlen r.1 N) = 0 := by
  obtain ⟨r, hr⟩ := Option.isSome_iff_exists.mp hterm
  obtain ⟨h1, h2⟩ := nameFromDnsPointer_bounded pkt N hN fuel nb 0 p r (Or.inl rfl) hr
  exact ⟨r, hr, h2, strlen_terminated r.1 N h1⟩

/-- C11 at a concrete input: `foo.bar` decoded into a capacity of 4 gives `foo`. -/
theorem truncation_safety_witness :
    (∃ r, nameFromDnsPointer 2 stale 0 4 pointerPacket 20 = some r
      ∧ (∀ i, 4 ≤ i → r.1 i = stale i)
      ∧ strlen r.1 4 < 4 ∧ r.1 (strlen r.1 4) = 0)
    ∧ (nameFromDnsPointer 2 stale 0 4 pointerPacket 20).map (fun r => (cstr r.1 4, r.2))
        = some (chars "foo", 29) :=
  ⟨truncation_safety 2 pointerPacket stale 20 4 (by decide) (by decide), by decide⟩

/-! ## The cursor of name decoding -/

theorem nameFromDnsPointer_cursor (pkt : Bytes) (len : Nat) :
    ∀ (fuel : Nat) (nb : Bytes) (nbpos p : Nat),
      (nameFromDnsPointer fuel nb nbpos len pkt p).map Prod.snd = nameCursor fuel pkt p := by
  intro fuel
  induction fuel with
  | zero => intro nb nbpos p; rfl
  | succ f ih =>
    intro nb nbpos p
    rw [nameFromDnsPointer, nameCursor]
    simp only [(copyToBuffer_pos pkt len _ _ _ _).2]
    split
    · split
      · exact ih _ _ _
      · rfl
    · rw [← ih (if nbpos > 0 then writeToBuffer 46 nb (nbpos - 1) len else (nb, nbpos)).1
        (if nbpos > 0 then writeToBuffer 46 nb (nbpos - 1) len else (nb, nbpos)).2]
      cases nameFromDnsPointer f
        (if nbpos > 0 then writeToBuffer 46 nb (nbpos - 1) len else (nb, nbpos)).1
        (if nbpos > 0 then writeToBuffer 46 nb (nbpos - 1) len else (nb, nbpos)).2 len pkt
        ((pkt p - 0xC0) * 256 + pkt (p + 1)) <;> rfl

theorem nameCursor_ge (pkt : Bytes) :
    ∀ (fuel p c : Nat), nameCursor fuel pkt p = some c → p + 2 ≤ c := by
  intro fuel
  induction fuel with
  | zero => intro p c h; simp [nameCursor] at h
  | succ f ih =>
    intro p c h
    rw [nameCursor] at h
    split at h
    · split at h
      · have := ih _ _ h; omega
      · injection h with h; omega
    · cases hr : nameCursor f pkt ((pkt p - 0xC0) * 256 + pkt (p + 1)) with
      | none => rw [hr] at h; simp at h
      | some x =>
        rw [hr] at h
        simp only [Option.map_some', Option.some.injEq] at h
        omega

theorem nameCursor_span (pkt : Bytes) :
    ∀ (fuel p c : Nat), pkt p ≠ 0 → nameCursor fuel pkt p = some c →
      ∃ n, nameSpan (fuel + 1) pkt p = some n ∧ c = p + n := by
  intro fuel
  induction fuel with
  | zero => intro p c _ h; simp [nameCursor] at h
  | succ f ih =>
    intro p c hp h
    rw [nameCursor] at h
    rw [nameSpan]
    split at h
    · rename_i hlt
      rw [if_neg (by omega), if_neg hp]
      split at h
      · rename_i hnext
        obtain ⟨n, hn, hc⟩ := ih _ _ (by omega) h
        exact ⟨1 + pkt p + n, by rw [hn]; rfl, by omega⟩
      · rename_i hnext
        injection h with h
        refine ⟨1 + pkt p + 1, ?_, by omega⟩
        rw [nameSpan, if_neg (by omega), if_pos (by omega)]
        rfl
    · rename_i hge
      rw [if_pos (by omega)]
      cases hr : nameCursor f pkt ((pkt p - 0xC0) * 256 + pkt (p + 1)) with
      | none => rw [hr] at h; simp at h
      | some x =>
        rw [hr] at h
        simp only [Option.map_some', Option.some.injEq] at h
        exact ⟨2, rfl, by omega⟩

theorem nameFromDnsPointer_isSome (pkt : Bytes) (len fuel : Nat) (nb : Bytes) (nbpos p : Nat) :
    (nameFromDnsPointer fuel nb nbpos len pkt p).isSome = (nameCursor fuel pkt p).isSome := by
  rw [← nameFromDnsPointer_cursor pkt len fuel nb nbpos p]
  cases nameFromDnsPointer fuel nb nbpos len pkt p <;> rfl

theorem nameFromDnsPointer_snd (pkt : Bytes) (len fuel : Nat) (nb : Bytes) (nbpos p : Nat)
    (r : Bytes × Nat) (h : nameFromDnsPointer fuel nb nbpos len pkt p = some r) :
    nameCursor fuel pkt p = some r.2 := by
  rw [← nameFromDnsPointer_cursor pkt len fuel nb nbpos p, h]
  rfl

theorem selfPointer_cursor (fuel : Nat) : nameCursor fuel selfPointerPacket 12 = none := by
  induction fuel with
  | zero => rfl
  | succ f ih =>
    rw [nameCursor, if_neg (by decide),
      show (selfPointerPacket 12 - 0xC0) * 256 + selfPointerPacket (12 + 1) = 12 by decide, ih]
    rfl

theorem finiteChain_of_cursor (pkt : Bytes) :
    ∀ (fuel p : Nat), (nameCursor fuel pkt p).isSome = true → FiniteChain pkt p := by
  intro fuel
  induction fuel with
  | zero => intro p h; simp [nameCursor] at h
  | succ f ih =>
    intro p h
    rw [nameCursor] at h
    split at h
    · rename_i hlt
      split at h
      · rename_i hnext
        exact FiniteChain.label p hlt hnext (ih _ h)
      · rename_i hnext
        exact FiniteChain.last p hlt (by omega)
    · rename_i hge
      refine FiniteChain.pointer p hge (ih _ ?_)
      cases hr : nameCursor f pkt ((pkt p - 0xC0) * 256 + pkt (p + 1)) with
      | none => rw [hr] at h; simp at h
      | some x => rfl

theorem cursor_of_finiteChain (pkt : Bytes) (p : Nat) (h : FiniteChain pkt p) :
    ∃ fuel, (nameCursor fuel pkt p).isSome = true := by
  induction h with
  | last p hlt hz =>
    refine ⟨1, ?_⟩
    rw [nameCursor, if_pos hlt, if_neg (by omega)]
    rfl
  | label p hlt hnext _ ih =>
    obtain ⟨f, hf⟩ := ih
    refine ⟨f + 1, ?_⟩
    rw [nameCursor, if_pos hlt, if_pos hnext]
    exact hf
  | pointer p hge _ ih =>
    obtain ⟨f, hf⟩ := ih
    refine ⟨f + 1, ?_⟩
    rw [nameCursor, if_neg hge]
    obtain ⟨x, hx⟩ := Option.isSome_iff_exists.mp hf
    rw [hx]
    rfl

/-! ## C12: the cursor does not depend on truncation -/

/-- C12 fails where C14 fails, and holds elsewhere.  The returned cursor does not
depend on the output array, the output position or the capacity (first part); when the
byte at the start position is not zero it is the start position plus the number of
bytes that the name occupies (second part); on a name that is a single zero byte the
name occupies 1 byte and the returned cursor is the start position plus 2 (third
part). -/
theorem cursor_independent_of_truncation :
    (∀ (fuel : Nat) (pkt nb1 nb2 : Bytes) (p pos1 pos2 N1 N2 : Nat),
      (nameFromDnsPointer fuel nb1 pos1 N1 pkt p).map Prod.snd
        = (nameFromDnsPointer fuel nb2 pos2 N2 pkt p).map Prod.snd)
    ∧ (∀ (fuel : Nat) (pkt nb : Bytes) (p pos N : Nat) (r : Bytes × Nat), pkt p ≠ 0 →
      nameFromDnsPointer fuel nb pos N pkt p = some r →
      ∃ n, nameSpan (fuel + 1) pkt p = some n ∧ r.2 = p + n)
    ∧ (nameSpan 1 rootNamePacket 0 = some 1
      ∧ (nameFromDnsPointer 1 stale 0 256 rootNamePacket 0).map Prod.snd = some 2
      ∧ (nameFromDnsPointer 1 stale 0 2 rootNamePacket 0).map Prod.snd = some 2) := by
  refine ⟨?_, ?_, by decide, by decide, by decide⟩
  · intro fuel pkt nb1 nb2 p pos1 pos2 N1 N2
    rw [nameFromDnsPointer_cursor, nameFromDnsPointer_cursor]
  · intro fuel pkt nb p pos N r hp h
    exact nameCursor_span pkt fuel p r.2 hp (nameFromDnsPointer_snd pkt N fuel nb pos p r h)

/-! ## C13: termination of name decoding -/

/-- C13 as stated fails: on the packet whose bytes 12 and 13 are `0xC0 0x0C`, no
amount of fuel lets `nameFromDnsPointer` return. -/
theorem self_pointer_counterexample :
    ¬ ∃ fuel, (nameFromDnsPointer fuel zeros 0 256 selfPointerPacket 12).isSome = true := by
  rintro ⟨fuel, h⟩
  rw [nameFromDnsPointer_isSome, selfPointer_cursor] at h
  exact absurd h (by simp)

/-- C13, amended.  `nameFromDnsPointer` returns (for enough fuel, whatever the output
array, output position and capacity are) exactly when the chain of labels and
compression pointers from the start position is finite; a name in wire form (labels
of at most 191 bytes closed by a zero byte) is such a chain, and the pointer to itself
at offset 12 is not. -/
theorem decoding_terminates_iff_finite_chain (pkt nb : Bytes) (p pos len : Nat)
    (ls : List (List Nat)) :
    ((∃ fuel, (nameFromDnsPointer fuel nb pos len pkt p).isSome = true) ↔ FiniteChain pkt p)
    ∧ (ls ≠ [] → (∀ l ∈ ls, Label 191 l) → holds pkt p (wire ls) → FiniteChain pkt p)
    ∧ ¬ FiniteChain selfPointerPacket 12 := by
  refine ⟨⟨?_, ?_⟩, ?_, ?_⟩
  · rintro ⟨fuel, h⟩
    rw [nameFromDnsPointer_isSome] at h
    exact finiteChain_of_cursor pkt fuel p h
  · intro h
    obtain ⟨fuel, hf⟩ := cursor_of_finiteChain pkt p h
    exact ⟨fuel, by rw [nameFromDnsPointer_isSome]; exact hf⟩
  · intro hne hlab hw
    obtain ⟨out, ho, -⟩ := nameFromDnsPointer_labels pkt ((dotted ls).length + 1) 191
      (by omega) ls hne hlab p zeros 0 [] ls.length hw (Or.inl ⟨rfl, rfl⟩)
      (by simp) (Nat.le_refl _)
    apply finiteChain_of_cursor pkt ls.length p
    rw [← nameFromDnsPointer_isSome pkt ((dotted ls).length + 1) ls.length zeros 0 p, ho]
    rfl
  · intro h
    obtain ⟨fuel, hf⟩ := cursor_of_finiteChain _ _ h
    rw [selfPointer_cursor] at hf
    exact absurd hf (by simp)

/-! ## C14: a zero length byte at the start of a name -/

/-- C14 fails on the code: `nameFromDnsPointer` never returns the start position plus
1 (every returned cursor is at least the start position plus 2).  On a zero byte
followed by a zero byte it returns the empty name and the start position plus 2; on a
zero byte followed by the label `foo` it returns `.foo` and the position behind that
label. -/
theorem zero_length_byte_not_terminator :
    (∀ (fuel : Nat) (pkt nb : Bytes) (p pos N : Nat) (r : Bytes × Nat),
      nameFromDnsPointer fuel nb pos N pkt p = some r → p + 2 ≤ r.2)
    ∧ (nameFromDnsPointer 1 stale 0 256 rootNamePacket 0).map (fun r => (cstr r.1 256, r.2))
        = some ([], 2)
    ∧ (nameFromDnsPointer 2 stale 0 256 rootThenLabelPacket 0).map
        (fun r => (cstr r.1 256, r.2)) = some (chars ".foo", 6) := by
  refine ⟨?_, by decide, by decide⟩
  intro fuel pkt nb p pos N r h
  exact nameCursor_ge pkt fuel p r.2 (nameFromDnsPointer_snd pkt N fuel nb pos p r h)

/-! ## The cursor while building -/

theorem copyWord_pos (nb : Bytes) :
    ∀ (n i : Nat) (buf : Bytes) (bp : Nat), (copyWord nb n i buf bp).2 = bp + n := by
  intro n
  induction n with
  | zero => intro i buf bp; rfl
  | succ n ih =>
    intro i buf bp
    show (copyWord nb n (i + 1) (buf.set bp (nb i)) (bp + 1)).2 = _
    rw [ih]
    omega

theorem populateLoop_mono (nb : Bytes) :
    ∀ (fuel : Nat) (buf : Bytes) (bp ws we : Nat) (r : Bytes × Nat),
      populateLoop nb fuel buf bp ws we = some r → bp ≤ r.2 := by
  intro fuel
  induction fuel with
  | zero => intro buf bp ws we r h; simp [populateLoop] at h
  | succ f ih =>
    intro buf bp ws we r h
    rw [populateLoop] at h
    split at h
    · split at h
      · have := ih _ _ _ _ _ h
        rw [copyWord_pos] at this
        omega
      · injection h with h
        subst h
        rw [copyWord_pos]
        omega
    · split at h
      · exact ih _ _ _ _ _ h
      · injection h with h
        subst h
        exact Nat.le_refl _

/-- `PopulateName` moves the cursor forward and touches no other scalar member. -/
theorem PopulateName_cursor (fuel : Nat) (m : MDns) (nb : Bytes) (m' : MDns) (n : Nat)
    (h : m.PopulateName fuel nb = some (m', n)) :
    m.buffer_pointer < m'.buffer_pointer ∧ m'.data_size = m.data_size
      ∧ m'.query_count = m.query_count ∧ m'.answer_count = m.answer_count
      ∧ m'.ns_count = m.ns_count ∧ m'.ar_count = m.ar_count := by
  unfold MDns.PopulateName at h
  split at h
  · exact absurd h (by simp)
  · rename_i r hr
    have := populateLoop_mono nb fuel _ _ _ _ r hr
    injection h with h
    injection h with h1 h2
    subst h1
    exact ⟨by show m.buffer_pointer < r.2 + 1; omega, rfl, rfl, rfl, rfl, rfl⟩

theorem AddQuery_cursor (fuel : Nat) (m : MDns) (query : Query) (m' : MDns)
    (h : m.AddQuery fuel query = some m') :
    m' = m ∨ (m.buffer_pointer < m'.buffer_pointer ∧ m'.data_size = m'.buffer_pointer) := by
  unfold MDns.AddQuery at h
  by_cases hg : m.answer_count ≠ 0 ∨ m.ns_count ≠ 0 ∨ m.ar_count ≠ 0
  · rw [if_pos hg] at h
    injection h with h
    exact Or.inl h.symm
  · rw [if_neg hg] at h
    dsimp only at h
    generalize hp : MDns.PopulateName fuel _ query.qname_buffer = o at h
    cases o with
    | none => exact absurd h (by simp)
    | some x =>
      obtain ⟨m2, n⟩ := x
      have hc : m.buffer_pointer < m2.buffer_pointer := (PopulateName_cursor fuel _ _ m2 n hp).1
      dsimp only [MDns.put] at h
      injection h with h
      subst h
      exact Or.inr ⟨by dsimp only; omega, rfl⟩

theorem AddAnswer_cursor (fuel : Nat) (m : MDns) (answer : Answer) (rdata_len0 : Nat)
    (m' : MDns) (h : m.AddAnswer fuel answer rdata_len0 = some m') :
    ((m.ns_count ≠ 0 ∨ m.ar_count ≠ 0) ∧ m' = m)
    ∨ (m.buffer_pointer < m'.buffer_pointer ∧ m'.data_size = m'.buffer_pointer
      ∧ m'.answer_count = u32 (m.answer_count + 1) ∧ m'.query_count = m.query_count
      ∧ m.ns_count = 0 ∧ m.ar_count = 0) := by
  unfold MDns.AddAnswer at h
  by_cases hg : m.ns_count ≠ 0 ∨ m.ar_count ≠ 0
  · rw [if_pos hg] at h
    injection h with h
    exact Or.inl ⟨hg, h.symm⟩
  · rw [if_neg hg] at h
    have hns : m.ns_count = 0 ∧ m.ar_count = 0 := by
      simp only [ne_eq, not_or, Decidable.not_not] at hg
      exact hg
    dsimp only at h
    generalize hp : MDns.PopulateName fuel _ answer.name_buffer = o at h
    cases o with
    | none => exact absurd h (by simp)
    | some x =>
      obtain ⟨m2, n⟩ := x
      obtain ⟨hc, -, hq, ha, -, -⟩ := PopulateName_cursor fuel _ _ m2 n hp
      have hc : m.buffer_pointer < m2.buffer_pointer := hc
      have hq : m2.query_count = m.query_count := hq
      have ha : m2.answer_count = u32 (m.answer_count + 1) := ha
      dsimp only [MDns.put] at h
      by_cases hA : answer.rrtype = MDNS_TYPE_A
      · rw [if_pos hA] at h
        dsimp only at h
        injection h with h
        subst h
        exact Or.inr ⟨by dsimp only; omega, rfl, ha, hq, hns⟩
      · rw [if_neg hA] at h
        by_cases hP : answer.rrtype = MDNS_TYPE_PTR
        · rw [if_pos hP] at h
          generalize hp7 : MDns.PopulateName fuel _ answer.rdata_buffer = o7 at h
          cases o7 with
          | none => exact absurd h (by simp)
          | some x7 =>
            obtain ⟨m7, rdata_len⟩ := x7
            obtain ⟨hc7, -, hq7, ha7, -, -⟩ := PopulateName_cursor fuel _ _ m7 rdata_len hp7
            have hc7 : m2.buffer_pointer + 1 + 1 + 1 + 1 + 1 + 1 + 1 + 1 + 2 < m7.buffer_pointer :=
              hc7
            dsimp only at h
            injection h with h
            subst h
            exact Or.inr ⟨by dsimp only; omega, rfl, by dsimp only; rw [ha7]; exact ha,
              by dsimp only; rw [hq7]; exact hq, hns⟩
        · rw [if_neg hP] at h
          dsimp only at h
          injection h with h
          subst h
          exact Or.inr ⟨by dsimp only; omega, rfl, ha, hq, hns⟩

/-- `AddQuery` of a name made of labels, in a state without resource records. -/
theorem AddQuery_labels (m : MDns) (q : Query) (maxLen : Nat) (ls : List (List Nat))
    (fuel : Nat) (h0 : m.answer_count = 0 ∧ m.ns_count = 0 ∧ m.ar_count = 0)
    (hne : ls ≠ []) (hlab : ∀ l ∈ ls, Label maxLen l)
    (hname : ∀ i, q.qname_buffer i = (dotted ls).getD i 0)
    (hfuel : (dotted ls).length + 1 ≤ fuel) :
    ∃ m', m.AddQuery fuel q = some m'
      ∧ m'.buffer_pointer = m.buffer_pointer + (wire ls).length + 4
      ∧ m'.data_size = m'.buffer_pointer
      ∧ m'.query_count = u32 (m.query_count + 1)
      ∧ m'.answer_count = 0 ∧ m'.ns_count = 0 ∧ m'.ar_count = 0 := by
  have hg : ¬ (m.answer_count ≠ 0 ∨ m.ns_count ≠ 0 ∨ m.ar_count ≠ 0) := by
    rw [h0.1, h0.2.1, h0.2.2]; simp
  simp only [MDns.AddQuery, if_neg hg,
    PopulateName_labels _ q.qname_buffer maxLen ls hne hlab hname fuel hfuel, MDns.put]
  exact ⟨_, rfl, rfl, rfl, rfl, h0.1, h0.2.1, h0.2.2⟩

theorem addQueries_labels (q : Query) (maxLen : Nat) (ls : List (List Nat)) (fuel : Nat)
    (hne : ls ≠ []) (hlab : ∀ l ∈ ls, Label maxLen l)
    (hname : ∀ i, q.qname_buffer i = (dotted ls).getD i 0)
    (hfuel : (dotted ls).length + 1 ≤ fuel) :
    ∀ (n : Nat) (m : MDns), Reachable m →
      m.answer_count = 0 ∧ m.ns_count = 0 ∧ m.ar_count = 0 →
      m.data_size = m.buffer_pointer → m.query_count < 4294967296 →
      m.buffer_pointer + n * ((wire ls).length + 4) ≤ MAX_PACKET_SIZE →
      ∃ m', addQueries fuel q n m = some m' ∧ Reachable m'
        ∧ m'.buffer_pointer = m.buffer_pointer + n * ((wire ls).length + 4)
        ∧ m'.data_size = m'.buffer_pointer
        ∧ m'.query_count = u32 (m.query_count + n)
        ∧ m'.answer_count = 0 ∧ m'.ns_count = 0 ∧ m'.ar_count = 0 := by
  intro n
  induction n with
  | zero =>
    intro m hr h0 hs hq0 _
    exact ⟨m, rfl, hr, by omega, hs, by rw [u32]; omega, h0⟩
  | succ n ih =>
    intro m hr h0 _ _ hroom
    rw [Nat.succ_mul] at hroom
    obtain ⟨m1, h1, hb, hs, hq, ha, hn, har⟩ :=
      AddQuery_labels m q maxLen ls fuel h0 hne hlab hname hfuel
    obtain ⟨m2, h2, hr2, hb2, hs2, hq2, h02⟩ := ih m1
      (Reachable.addQuery m m1 fuel q hr h1 (by omega)) ⟨ha, hn, har⟩ hs
      (by rw [hq, u32]; omega) (by omega)
    refine ⟨m2, ?_, hr2, ?_, hs2, ?_, h02⟩
    · rw [addQueries, h1]
      exact h2
    · rw [hb2, hb, Nat.succ_mul]
      omega
    · rw [hq2, hq, u32, u32, u32]
      omega

/-! ## C19: an answer before any query -/

/-- C19 as stated fails: after `Clear()`, `AddAnswer` of the `A` answer for `x.local`
is accepted: `answer_count` becomes 1 and cursor and `data_size` move from 12 to 35. -/
theorem answer_before_query_counterexample :
    (exampleState.Clear.AddAnswer 8 exampleA 0).map
        (fun m => (m.query_count, m.answer_count, m.data_size, m.buffer_pointer))
      = some (0, 1, 35, 35)
    ∧ (exampleState.Clear.AddAnswer 8 exampleA 0).map
        (fun m => (m.query_count, m.answer_count, m.data_size, m.buffer_pointer))
      ≠ some (0, 0, 12, 12) := by
  decide

/-- C19, amended.  After `Clear()`, a call of `AddAnswer` that returns is accepted
although no query has been added: `query_count` is still 0, `answer_count` is 1, the
cursor has moved behind 12 and `data_size` follows it.  The order is enforced the other
way round: every later `AddQuery` leaves this state as it is. -/
theorem answer_before_query_accepted (fuel : Nat) (m : MDns) (answer : Answer)
    (rdata_len0 : Nat)
    (hterm : (m.Clear.AddAnswer fuel answer rdata_len0).isSome = true) :
    ∃ m1, m.Clear.AddAnswer fuel answer rdata_len0 = some m1
      ∧ m1.query_count = 0 ∧ m1.answer_count = 1
      ∧ 12 < m1.buffer_pointer ∧ m1.data_size = m1.buffer_pointer
      ∧ ∀ fuel' query, m1.AddQuery fuel' query = some m1 := by
  obtain ⟨m1, h1⟩ := Option.isSome_iff_exists.mp hterm
  rcases AddAnswer_cursor fuel m.Clear answer rdata_len0 m1 h1 with ⟨hg, -⟩ | ⟨hb, hs, ha, hq, -⟩
  · exact absurd hg (by simp [MDns.Clear])
  · have ha1 : m1.answer_count = 1 := by rw [ha]; rfl
    refine ⟨m1, h1, by rw [hq]; rfl, ha1, hb, hs, ?_⟩
    intro fuel' query
    unfold MDns.AddQuery
    rw [if_pos (Or.inl (by rw [ha1]; decide))]

/-- C19, amended, at a concrete input: the `A` answer for `x.local`. -/
theorem answer_before_query_accepted_witness :
    ∃ m1, exampleState.Clear.AddAnswer 8 exampleA 0 = some m1
      ∧ m1.query_count = 0 ∧ m1.answer_count = 1
      ∧ 12 < m1.buffer_pointer ∧ m1.data_size = m1.buffer_pointer
      ∧ ∀ fuel' query, m1.AddQuery fuel' query = some m1 :=
  answer_before_query_accepted 8 exampleState exampleA 0 (by decide)

/-! ## C16: reads behind the datagram -/

/-- C16 at a failing input: the datagram of 25 bytes ends behind the `rdlength` field
of a `TXT` record that declares 4 bytes.  `Parse_Answer` returns as rdata the four
cells 25 .. 28 of `data_buffer`, which are not part of the datagram (`0xAA` with one
earlier buffer content, `0x42` with another), moves the cursor to 29 and marks the
record invalid afterwards. -/
theorem decode_reads_behind_size :
    shortTxtPacket.length = 25
    ∧ ((exampleState.receive shortTxtPacket).readFlags.readHeader.Parse_Answer 2 zeros zeros).map
        (fun r => (cstr r.1.rdata_buffer 256, r.1.valid, r.2.buffer_pointer, r.2.data_size))
      = some ([0xAA, 0xAA, 0xAA, 0xAA], false, 29, 25)
    ∧ ((MDns.receive { exampleState with data_buffer := fun _ => 0x42 }
          shortTxtPacket).readFlags.readHeader.Parse_Answer 2 zeros zeros).map
        (fun r => (cstr r.1.rdata_buffer 256, r.1.valid, r.2.buffer_pointer, r.2.data_size))
      = some ([0x42, 0x42, 0x42, 0x42], false, 29, 25) := by
  decide

/-! ## C17: stores behind the rdata array -/

set_option maxRecDepth 100000 in
/-- C17 at failing inputs.  For a `TXT` record with `rdlength = 300`, the cell 300 of
the rdata array is set to NUL (it held `0xAA`); for an `AAAA` record with
`rdlength = 86`, the cell 257 is set to NUL; for an `AAAA` record with `rdlength = 0`
the index of the closing store is `-1`. -/
theorem rdata_store_out_of_bounds :
    ((exampleState.receive longTxtPacket).readFlags.readHeader.Parse_Answer 2 zeros stale).map
        (fun r => (r.1.rdata_buffer 300, stale 300)) = some (0, 0xAA)
    ∧ ((exampleState.receive longAaaaPacket).readFlags.readHeader.Parse_Answer 2 zeros stale).map
        (fun r => (r.1.rdata_buffer 257, stale 257)) = some (0, 0xAA)
    ∧ ((hexLoop 58 exampleState.data_buffer 0 stale 0 25).2.1 : Int) - 1 = -1 := by
  decide

/-! ## C18: rendering of `SRV` -/

/-- C18 at a failing input: the `SRV` record with priority 1, weight 2, port 80 and
target `b.local` is rendered with a dot between `target=` and the name. -/
theorem srv_rendering_has_dot :
    ((exampleState.receive srvPacket).readFlags.readHeader.Parse_Answer 3 zeros zeros).map
        (fun r => cstr r.1.rdata_buffer 256) = some (chars "p=1;w=2;port=80;target=.b.local")
    ∧ ((exampleState.receive srvPacket).readFlags.readHeader.Parse_Answer 3 zeros zeros).map
        (fun r => cstr r.1.rdata_buffer 256) ≠ some (chars "p=1;w=2;port=80;target=b.local") := by
  decide

/-! ## C20: the cursor behind the rdata -/

theorem hexLoop_pos (sep : Nat) (d : Bytes) :
    ∀ (n : Nat) (rdata : Bytes) (buffer_pos bp : Nat),
      (hexLoop sep d n rdata buffer_pos bp).2.2 = bp + n := by
  intro n
  induction n with
  | zero => intro rdata buffer_pos bp; rfl
  | succ n ih =>
    intro rdata buffer_pos bp
    rw [hexLoop]
    split
    · rw [ih]; omega
    · rw [ih]; omega

/-- C20 as stated fails: for an `A` record whose `rdlength` field (at position 23) is
0, the cursor ends at 29 and not at `23 + 2 + 0`. -/
theorem rdata_consumption_counterexample :
    (exampleState.receive zeroLengthAPacket).data_buffer 23 * 256
        + (exampleState.receive zeroLengthAPacket).data_buffer 24 = 0
    ∧ (MDns.PopulateAnswerResult 1
        { exampleState.receive zeroLengthAPacket with buffer_pointer := 23 } exampleA).map
        (fun r => r.2.buffer_pointer) = some 29
    ∧ (MDns.PopulateAnswerResult 1
        { exampleState.receive zeroLengthAPacket with buffer_pointer := 23 } exampleA).map
        (fun r => r.2.buffer_pointer) ≠ some (23 + 2 + 0) := by
  decide

theorem hexLoop_bufpos (sep : Nat) (d : Bytes) :
    ∀ (n : Nat) (rdata : Bytes) (buffer_pos bp : Nat),
      (hexLoop sep d n rdata buffer_pos bp).2.1 = buffer_pos + 3 * n := by
  intro n
  induction n with
  | zero => intro rdata buffer_pos bp; rfl
  | succ n ih =>
    intro rdata buffer_pos bp
    rw [hexLoop]
    split
    · rw [ih]; omega
    · rw [ih]; omega

/-- The loops of the `AAAA` and of the default case store inside the rdata array. -/
theorem hexLoop_frame (sep : Nat) (d : Bytes) :
    ∀ (n : Nat) (rdata : Bytes) (buffer_pos bp j : Nat), MAX_MDNS_NAME_LEN ≤ j →
      (hexLoop sep d n rdata buffer_pos bp).1 j = rdata j := by
  intro n
  induction n with
  | zero => intro rdata buffer_pos bp j _; rfl
  | succ n ih =>
    intro rdata buffer_pos bp j hj
    rw [hexLoop]
    split
    · rename_i hlt
      rw [ih _ _ _ _ hj, sprintf]
      apply Bytes.write_outside
      right
      simp only [fmt02X, List.length_append, List.length_cons, List.length_nil]
      simp only [MAX_MDNS_NAME_LEN] at hlt hj
      omega
    · exact ih _ _ _ _ hj

/-- C20, amended.  Take a record of type `A`, `HINFO`, `TXT`, `AAAA` or of a type
without a case of its own, in a buffer of bytes, whose rdata lies inside `data_buffer`
and whose rendering fits the rdata array: `rdlength ≤ 255` for `HINFO` and `TXT`,
`1 ≤ rdlength ≤ 85` for `AAAA`.  Then `PopulateAnswerResult` returns, stores nothing
behind the 256 cells of the rdata array, and leaves the cursor at the position of the
`rdlength` field plus 2 plus `rdlength`; for a record of type `A` it leaves the cursor
at that position plus 2 plus 4, whatever the field says. -/
theorem rdata_consumption (fuel : Nat) (m : MDns) (answer : Answer)
    (h : answer.rrtype ≠ MDNS_TYPE_PTR ∧ answer.rrtype ≠ MDNS_TYPE_SRV)
    (hbytes : ∀ i, m.data_buffer i < 256)
    (htext : answer.rrtype = MDNS_TYPE_HINFO ∨ answer.rrtype = MDNS_TYPE_TXT →
      m.rdlength ≤ 255)
    (haaaa : answer.rrtype = MDNS_TYPE_AAAA → 1 ≤ m.rdlength ∧ m.rdlength ≤ 85)
    (hread : m.buffer_pointer + 2 + (if answer.rrtype = MDNS_TYPE_A then 4 else m.rdlength)
      ≤ MAX_PACKET_SIZE) :
    ∃ a' m', m.PopulateAnswerResult fuel answer = some (a', m')
      ∧ m'.buffer_pointer = m.buffer_pointer + 2
          + (if answer.rrtype = MDNS_TYPE_A then 4 else m.rdlength)
      ∧ m'.buffer_pointer ≤ MAX_PACKET_SIZE
      ∧ ∀ j, MAX_MDNS_NAME_LEN ≤ j → a'.rdata_buffer j = answer.rdata_buffer j := by
  unfold MDns.PopulateAnswerResult
  by_cases hA : answer.rrtype = MDNS_TYPE_A
  · simp only [hA, if_true, MAX_MDNS_NAME_LEN]
    refine ⟨_, _, rfl, rfl, ?_, ?_⟩
    · rw [hA, if_pos rfl] at hread
      exact hread
    · intro j hj
      show sprintf answer.rdata_buffer 0 (renderA argRank m.data_buffer (m.buffer_pointer + 2)) j
        = answer.rdata_buffer j
      rw [sprintf]
      apply Bytes.write_outside
      right
      have l0 := fmtU_length _ (hbytes (m.buffer_pointer + 2 + argRank 0))
      have l1 := fmtU_length _ (hbytes (m.buffer_pointer + 2 + argRank 1))
      have l2 := fmtU_length _ (hbytes (m.buffer_pointer + 2 + argRank 2))
      have l3 := fmtU_length _ (hbytes (m.buffer_pointer + 2 + argRank 3))
      simp only [renderA, List.length_append, List.length_cons, List.length_nil]
      omega
  · rw [if_neg hA] at hread
    simp only [hA, h.1, h.2, if_false]
    by_cases hT : answer.rrtype = MDNS_TYPE_HINFO ∨ answer.rrtype = MDNS_TYPE_TXT
    · simp only [hT, if_true]
      have hlen := htext hT
      have hpos := copyToBuffer_pos m.data_buffer MAX_MDNS_NAME_LEN m.rdlength
        answer.rdata_buffer 0 (m.buffer_pointer + 2)
      refine ⟨_, _, rfl, ?_, ?_, ?_⟩
      · show (parseText _ _ m.rdlength _ _).2 = _
        simp only [parseText, hpos.2]
      · show (parseText _ _ m.rdlength _ _).2 ≤ _
        simp only [parseText, hpos.2]
        exact hread
      · intro j hj
        show (parseText answer.rdata_buffer MAX_MDNS_NAME_LEN m.rdlength m.data_buffer
          (m.buffer_pointer + 2)).1 j = _
        simp only [parseText]
        rw [Bytes.set_other _ _ _ _ (by rw [hpos.1]; simp only [MAX_MDNS_NAME_LEN] at hj; omega),
          copyToBuffer_frame _ _ _ _ _ _ _ hj]
    · simp only [hT, if_false]
      by_cases h6 : answer.rrtype = MDNS_TYPE_AAAA
      · simp only [h6, if_true]
        have hlen := haaaa h6
        have hpos := hexLoop_bufpos 58 m.data_buffer m.rdlength answer.rdata_buffer 0
          (m.buffer_pointer + 2)
        refine ⟨_, _, rfl, hexLoop_pos _ _ _ _ _ _, ?_, ?_⟩
        · show (hexLoop 58 m.data_buffer m.rdlength answer.rdata_buffer 0
            (m.buffer_pointer + 2)).2.2 ≤ _
          rw [hexLoop_pos]
          exact hread
        · intro j hj
          show ((hexLoop 58 m.data_buffer m.rdlength answer.rdata_buffer 0
            (m.buffer_pointer + 2)).1.setInt (((hexLoop 58 m.data_buffer m.rdlength
              answer.rdata_buffer 0 (m.buffer_pointer + 2)).2.1 : Int) - 1) 0) j = _
          rw [hpos, Bytes.setInt, if_pos (by omega),
            Bytes.set_other _ _ _ _ (by simp only [MAX_MDNS_NAME_LEN] at hj; omega),
            hexLoop_frame _ _ _ _ _ _ _ hj]
      · simp only [h6, if_false]
        refine ⟨_, _, rfl, hexLoop_pos _ _ _ _ _ _, ?_, ?_⟩
        · show (hexLoop 32 m.data_buffer m.rdlength answer.rdata_buffer 0
            (m.buffer_pointer + 2)).2.2 ≤ _
          rw [hexLoop_pos]
          exact hread
        · intro j hj
          exact hexLoop_frame _ _ _ _ _ _ _ hj

/-- C20, amended, at a concrete input: a `TXT` record with `rdlength = 4` at
position 23; the cursor ends at 29. -/
theorem rdata_consumption_witness :
    ∃ a' m', MDns.PopulateAnswerResult 1
        { exampleState.receive shortTxtPacket with buffer_pointer := 23 }
        { exampleA with rrtype := MDNS_TYPE_TXT } = some (a', m')
      ∧ m'.buffer_pointer = 23 + 2 + (if MDNS_TYPE_TXT = MDNS_TYPE_A then 4
          else MDns.rdlength { exampleState.receive shortTxtPacket with buffer_pointer := 23 })
      ∧ m'.buffer_pointer ≤ MAX_PACKET_SIZE
      ∧ ∀ j, MAX_MDNS_NAME_LEN ≤ j → a'.rdata_buffer j = exampleA.rdata_buffer j :=
  rdata_consumption 1 { exampleState.receive shortTxtPacket with buffer_pointer := 23 }
    { exampleA with rrtype := MDNS_TYPE_TXT } ⟨by decide, by decide⟩
    (fun i => by
      show (if i < shortTxtPacket.length then shortTxtPacket.getD i 0 % 256 else 170) < 256
      split
      · exact Nat.mod_lt _ (by decide)
      · decide)
    (fun _ => by decide) (fun h => absurd h (by decide)) (by decide)

/-! ## The header while building -/

theorem copyWord_frame (nb : Bytes) :
    ∀ (n i : Nat) (buf : Bytes) (bp j : Nat), j < bp → (copyWord nb n i buf bp).1 j = buf j := by
  intro n
  induction n with
  | zero => intro i buf bp j _; rfl
  | succ n ih =>
    intro i buf bp j hj
    show (copyWord nb n (i + 1) (buf.set bp (nb i)) (bp + 1)).1 j = _
    rw [ih _ _ _ _ (by omega), Bytes.set_other _ _ _ _ (by omega)]

theorem populateLoop_frame (nb : Bytes) :
    ∀ (fuel : Nat) (buf : Bytes) (bp ws we : Nat) (r : Bytes × Nat),
      populateLoop nb fuel buf bp ws we = some r → ∀ j, j < bp → r.1 j = buf j := by
  intro fuel
  induction fuel with
  | zero => intro buf bp ws we r h; simp [populateLoop] at h
  | succ f ih =>
    intro buf bp ws we r h j hj
    rw [populateLoop] at h
    split at h
    · split at h
      · rw [ih _ _ _ _ _ h j (by rw [copyWord_pos]; omega), copyWord_frame _ _ _ _ _ _ (by omega),
          Bytes.set_other _ _ _ _ (by omega)]
      · injection h with h
        subst h
        rw [copyWord_frame _ _ _ _ _ _ (by omega), Bytes.set_other _ _ _ _ (by omega)]
    · split at h
      · exact ih _ _ _ _ _ h j hj
      · injection h with h
        subst h
        rfl

/-- `PopulateName` leaves the bytes in front of the cursor as they are. -/
theorem PopulateName_frame (fuel : Nat) (m : MDns) (nb : Bytes) (m' : MDns) (n : Nat)
    (h : m.PopulateName fuel nb = some (m', n)) :
    ∀ j, j < m.buffer_pointer → m'.data_buffer j = m.data_buffer j := by
  unfold MDns.PopulateName at h
  split at h
  · exact absurd h (by simp)
  · rename_i r hr
    have hm := populateLoop_mono nb fuel _ _ _ _ r hr
    have hf := populateLoop_frame nb fuel _ _ _ _ r hr
    injection h with h
    injection h with h1 h2
    subst h1
    intro j hj
    show (r.1.set r.2 0) j = m.data_buffer j
    rw [Bytes.set_other _ _ _ _ (by omega), hf j hj]

theorem Clear_header (m : MDns) : HeaderInv m.Clear := by
  refine ⟨Nat.le_refl _, rfl, rfl, rfl, ?_⟩
  simp only [holds, and_true, MDns.Clear]
  refine ⟨?_, ?_, ?_, ?_, ?_, ?_, ?_, ?_, ?_, ?_, ?_, ?_⟩ <;>
    simp (disch := omega) only [Bytes.set_other, Bytes.set_same]

theorem AddQuery_header (fuel : Nat) (m : MDns) (query : Query) (m' : MDns)
    (hinv : HeaderInv m) (h : m.AddQuery fuel query = some m') : HeaderInv m' := by
  unfold MDns.AddQuery at h
  by_cases hg : m.answer_count ≠ 0 ∨ m.ns_count ≠ 0 ∨ m.ar_count ≠ 0
  · rw [if_pos hg] at h
    injection h with h
    rw [← h]
    exact hinv
  · rw [if_neg hg] at h
    obtain ⟨h12, hsz, hns, har, hh⟩ := hinv
    have hac : m.answer_count = 0 := by
      simp only [ne_eq, not_or, Decidable.not_not] at hg
      exact hg.1
    dsimp only at h
    generalize hp : MDns.PopulateName fuel _ query.qname_buffer = o at h
    cases o with
    | none => exact absurd h (by simp)
    | some x =>
      obtain ⟨m2, n⟩ := x
      obtain ⟨hc, -, hq, ha, hn2, har2⟩ := PopulateName_cursor fuel _ _ m2 n hp
      have hfr := PopulateName_frame fuel _ _ m2 n hp
      have hc : m.buffer_pointer < m2.buffer_pointer := hc
      have hq : m2.query_count = u32 (m.query_count + 1) := hq
      have ha : m2.answer_count = m.answer_count := ha
      have hn2 : m2.ns_count = m.ns_count := hn2
      have har2 : m2.ar_count = m.ar_count := har2
      have hfr : ∀ j, j < m.buffer_pointer → m2.data_buffer j
          = (((m.data_buffer.set 2 0).set 4 (u32 (m.query_count + 1) / 256 % 256)).set 5
            (u32 (m.query_count + 1) % 256)) j := hfr
      have hg := fun k hk => holds_get _ _ _ hh k hk
      have e0 := hg 0 (by simp)
      have e1 := hg 1 (by simp)
      have e3 := hg 3 (by simp)
      have e6 := hg 6 (by simp)
      have e7 := hg 7 (by simp)
      have e8 := hg 8 (by simp)
      have e9 := hg 9 (by simp)
      have e10 := hg 10 (by simp)
      have e11 := hg 11 (by simp)
      simp only [List.getD_cons_succ, List.getD_cons_zero, Nat.zero_add] at e0 e1 e3 e6 e7 e8 e9
      simp only [List.getD_cons_succ, List.getD_cons_zero, Nat.zero_add] at e10 e11
      dsimp only [MDns.put] at h
      injection h with h
      subst h
      refine ⟨by dsimp only; omega, rfl, by dsimp only; omega, by dsimp only; omega, ?_⟩
      dsimp only
      rw [hq, ha]
      simp only [holds, and_true]
      refine ⟨?_, ?_, ?_, ?_, ?_, ?_, ?_, ?_, ?_, ?_, ?_, ?_⟩ <;>
        simp (disch := omega) only [Bytes.set_other, Bytes.set_same, hfr, Nat.zero_add, e0, e1, e3,
          e6, e7, e8, e9, e10, e11] <;> omega

theorem AddAnswer_header (fuel : Nat) (m : MDns) (answer : Answer) (rdata_len0 : Nat)
    (m' : MDns) (hinv : HeaderInv m) (h : m.AddAnswer fuel answer rdata_len0 = some m') :
    HeaderInv m' := by
  unfold MDns.AddAnswer at h
  by_cases hg : m.ns_count ≠ 0 ∨ m.ar_count ≠ 0
  · rw [if_pos hg] at h
    injection h with h
    rw [← h]
    exact hinv
  · rw [if_neg hg] at h
    obtain ⟨h12, hsz, hns, har, hh⟩ := hinv
    dsimp only at h
    generalize hp : MDns.PopulateName fuel _ answer.name_buffer = o at h
    cases o with
    | none => exact absurd h (by simp)
    | some x =>
      obtain ⟨m2, n⟩ := x
      obtain ⟨hc, -, hq, ha, hn2, har2⟩ := PopulateName_cursor fuel _ _ m2 n hp
      have hfr := PopulateName_frame fuel _ _ m2 n hp
      have hc : m.buffer_pointer < m2.buffer_pointer := hc
      have hq : m2.query_count = m.query_count := hq
      have ha : m2.answer_count = u32 (m.answer_count + 1) := ha
      have hn2 : m2.ns_count = m.ns_count := hn2
      have har2 : m2.ar_count = m.ar_count := har2
      have hfr : ∀ j, j < m.buffer_pointer → m2.data_buffer j
          = ((m.data_buffer.set 6 (u32 (m.answer_count + 1) / 256 % 256)).set 7
            (u32 (m.answer_count + 1) % 256)) j := hfr
      have hg := fun k hk => holds_get _ _ _ hh k hk
      have e0 := hg 0 (by simp)
      have e1 := hg 1 (by simp)
      have e2 := hg 2 (by simp)
      have e3 := hg 3 (by simp)
      have e4 := hg 4 (by simp)
      have e5 := hg 5 (by simp)
      have e8 := hg 8 (by simp)
      have e9 := hg 9 (by simp)
      have e10 := hg 10 (by simp)
      have e11 := hg 11 (by simp)
      simp only [List.getD_cons_succ, List.getD_cons_zero, Nat.zero_add] at e0 e1 e2 e3 e4 e5
      simp only [List.getD_cons_succ, List.getD_cons_zero, Nat.zero_add] at e8 e9 e10 e11
      dsimp only [MDns.put] at h
      -- what is left to show of the state behind the `switch`
      have hbody : ∀ (mf : MDns), 12 ≤ mf.buffer_pointer → mf.data_size = mf.buffer_pointer →
          mf.query_count = m.query_count → mf.answer_count = u32 (m.answer_count + 1) →
          mf.ns_count = 0 → mf.ar_count = 0 →
          (∀ j, j < 12 → mf.data_buffer j
            = ((m.data_buffer.set 6 (u32 (m.answer_count + 1) / 256 % 256)).set 7
              (u32 (m.answer_count + 1) % 256)) j) →
          HeaderInv mf := by
        intro mf hf12 hfs hfq hfa hfn hfr' hff
        refine ⟨hf12, hfs, hfn, hfr', ?_⟩
        rw [hfq, hfa]
        simp only [holds, and_true]
        refine ⟨?_, ?_, ?_, ?_, ?_, ?_, ?_, ?_, ?_, ?_, ?_, ?_⟩ <;>
          simp (disch := omega) only [Bytes.set_other, Bytes.set_same, hff, Nat.zero_add, e0, e1,
            e2, e3, e4, e5, e8, e9, e10, e11] <;> omega
      by_cases hA : answer.rrtype = MDNS_TYPE_A
      · rw [if_pos hA] at h
        dsimp only at h
        injection h with h
        subst h
        refine hbody _ (by dsimp only; omega) rfl hq ha (by dsimp only; rw [hn2, hns])
          (by dsimp only; rw [har2, har]) ?_
        intro j hj
        dsimp only
        simp (disch := omega) only [Bytes.set_other]
        exact hfr j (by omega)
      · rw [if_neg hA] at h
        by_cases hP : answer.rrtype = MDNS_TYPE_PTR
        · rw [if_pos hP] at h
          generalize hp7 : MDns.PopulateName fuel _ answer.rdata_buffer = o7 at h
          cases o7 with
          | none => exact absurd h (by simp)
          | some x7 =>
            obtain ⟨m7, rdata_len⟩ := x7
            obtain ⟨hc7, -, hq7, ha7, hn7, har7⟩ := PopulateName_cursor fuel _ _ m7 rdata_len hp7
            have hfr7 := PopulateName_frame fuel _ _ m7 rdata_len hp7
            have hc7 : m2.buffer_pointer + 1 + 1 + 1 + 1 + 1 + 1 + 1 + 1 + 2 < m7.buffer_pointer :=
              hc7
            have hfr7 : ∀ j, j < m2.buffer_pointer + 1 + 1 + 1 + 1 + 1 + 1 + 1 + 1 + 2 →
                m7.data_buffer j = ((((((((m2.data_buffer.set m2.buffer_pointer
                  (answer.rrtype / 256 % 256)).set (m2.buffer_pointer + 1)
                  (answer.rrtype % 256)).set (m2.buffer_pointer + 1 + 1)
                  (u32 ((if answer.rrset = true then 32768 else 0) + answer.rrclass) / 256
                    % 256)).set (m2.buffer_pointer + 1 + 1 + 1)
                  (u32 ((if answer.rrset = true then 32768 else 0) + answer.rrclass)
                    % 256)).set (m2.buffer_pointer + 1 + 1 + 1 + 1)
                  (answer.rrttl / 16777216 % 256)).set (m2.buffer_pointer + 1 + 1 + 1 + 1 + 1)
                  (answer.rrttl / 65536 % 256)).set (m2.buffer_pointer + 1 + 1 + 1 + 1 + 1 + 1)
                  (answer.rrttl / 256 % 256)).set (m2.buffer_pointer + 1 + 1 + 1 + 1 + 1 + 1 + 1)
                  (answer.rrttl % 256)) j := hfr7
            dsimp only at h
            injection h with h
            subst h
            refine hbody _ (by dsimp only; omega) rfl (by dsimp only; rw [hq7]; exact hq)
              (by dsimp only; rw [ha7]; exact ha)
              (by dsimp only; rw [hn7]; show m2.ns_count = 0; rw [hn2, hns])
              (by dsimp only; rw [har7]; show m2.ar_count = 0; rw [har2, har]) ?_
            intro j hj
            dsimp only
            simp (disch := omega) only [Bytes.set_other]
            rw [hfr7 j (by omega)]
            simp (disch := omega) only [Bytes.set_other]
            exact hfr j (by omega)
        · rw [if_neg hP] at h
          dsimp only at h
          injection h with h
          subst h
          refine hbody _ (by dsimp only; omega) rfl hq ha (by dsimp only; rw [hn2, hns])
            (by dsimp only; rw [har2, har]) ?_
          intro j hj
          dsimp only
          simp (disch := omega) only [Bytes.set_other]
          exact hfr j (by omega)

/-! ## C22: bytes behind the terminating NUL -/

/-- C22 fails in the code.  The name arrays `61 00 00 ..` and `61 00 62 00 ..` agree up
to and including their first NUL and hold the same string `a`, but after `Clear()`
`PopulateName` writes `01 61 00` for the first (cursor 15, count 3) and `01 61 01 62 00`
for the second (cursor 17, count 5): the loop condition reads the byte behind the
NUL. -/
theorem populateName_reads_behind_nul :
    nameA 0 = nameAThenB 0 ∧ nameA 1 = nameAThenB 1 ∧ nameA 0 ≠ 0 ∧ nameA 1 = 0
      ∧ cstr nameA 256 = [97] ∧ cstr nameAThenB 256 = [97]
      ∧ (exampleState.Clear.PopulateName 8 nameA).map
          (fun r => (r.1.buffer_pointer, r.2,
            [r.1.data_buffer 12, r.1.data_buffer 13, r.1.data_buffer 14]))
        = some (15, 3, [1, 97, 0])
      ∧ (exampleState.Clear.PopulateName 8 nameAThenB).map
          (fun r => (r.1.buffer_pointer, r.2,
            [r.1.data_buffer 12, r.1.data_buffer 13, r.1.data_buffer 14,
             r.1.data_buffer 15, r.1.data_buffer 16]))
        = some (17, 5, [1, 97, 1, 98, 0]) := by
  decide

/-! ## The cells behind the cursor while building -/

theorem copyWord_above (nb : Bytes) :
    ∀ (n i : Nat) (buf : Bytes) (bp j : Nat), bp + n ≤ j → (copyWord nb n i buf bp).1 j = buf j := by
  intro n
  induction n with
  | zero => intro i buf bp j _; rfl
  | succ n ih =>
    intro i buf bp j hj
    show (copyWord nb n (i + 1) (buf.set bp (nb i)) (bp + 1)).1 j = _
    rw [ih _ _ _ _ (by omega), Bytes.set_other _ _ _ _ (by omega)]

theorem populateLoop_above (nb : Bytes) :
    ∀ (fuel : Nat) (buf : Bytes) (bp ws we : Nat) (r : Bytes × Nat),
      populateLoop nb fuel buf bp ws we = some r → ∀ j, r.2 ≤ j → r.1 j = buf j := by
  intro fuel
  induction fuel with
  | zero => intro buf bp ws we r h; simp [populateLoop] at h
  | succ f ih =>
    intro buf bp ws we r h j hj
    rw [populateLoop] at h
    split at h
    · split at h
      · have hm := populateLoop_mono nb f _ _ _ _ r h
        rw [copyWord_pos] at hm
        rw [ih _ _ _ _ _ h j hj, copyWord_above _ _ _ _ _ _ (by omega),
          Bytes.set_other _ _ _ _ (by omega)]
      · injection h with h
        subst h
        rw [copyWord_pos] at hj
        rw [copyWord_above _ _ _ _ _ _ (by omega), Bytes.set_other _ _ _ _ (by omega)]
    · split at h
      · exact ih _ _ _ _ _ h j hj
      · injection h with h
        subst h
        rfl

/-- `PopulateName` leaves the cells from the new cursor on as they are. -/
theorem PopulateName_above (fuel : Nat) (m : MDns) (nb : Bytes) (m' : MDns) (n : Nat)
    (h : m.PopulateName fuel nb = some (m', n)) :
    ∀ j, m'.buffer_pointer ≤ j → m'.data_buffer j = m.data_buffer j := by
  unfold MDns.PopulateName at h
  split at h
  · exact absurd h (by simp)
  · rename_i r hr
    have hf := populateLoop_above nb fuel _ _ _ _ r hr
    injection h with h
    injection h with h1 h2
    subst h1
    intro j hj
    have hj : r.2 + 1 ≤ j := hj
    show (r.1.set r.2 0) j = m.data_buffer j
    rw [Bytes.set_other _ _ _ _ (by omega), hf j (by omega)]

/-- `AddQuery` stores in front of the cursor it leaves only, and a call that passes the
guard writes its item: the cursor moves by more than four. -/
theorem AddQuery_above (fuel : Nat) (m : MDns) (query : Query) (m' : MDns)
    (h12 : 12 ≤ m.buffer_pointer) (h : m.AddQuery fuel query = some m') :
    (∀ j, m'.buffer_pointer ≤ j → m'.data_buffer j = m.data_buffer j)
      ∧ (m.answer_count = 0 ∧ m.ns_count = 0 ∧ m.ar_count = 0 →
          m.buffer_pointer + 4 < m'.buffer_pointer) := by
  unfold MDns.AddQuery at h
  by_cases hg : m.answer_count ≠ 0 ∨ m.ns_count ≠ 0 ∨ m.ar_count ≠ 0
  · rw [if_pos hg] at h
    injection h with h
    subst h
    refine ⟨fun _ _ => rfl, fun h0 => ?_⟩
    rw [h0.1, h0.2.1, h0.2.2] at hg
    simp at hg
  · rw [if_neg hg] at h
    dsimp only at h
    generalize hp : MDns.PopulateName fuel _ query.qname_buffer = o at h
    cases o with
    | none => exact absurd h (by simp)
    | some x =>
      obtain ⟨m2, n⟩ := x
      have hc : m.buffer_pointer < m2.buffer_pointer := (PopulateName_cursor fuel _ _ m2 n hp).1
      have hab := PopulateName_above fuel _ _ m2 n hp
      have hab : ∀ j, m2.buffer_pointer ≤ j → m2.data_buffer j
          = (((m.data_buffer.set 2 0).set 4 (u32 (m.query_count + 1) / 256 % 256)).set 5
            (u32 (m.query_count + 1) % 256)) j := hab
      dsimp only [MDns.put] at h
      injection h with h
      subst h
      refine ⟨?_, fun _ => by dsimp only; omega⟩
      intro j hj
      dsimp only at hj ⊢
      simp (disch := omega) only [Bytes.set_other]
      rw [hab j (by omega)]
      simp (disch := omega) only [Bytes.set_other]

/-- `AddAnswer` stores in front of the cursor it leaves only, and a call that passes
the guard writes its item: the cursor moves by more than ten. -/
theorem AddAnswer_above (fuel : Nat) (m : MDns) (answer : Answer) (rdata_len0 : Nat)
    (m' : MDns) (h12 : 12 ≤ m.buffer_pointer)
    (h : m.AddAnswer fuel answer rdata_len0 = some m') :
    (∀ j, m'.buffer_pointer ≤ j → m'.data_buffer j = m.data_buffer j)
      ∧ (m.ns_count = 0 ∧ m.ar_count = 0 → m.buffer_pointer + 10 < m'.buffer_pointer) := by
  unfold MDns.AddAnswer at h
  by_cases hg : m.ns_count ≠ 0 ∨ m.ar_count ≠ 0
  · rw [if_pos hg] at h
    injection h with h
    subst h
    refine ⟨fun _ _ => rfl, fun h0 => ?_⟩
    rw [h0.1, h0.2] at hg
    simp at hg
  · rw [if_neg hg] at h
    dsimp only at h
    generalize hp : MDns.PopulateName fuel _ answer.name_buffer = o at h
    cases o with
    | none => exact absurd h (by simp)
    | some x =>
      obtain ⟨m2, n⟩ := x
      have hc : m.buffer_pointer < m2.buffer_pointer := (PopulateName_cursor fuel _ _ m2 n hp).1
      have hab := PopulateName_above fuel _ _ m2 n hp
      have hab : ∀ j, m2.buffer_pointer ≤ j → m2.data_buffer j
          = ((m.data_buffer.set 6 (u32 (m.answer_count + 1) / 256 % 256)).set 7
            (u32 (m.answer_count + 1) % 256)) j := hab
      dsimp only [MDns.put] at h
      by_cases hA : answer.rrtype = MDNS_TYPE_A
      · rw [if_pos hA] at h
        dsimp only at h
        injection h with h
        subst h
        refine ⟨?_, fun _ => by dsimp only; omega⟩
        intro j hj
        dsimp only at hj ⊢
        simp (disch := omega) only [Bytes.set_other]
        rw [hab j (by omega)]
        simp (disch := omega) only [Bytes.set_other]
      · rw [if_neg hA] at h
        by_cases hP : answer.rrtype = MDNS_TYPE_PTR
        · rw [if_pos hP] at h
          generalize hp7 : MDns.PopulateName fuel _ answer.rdata_buffer = o7 at h
          cases o7 with
          | none => exact absurd h (by simp)
          | some x7 =>
            obtain ⟨m7, rdata_len⟩ := x7
            have hc7 := (PopulateName_cursor fuel _ _ m7 rdata_len hp7).1
            have hc7 : m2.buffer_pointer + 1 + 1 + 1 + 1 + 1 + 1 + 1 + 1 + 2 < m7.buffer_pointer :=
              hc7
            have hab7 := PopulateName_above fuel _ _ m7 rdata_len hp7
            have hab7 : ∀ j, m7.buffer_pointer ≤ j →
                m7.data_buffer j = ((((((((m2.data_buffer.set m2.buffer_pointer
                  (answer.rrtype / 256 % 256)).set (m2.buffer_pointer + 1)
                  (answer.rrtype % 256)).set (m2.buffer_pointer + 1 + 1)
                  (u32 ((if answer.rrset = true then 32768 else 0) + answer.rrclass) / 256
                    % 256)).set (m2.buffer_pointer + 1 + 1 + 1)
                  (u32 ((if answer.rrset = true then 32768 else 0) + answer.rrclass)
                    % 256)).set (m2.buffer_pointer + 1 + 1 + 1 + 1)
                  (answer.rrttl / 16777216 % 256)).set (m2.buffer_pointer + 1 + 1 + 1 + 1 + 1)
                  (answer.rrttl / 65536 % 256)).set (m2.buffer_pointer + 1 + 1 + 1 + 1 + 1 + 1)
                  (answer.rrttl / 256 % 256)).set (m2.buffer_pointer + 1 + 1 + 1 + 1 + 1 + 1 + 1)
                  (answer.rrttl % 256)) j := hab7
            dsimp only at h
            injection h with h
            subst h
            refine ⟨?_, fun _ => by dsimp only; omega⟩
            intro j hj
            dsimp only at hj ⊢
            simp (disch := omega) only [Bytes.set_other]
            rw [hab7 j (by omega)]
            simp (disch := omega) only [Bytes.set_other]
            rw [hab j (by omega)]
            simp (disch := omega) only [Bytes.set_other]
        · rw [if_neg hP] at h
          dsimp only at h
          injection h with h
          subst h
          refine ⟨?_, fun _ => by dsimp only; omega⟩
          intro j hj
          dsimp only at hj ⊢
          simp (disch := omega) only [Bytes.set_other]
          rw [hab j (by omega)]
          simp (disch := omega) only [Bytes.set_other]

/-- The bytes that `AddQuery` stores from the cursor on, for a name made of labels. -/
theorem AddQuery_bytes (m : MDns) (q : Query) (maxLen : Nat) (hmax : maxLen < 256)
    (ls : List (List Nat)) (fuel : Nat)
    (h0 : m.answer_count = 0 ∧ m.ns_count = 0 ∧ m.ar_count = 0)
    (hne : ls ≠ []) (hlab : ∀ l ∈ ls, Label maxLen l)
    (hname : ∀ i, q.qname_buffer i = (dotted ls).getD i 0)
    (hfuel : (dotted ls).length + 1 ≤ fuel) (m' : MDns) (h : m.AddQuery fuel q = some m') :
    holds m'.data_buffer m.buffer_pointer
      (wire ls ++ [q.qtype / 256 % 256, q.qtype % 256,
        u32 ((if q.unicast_response then 0x8000 else 0) + q.qclass) / 256 % 256,
        u32 ((if q.unicast_response then 0x8000 else 0) + q.qclass) % 256]) := by
  have hg : ¬ (m.answer_count ≠ 0 ∨ m.ns_count ≠ 0 ∨ m.ar_count ≠ 0) := by
    rw [h0.1, h0.2.1, h0.2.2]; simp
  simp only [MDns.AddQuery, if_neg hg,
    PopulateName_labels _ q.qname_buffer maxLen ls hne hlab hname fuel hfuel, MDns.put,
    Option.some.injEq] at h
  subst h
  dsimp only
  rw [holds_append]
  constructor
  · apply holds_of_get
    intro i hi
    simp (disch := omega) only [Bytes.set_other]
    exact holds_get _ _ (wire ls) (holds_write _ _ (wire ls) (wire_lt maxLen hmax ls hlab)) i hi
  · simp only [holds, and_true]
    refine ⟨?_, ?_, ?_, ?_⟩
    · simp only [Bytes.set]; split_ifs <;> omega
    · simp only [Bytes.set]; split_ifs <;> omega
    · simp only [Bytes.set, u32]; split_ifs <;> omega
    · simp only [Bytes.set, u32]; split_ifs <;> omega

/-- The header in every state that the builder reaches inside the array. -/
theorem Reachable_header (m : MDns) (h : Reachable m) : HeaderInv m := by
  induction h with
  | clear m => exact Clear_header m
  | addQuery m m' fuel query _ hstep _ ih => exact AddQuery_header fuel m query m' ih hstep
  | addAnswer m m' fuel answer rdata_len0 _ hstep _ ih =>
    exact AddAnswer_header fuel m answer rdata_len0 m' ih hstep

/-- The state after `Clear()` and 314 queries for `x.local`. -/
theorem nearlyFullState_spec :
    addQueries 8 exampleQuery 314 exampleState.Clear = some nearlyFullState
      ∧ Reachable nearlyFullState ∧ nearlyFullState.buffer_pointer = 4094
      ∧ nearlyFullState.query_count = 314 ∧ nearlyFullState.answer_count = 0
      ∧ nearlyFullState.ns_count = 0 ∧ nearlyFullState.ar_count = 0 := by
  obtain ⟨m, h1, hr, hb, -, hq, ha, hn, har⟩ := addQueries_labels exampleQuery 63 xLocal 8
    (by decide) xLocal_labels (fun _ => rfl) (by decide) 314 exampleState.Clear
    (Reachable.clear _) ⟨rfl, rfl, rfl⟩ rfl (by decide) (by decide)
  have he : nearlyFullState = m := by
    unfold nearlyFullState
    rw [h1]
    rfl
  rw [he]
  exact ⟨h1, hr, by rw [hb]; decide, by rw [hq]; decide, ha, hn, har⟩

theorem spill_cursor (lo : Nat) (m : MDns) :
    (m.spill lo).buffer_pointer = m.buffer_pointer ∧ (m.spill lo).data_size = m.data_size
      ∧ (m.spill lo).data_buffer = m.data_buffer :=
  ⟨rfl, rfl, rfl⟩

theorem spill_counts (lo : Nat) (m : MDns) :
    (m.spill lo).query_count
        = spillU32 m.data_buffer lo m.buffer_pointer (MAX_PACKET_SIZE + 4) m.query_count
      ∧ (m.spill lo).answer_count
        = spillU32 m.data_buffer lo m.buffer_pointer (MAX_PACKET_SIZE + 8) m.answer_count
      ∧ (m.spill lo).ns_count
        = spillU32 m.data_buffer lo m.buffer_pointer (MAX_PACKET_SIZE + 12) m.ns_count
      ∧ (m.spill lo).ar_count
        = spillU32 m.data_buffer lo m.buffer_pointer (MAX_PACKET_SIZE + 16) m.ar_count :=
  ⟨rfl, rfl, rfl, rfl⟩

/-- A call that stores nothing leaves the members as they are. -/
theorem spill_self (m : MDns)
    (h : m.query_count < 4294967296 ∧ m.answer_count < 4294967296
      ∧ m.ns_count < 4294967296 ∧ m.ar_count < 4294967296) :
    m.spill m.buffer_pointer = m := by
  obtain ⟨ds, bp, db, ty, tr, qc, ac, ns, ar⟩ := m
  have hno : ∀ off, ¬ (bp ≤ off ∧ off < bp) := fun off => by omega
  simp only [MDns.spill, spillBool, spillU32, spillByte, hno, if_false, MDns.mk.injEq, true_and]
  dsimp only at h
  refine ⟨?_, ?_, ?_, ?_⟩ <;> omega

/-- The 315th query for `x.local`, on the object: it is written to the cells 4094 to
4106; the bytes behind the array land in `type`, `truncated`, `query_count` and
`answer_count`. -/
theorem overflow_step :
    ∃ m', nearlyFullState.AddQueryObject 8 exampleQuery = some m'
      ∧ m'.buffer_pointer = 4107 ∧ m'.data_size = 4107
      ∧ m'.query_count = 27745 ∧ m'.answer_count = 98316
      ∧ m'.ns_count = 0 ∧ m'.ar_count = 0
      ∧ holds m'.data_buffer 0 [0, 0, 0, 0, 1, 59, 0, 0, 0, 0, 0, 0]
      ∧ ∀ fuel query, m'.AddQueryObject fuel query = some m' := by
  obtain ⟨-, hr, hb, hq, ha, hn, har⟩ := nearlyFullState_spec
  generalize nearlyFullState = m at hr hb hq ha hn har ⊢
  obtain ⟨m1, h2, hb1, hs1, hq1, ha1, hn1, har1⟩ := AddQuery_labels m
    exampleQuery 63 xLocal 8 ⟨ha, hn, har⟩ (by decide) xLocal_labels (fun _ => rfl) (by decide)
  have hbytes := AddQuery_bytes m exampleQuery 63 (by omega) xLocal 8
    ⟨ha, hn, har⟩ (by decide) xLocal_labels (fun _ => rfl) (by decide) m1 h2
  have hinv := AddQuery_header 8 m exampleQuery m1 (Reachable_header m hr) h2
  have hb1 : m1.buffer_pointer = 4107 := by rw [hb1, hb]; decide
  have hq1 : m1.query_count = 315 := by rw [hq1, hq]; decide
  rw [hb] at hbytes
  have hg := fun k hk => holds_get _ _ _ hbytes k hk
  have e6 : m1.data_buffer 4100 = 97 := (hg 6 (by decide)).trans (by decide)
  have e7 : m1.data_buffer 4101 = 108 := (hg 7 (by decide)).trans (by decide)
  have e8 : m1.data_buffer 4102 = 0 := (hg 8 (by decide)).trans (by decide)
  have e9 : m1.data_buffer 4103 = 0 := (hg 9 (by decide)).trans (by decide)
  have e10 : m1.data_buffer 4104 = 12 := (hg 10 (by decide)).trans (by decide)
  have e11 : m1.data_buffer 4105 = 128 := (hg 11 (by decide)).trans (by decide)
  have e12 : m1.data_buffer 4106 = 1 := (hg 12 (by decide)).trans (by decide)
  have hh := hinv.2.2.2.2
  rw [hq1, ha1] at hh
  have c1 : (m1.spill m.buffer_pointer).buffer_pointer = 4107 := by
    rw [(spill_cursor _ _).1, hb1]
  have c2 : (m1.spill m.buffer_pointer).query_count = 27745 := by
    rw [(spill_counts _ _).1, hb, hb1, hq1]
    simp only [spillU32, spillByte, MAX_PACKET_SIZE]
    norm_num [e6, e7, e8, e9]
  have c3 : (m1.spill m.buffer_pointer).answer_count = 98316 := by
    rw [(spill_counts _ _).2.1, hb, hb1, ha1]
    simp only [spillU32, spillByte, MAX_PACKET_SIZE]
    norm_num [e10, e11, e12]
  have c4 : (m1.spill m.buffer_pointer).ns_count = 0 := by
    rw [(spill_counts _ _).2.2.1, hb, hb1, hn1]
    simp only [spillU32, spillByte, MAX_PACKET_SIZE]
    norm_num
  have c5 : (m1.spill m.buffer_pointer).ar_count = 0 := by
    rw [(spill_counts _ _).2.2.2, hb, hb1, har1]
    simp only [spillU32, spillByte, MAX_PACKET_SIZE]
    norm_num
  have c0 : m.AddQueryObject 8 exampleQuery = some (m1.spill m.buffer_pointer) := by
    unfold MDns.AddQueryObject
    rw [h2]
    dsimp only
    rw [if_pos (by rw [hb1]; decide)]
  have c6 : (m1.spill m.buffer_pointer).data_size = 4107 := by
    rw [(spill_cursor _ _).2.1, hs1, hb1]
  have c7 : holds (m1.spill m.buffer_pointer).data_buffer 0
      [0, 0, 0, 0, 1, 59, 0, 0, 0, 0, 0, 0] := by
    rw [(spill_cursor _ _).2.2]
    exact hh
  generalize m1.spill m.buffer_pointer = m' at c0 c1 c2 c3 c4 c5 c6 c7
  refine ⟨m', c0, c1, c6, c2, c3, c4, c5, c7, ?_⟩
  intro fuel query
  unfold MDns.AddQueryObject MDns.AddQuery
  rw [if_pos (Or.inl (by rw [c3]; decide))]
  dsimp only
  rw [if_pos (by rw [c1]; decide), spill_self m' ⟨by rw [c2]; decide, by rw [c3]; decide,
    by rw [c4]; decide, by rw [c5]; decide⟩]

/-! ## C15: the cursor while building -/

/-- C15 as stated fails.  After `Clear()` and 314 queries for `x.local` the cursor is at
4094, inside the array.  The 315th query takes 13 bytes and is not refused: it is
written to the cells 4094 to 4106, and cursor and `data_size` end at 4107, above
`MAX_PACKET_SIZE`.  Its last bytes have gone into `answer_count`, so every later
`AddQuery` finds records and returns at once. -/
theorem build_overflow_counterexample :
    addQueries 8 exampleQuery 314 exampleState.Clear = some nearlyFullState
      ∧ Reachable nearlyFullState ∧ nearlyFullState.buffer_pointer = 4094
      ∧ ∃ m', nearlyFullState.AddQueryObject 8 exampleQuery = some m'
        ∧ m'.buffer_pointer = 4107 ∧ m'.data_size = 4107 ∧ ¬ m'.data_size ≤ MAX_PACKET_SIZE
        ∧ ∀ fuel query, m'.AddQueryObject fuel query = some m' := by
  obtain ⟨h1, hr, hb, -⟩ := nearlyFullState_spec
  obtain ⟨m', h2, hb2, hs2, -, -, -, -, -, hstop⟩ := overflow_step
  refine ⟨h1, hr, hb, m', h2, hb2, hs2, ?_, hstop⟩
  rw [hs2]
  decide

/-- C15, amended.  In every state that `Clear()`, `AddQuery` and `AddAnswer` reach by
calls that leave the cursor at most at `MAX_PACKET_SIZE`, `12 ≤ buffer_pointer =
data_size ≤ MAX_PACKET_SIZE`.  A further call stores only in front of the cursor it
leaves, and nothing refuses an item for lack of room: `AddQuery` with no answer yet
moves the cursor by more than four, `AddAnswer` by more than ten, wherever the cursor
is. -/
theorem build_cursor_invariant (m : MDns) (h : Reachable m) :
    12 ≤ m.buffer_pointer ∧ m.buffer_pointer = m.data_size ∧ m.data_size ≤ MAX_PACKET_SIZE
      ∧ (∀ fuel query m', m.AddQuery fuel query = some m' →
          (∀ j, m'.buffer_pointer ≤ j → m'.data_buffer j = m.data_buffer j)
          ∧ (m.answer_count = 0 → m.buffer_pointer + 4 < m'.buffer_pointer))
      ∧ (∀ fuel answer rdata_len0 m', m.AddAnswer fuel answer rdata_len0 = some m' →
          (∀ j, m'.buffer_pointer ≤ j → m'.data_buffer j = m.data_buffer j)
          ∧ m.buffer_pointer + 10 < m'.buffer_pointer) := by
  obtain ⟨h12, hsz, hns, har, -⟩ := Reachable_header m h
  have hmax : m.buffer_pointer ≤ MAX_PACKET_SIZE := by
    cases h with
    | clear m0 => show 12 ≤ MAX_PACKET_SIZE; decide
    | addQuery _ _ _ _ _ _ hb => exact hb
    | addAnswer _ _ _ _ _ _ _ hb => exact hb
  refine ⟨h12, hsz.symm, by rw [hsz]; exact hmax, ?_, ?_⟩
  · intro fuel query m' hstep
    obtain ⟨h1, h2⟩ := AddQuery_above fuel m query m' h12 hstep
    exact ⟨h1, fun ha => h2 ⟨ha, hns, har⟩⟩
  · intro fuel answer rdata_len0 m' hstep
    obtain ⟨h1, h2⟩ := AddAnswer_above fuel m answer rdata_len0 m' h12 hstep
    exact ⟨h1, h2 ⟨hns, har⟩⟩

/-- C15, amended, at a concrete input: the state after `Clear()` and 314 queries for
`x.local`, where the cursor is at 4094. -/
theorem build_cursor_invariant_witness :
    Reachable nearlyFullState
      ∧ (12 ≤ nearlyFullState.buffer_pointer
        ∧ nearlyFullState.buffer_pointer = nearlyFullState.data_size
        ∧ nearlyFullState.data_size ≤ MAX_PACKET_SIZE
        ∧ (∀ fuel query m', nearlyFullState.AddQuery fuel query = some m' →
            (∀ j, m'.buffer_pointer ≤ j → m'.data_buffer j = nearlyFullState.data_buffer j)
            ∧ (nearlyFullState.answer_count = 0 →
                nearlyFullState.buffer_pointer + 4 < m'.buffer_pointer))
        ∧ (∀ fuel answer rdata_len0 m',
            nearlyFullState.AddAnswer fuel answer rdata_len0 = some m' →
            (∀ j, m'.buffer_pointer ≤ j → m'.data_buffer j = nearlyFullState.data_buffer j)
            ∧ nearlyFullState.buffer_pointer + 10 < m'.buffer_pointer)) :=
  ⟨nearlyFullState_spec.2.1, build_cursor_invariant nearlyFullState nearlyFullState_spec.2.1⟩

/-! ## C21: the header reflects the build state -/

/-- C21 as stated fails.  The state after `Clear()` and 314 queries for `x.local` is
reached inside the array.  The 315th query is written over the end of `data_buffer`:
afterwards `query_count` is 27745 and `answer_count` is 98316, while the header bytes 4
to 7 are `1, 59, 0, 0` (315 queries, no answer). -/
theorem header_overflow_counterexample :
    addQueries 8 exampleQuery 314 exampleState.Clear = some nearlyFullState
      ∧ Reachable nearlyFullState
      ∧ ∃ m', nearlyFullState.AddQueryObject 8 exampleQuery = some m'
        ∧ m'.query_count = 27745 ∧ m'.answer_count = 98316
        ∧ holds m'.data_buffer 0 [0, 0, 0, 0, 1, 59, 0, 0, 0, 0, 0, 0]
        ∧ ¬ holds m'.data_buffer 0
            [0, 0, 0, 0, m'.query_count / 256 % 256, m'.query_count % 256,
             m'.answer_count / 256 % 256, m'.answer_count % 256, 0, 0, 0, 0] := by
  obtain ⟨h1, hr, -⟩ := nearlyFullState_spec
  obtain ⟨m', h2, -, -, hq, ha, -, -, hh, -⟩ := overflow_step
  refine ⟨h1, hr, m', h2, hq, ha, hh, ?_⟩
  intro hc
  have e1 := holds_get _ _ _ hh 4 (by decide)
  have e2 := holds_get _ _ _ hc 4 (by simp only [List.length_cons, List.length_nil]; omega)
  rw [hq] at e2
  simp only [List.getD_cons_succ, List.getD_cons_zero] at e1 e2
  rw [e1] at e2
  exact absurd e2 (by decide)

/-- C21, amended.  In every state that `Clear()`, `AddQuery` and `AddAnswer` reach by
calls that leave the cursor at most at `MAX_PACKET_SIZE`, the 12 header bytes are
`[0, 0, 0, 0, query_count / 256 mod 256, query_count mod 256, answer_count / 256 mod 256,
answer_count mod 256, 0, 0, 0, 0]`, `ns_count` and `ar_count` are 0 and `data_size`
equals the cursor; in particular byte 2, which holds the QR bit, is 0. -/
theorem header_reflects_build_state (m : MDns) (h : Reachable m) :
    holds m.data_buffer 0
        [0, 0, 0, 0, m.query_count / 256 % 256, m.query_count % 256,
         m.answer_count / 256 % 256, m.answer_count % 256, 0, 0, 0, 0]
      ∧ m.ns_count = 0 ∧ m.ar_count = 0 ∧ m.data_size = m.buffer_pointer
      ∧ m.data_buffer 2 = 0 := by
  obtain ⟨-, hsz, hns, har, hh⟩ := Reachable_header m h
  have e2 := holds_get _ _ _ hh 2
    (by simp only [List.length_cons, List.length_nil]; omega)
  simp only [List.getD_cons_succ, List.getD_cons_zero, Nat.zero_add] at e2
  exact ⟨hh, hns, har, hsz, e2⟩

/-- C21, amended, at a concrete input: the packet that contains only the `A` answer for
`x.local` (cursor 35) has `answer_count = 1` and `query_count = 0`, and its byte 2 is
0. -/
theorem header_reflects_build_state_witness :
    Reachable answerOnlyState
      ∧ (holds answerOnlyState.data_buffer 0
          [0, 0, 0, 0, answerOnlyState.query_count / 256 % 256,
           answerOnlyState.query_count % 256, answerOnlyState.answer_count / 256 % 256,
           answerOnlyState.answer_count % 256, 0, 0, 0, 0]
        ∧ answerOnlyState.ns_count = 0 ∧ answerOnlyState.ar_count = 0
        ∧ answerOnlyState.data_size = answerOnlyState.buffer_pointer
        ∧ answerOnlyState.data_buffer 2 = 0) :=
  have hr : Reachable answerOnlyState :=
    Reachable.addAnswer exampleState.Clear answerOnlyState 8 exampleA 0
      (Reachable.clear exampleState) rfl (by decide)
  ⟨hr, header_reflects_build_state answerOnlyState hr⟩



end mdns
